import Mathlib

/-!
# `boost::geometry::index::static_vector<Value, Capacity>`

A shallow embedding of `include/boost/geometry/extensions/index/static_vector.hpp`.

* The storage region is a map from slot index to slot content; `none` is an
  uninitialized slot, `some v` a slot holding the value `v`.
* Iterators of the container are offsets from `begin()`, so `begin() = 0` and
  `end() = m_size`.
* `BOOST_ASSERT_MSG` is active (a debug build): a failed assertion ends the call
  with `Outcome.assertion_failed`.
* An element operation that may throw (copy construction, default construction,
  copy assignment) consults the counter `fuel`: `none` never throws, `some n`
  lets `n` more element operations succeed and makes the next one throw.
* `size_type` and `difference_type` are natural numbers here (no wrap-around),
  except in `size_type_add`, `insert_n_checks` and `insert_n_wrapping`, which do
  the arithmetic of `m_size` in `insert(position, count, value)` modulo `2 ^ w`,
  `count` being the one `size_type` argument a caller can choose freely.
-/

/-- The `boost::has_trivial_*` type traits of the element type. -/
structure Traits where
  has_trivial_assign : Bool
  has_trivial_copy : Bool
  has_trivial_constructor : Bool
  has_trivial_destructor : Bool
deriving DecidableEq, Repr

/-- Kinds of slot events recorded in the trace of a container. -/
inductive EventKind where
  | construct
  | assign
  | destroy
  | raw_write
deriving DecidableEq, Repr

/-- A slot event: what happened, at which slot, and the value of `m_size` then. -/
structure Event where
  kind : EventKind
  index : Nat
  size : Nat
deriving DecidableEq, Repr

/-- The exceptions that can propagate out of a member function. -/
inductive Exception where
  | out_of_range
  | element_operation
deriving DecidableEq, Repr

/-- The assertions of the class, by their message. -/
inductive Assertion where
  | capacity
  | empty
  | invalid_iterator
  | index_out_of_bounds
  | invalid_range
deriving DecidableEq, Repr

/-- How a call ends: it returns, an exception propagates, or an assertion fails.
Each case carries the state of the container at that moment. -/
inductive Outcome (α σ : Type) where
  | returned (a : α) (s : σ)
  | threw (e : Exception) (s : σ)
  | assertion_failed (a : Assertion) (s : σ)

/-- Sequencing of two steps: the second runs only if the first returned. -/
def Outcome.bind {α β σ : Type} (o : Outcome α σ) (f : α → σ → Outcome β σ) : Outcome β σ :=
  match o with
  | .returned a s => f a s
  | .threw e s => .threw e s
  | .assertion_failed a s => .assertion_failed a s

/-- The state an outcome carries. -/
def Outcome.state {α σ : Type} : Outcome α σ → σ
  | .returned _ s => s
  | .threw _ s => s
  | .assertion_failed _ s => s

/-- Whether the call returned normally. -/
def Outcome.is_returned {α σ : Type} : Outcome α σ → Bool
  | .returned _ _ => true
  | _ => false

/-- Whether an exception propagated out of the call. -/
def Outcome.is_threw {α σ : Type} : Outcome α σ → Bool
  | .threw _ _ => true
  | _ => false

/-- The assertion that failed, if one did. -/
def Outcome.failed_assertion {α σ : Type} : Outcome α σ → Option Assertion
  | .assertion_failed a _ => some a
  | _ => none

/-- A three-way postcondition on an outcome. -/
def Outcome.sat {α σ : Type} (o : Outcome α σ) (Qr : α → σ → Prop) (Qt : σ → Prop)
    (Qa : σ → Prop) : Prop :=
  match o with
  | .returned a s => Qr a s
  | .threw _ s => Qt s
  | .assertion_failed _ s => Qa s

/-- The iterator types a source range can have. -/
inductive IteratorKind where
  | pointer
  | random_access
  | forward
deriving DecidableEq, Repr

/-- Whether `boost::iterator_traversal` is `random_access_traversal_tag`. -/
def IteratorKind.is_random_access : IteratorKind → Bool
  | .pointer => true
  | .random_access => true
  | .forward => false

/-- Whether the iterator is `value_type *` or `const value_type *`. -/
def IteratorKind.is_pointer : IteratorKind → Bool
  | .pointer => true
  | _ => false

/-- A `value_type const&` argument: a value of the caller, or a reference to
slot `j` of the container itself, read when the code uses it. -/
inductive ValueRef (Value : Type) where
  | value (v : Value)
  | element (j : Nat)

/-- Read through a reference, given the current storage. -/
def ValueRef.read {Value : Type} (x : ValueRef Value) (m : Nat → Option Value) : Option Value :=
  match x with
  | .value v => some v
  | .element j => m j

/-- A source range `[first, last)` by its first iterator: a pointer into the
container itself, a pointer into the storage of another container, or a
sequence of the caller behind iterators of some kind. -/
inductive Range (Value : Type) where
  | self (first : Nat)
  | storage (m : Nat → Option Value) (first : Nat)
  | input (kind : IteratorKind) (items : List Value)

/-- Element `k` of a range, `*(first + k)`, given the current storage. -/
def Range.read {Value : Type} (r : Range Value) (k : Nat) (m : Nat → Option Value) :
    Option Value :=
  match r with
  | .self first => m (first + k)
  | .storage o first => o (first + k)
  | .input _ items => items[k]?

/-- Whether the iterator type of the range is a pointer to `value_type`. -/
def Range.is_pointer {Value : Type} : Range Value → Bool
  | .self _ => true
  | .storage _ _ => true
  | .input kind _ => kind.is_pointer

/-- The container: the storage region, `m_size`, and two ghost fields, the
counter of element operations that still succeed and the trace of slot events. -/
structure static_vector (Value : Type) (Capacity : Nat) where
  m_storage : Nat → Option Value
  m_size : Nat
  fuel : Option Nat
  log : List Event

namespace static_vector

variable {Value : Type} {Capacity : Nat}

/-- Storage with slot `i` overwritten by `v`. -/
def write (m : Nat → Option Value) (i : Nat) (v : Option Value) : Nat → Option Value :=
  fun j => if j = i then v else m j

/-- One step of the fault counter: `none` means the operation throws. -/
def tick : Option Nat → Option (Option Nat)
  | none => some none
  | some 0 => none
  | some (n + 1) => some (some n)

/-- The trace extended by one event at slot `i`. -/
def record (k : EventKind) (i : Nat) (s : static_vector Value Capacity) : List Event :=
  s.log ++ [⟨k, i, s.m_size⟩]

/-- Placement new, `new (ptr) value_type(v)` or `new (ptr) value_type()`:
constructs slot `i`; may throw. -/
def placement_new (i : Nat) (v : Option Value) (s : static_vector Value Capacity) :
    Outcome Unit (static_vector Value Capacity) :=
  match tick s.fuel with
  | none => .threw .element_operation s
  | some f => .returned ()
      { s with m_storage := write s.m_storage i v, fuel := f, log := record .construct i s }

/-- Element assignment `*ptr = v`; may throw, the slot then keeps its value. -/
def assign_element (i : Nat) (v : Option Value) (s : static_vector Value Capacity) :
    Outcome Unit (static_vector Value Capacity) :=
  match tick s.fuel with
  | none => .threw .element_operation s
  | some f => .returned ()
      { s with m_storage := write s.m_storage i v, fuel := f, log := record .assign i s }

/-- The destructor call `ptr->~value_type()`: slot `i` becomes uninitialized. -/
def destructor (i : Nat) (s : static_vector Value Capacity) : static_vector Value Capacity :=
  { s with m_storage := write s.m_storage i none, log := record .destroy i s }

/-- Storage with the `n` slots from `dst` overwritten by `src 0, ..., src (n - 1)`. -/
def blit (src : Nat → Option Value) (dst n : Nat) (m : Nat → Option Value) :
    Nat → Option Value :=
  fun i => if dst ≤ i ∧ i < dst + n then src (i - dst) else m i

/-- Storage with the slots `[first, last)` uninitialized. -/
def wipe (first last : Nat) (m : Nat → Option Value) : Nat → Option Value :=
  fun i => if first ≤ i ∧ i < last then none else m i

/-- The raw byte copies `::memcpy(dst, src, n * sizeof(value_type))` and
`::memmove`: the `n` source elements are read first, then written to slots
`dst, ..., dst + n - 1`. Never throws. -/
def raw_copy (src : Nat → Option Value) (dst n : Nat) (s : static_vector Value Capacity) :
    static_vector Value Capacity :=
  { s with
    m_storage := blit src dst n s.m_storage,
    log := s.log ++ (List.range n).map (fun k => ⟨.raw_write, dst + k, s.m_size⟩) }

/-- ::memcpy from a range. -/
def memcpy (src : Range Value) (dst n : Nat) (s : static_vector Value Capacity) :
    Outcome Unit (static_vector Value Capacity) :=
  .returned () (raw_copy (fun k => src.read k s.m_storage) dst n s)

/-- ::memmove inside the container, from slot `first` to slot `dst`. -/
def memmove (dst first n : Nat) (s : static_vector Value Capacity) :
    Outcome Unit (static_vector Value Capacity) :=
  .returned () (raw_copy (fun k => s.m_storage (first + k)) dst n s)

/-- The loop of `std::copy` and `std::fill_n`: assigns source element `k` to slot
`dst + k`, in ascending order, for `n` elements starting at `k`. -/
def assign_ascending (rd : Nat → (Nat → Option Value) → Option Value) (dst : Nat) :
    (n k : Nat) → static_vector Value Capacity → Outcome Unit (static_vector Value Capacity)
  | 0, _, s => .returned () s
  | n + 1, k, s =>
    match assign_element (dst + k) (rd k s.m_storage) s with
    | .returned _ s1 => assign_ascending rd dst n (k + 1) s1
    | .threw e s1 => .threw e s1
    | .assertion_failed a s1 => .assertion_failed a s1

/-- The loop of `std::copy_backward`: assigns source element `k` to slot
`dst + k` for `k = n - 1, ..., 0`, in descending order. -/
def assign_descending (rd : Nat → (Nat → Option Value) → Option Value) (dst : Nat) :
    (n : Nat) → static_vector Value Capacity → Outcome Unit (static_vector Value Capacity)
  | 0, s => .returned () s
  | n + 1, s =>
    match assign_element (dst + n) (rd n s.m_storage) s with
    | .returned _ s1 => assign_descending rd dst n s1
    | .threw e s1 => .threw e s1
    | .assertion_failed a s1 => .assertion_failed a s1

/-- The loop `for ( ; first != last ; ++first ) first->~value_type();` over the
`n` slots from `first`. -/
def destroy_dispatch_false (first : Nat) :
    (n : Nat) → static_vector Value Capacity → static_vector Value Capacity
  | 0, s => s
  | n + 1, s => destroy_dispatch_false (first + 1) n (destructor first s)

/-- Member `destroy(first, last)`: nothing for a trivial destructor, the
destructor loop otherwise. -/
def destroy (T : Traits) (first last : Nat) (s : static_vector Value Capacity) :
    static_vector Value Capacity :=
  if T.has_trivial_destructor then s else destroy_dispatch_false first (last - first) s

/-- Member `destroy(it)` for a single slot. -/
def destroy_at (T : Traits) (it : Nat) (s : static_vector Value Capacity) :
    static_vector Value Capacity :=
  if T.has_trivial_destructor then s else destructor it s

/-- A construction loop with its rollback: constructs slot `dst + k` from
source element `k`, ascending, for `n` elements starting at `k`; when a
construction throws, the slots `[dst, dst + k)` constructed so far are
destroyed and the exception is rethrown. This is the `try`/`catch` of
`construct_dispatch`, and what `std::uninitialized_fill` and
`std::uninitialized_copy` do. -/
def construct_ascending (T : Traits) (rd : Nat → (Nat → Option Value) → Option Value)
    (dst : Nat) :
    (n k : Nat) → static_vector Value Capacity → Outcome Unit (static_vector Value Capacity)
  | 0, _, s => .returned () s
  | n + 1, k, s =>
    match placement_new (dst + k) (rd k s.m_storage) s with
    | .returned _ s1 => construct_ascending T rd dst n (k + 1) s1
    | .threw e s1 => .threw e (destroy T dst (dst + k) s1)
    | .assertion_failed a s1 => .assertion_failed a s1

/-- Algorithm std::copy(first, last, dst) for `n = distance(first, last)`. -/
def std_copy (src : Range Value) (n dst : Nat) (s : static_vector Value Capacity) :
    Outcome Unit (static_vector Value Capacity) :=
  assign_ascending src.read dst n 0 s

/-- Algorithm std::copy_backward(first, last, dst_end) inside the container. -/
def std_copy_backward (first last dst_end : Nat) (s : static_vector Value Capacity) :
    Outcome Unit (static_vector Value Capacity) :=
  assign_descending (Range.self first).read (dst_end - (last - first)) (last - first) s

/-- Algorithm std::fill_n(dst, n, value). -/
def std_fill_n (dst n : Nat) (value : ValueRef Value) (s : static_vector Value Capacity) :
    Outcome Unit (static_vector Value Capacity) :=
  assign_ascending (fun _ m => value.read m) dst n 0 s

/-- Algorithm std::uninitialized_fill(first, last, value). -/
def std_uninitialized_fill (T : Traits) (first last : Nat) (value : ValueRef Value)
    (s : static_vector Value Capacity) : Outcome Unit (static_vector Value Capacity) :=
  construct_ascending T (fun _ m => value.read m) first (last - first) 0 s

/-- Algorithm std::uninitialized_copy(first, last, dst) for `n = distance(first, last)`. -/
def std_uninitialized_copy (T : Traits) (src : Range Value) (n dst : Nat)
    (s : static_vector Value Capacity) : Outcome Unit (static_vector Value Capacity) :=
  construct_ascending T src.read dst n 0 s

/-- Member `copy(first, last, dst)`: `memcpy` when assignment is trivial and the
iterator is a pointer, `std::copy` otherwise. -/
def copy (T : Traits) (src : Range Value) (n dst : Nat) (s : static_vector Value Capacity) :
    Outcome Unit (static_vector Value Capacity) :=
  if T.has_trivial_assign && src.is_pointer then memcpy src dst n s else std_copy src n dst s

/-- Member `uninitialized_copy(first, last, dst)`: `memcpy` when copying is trivial
and the iterator is a pointer, `std::uninitialized_copy` otherwise. -/
def uninitialized_copy (T : Traits) (src : Range Value) (n dst : Nat)
    (s : static_vector Value Capacity) : Outcome Unit (static_vector Value Capacity) :=
  if T.has_trivial_copy && src.is_pointer then memcpy src dst n s
  else std_uninitialized_copy T src n dst s

/-- Member `uninitialized_fill(dst, v)`: `memcpy` of one element when copying is
trivial, placement new otherwise. -/
def uninitialized_fill (T : Traits) (dst : Nat) (v : ValueRef Value)
    (s : static_vector Value Capacity) : Outcome Unit (static_vector Value Capacity) :=
  if T.has_trivial_copy then .returned () (raw_copy (fun _ => v.read s.m_storage) dst 1 s)
  else placement_new dst (v.read s.m_storage) s

/-- Member `move(first, last, dst)`: `memmove` when assignment is trivial,
`std::copy` otherwise. -/
def move (T : Traits) (first last dst : Nat) (s : static_vector Value Capacity) :
    Outcome Unit (static_vector Value Capacity) :=
  if T.has_trivial_assign then memmove dst first (last - first) s
  else std_copy (Range.self first) (last - first) dst s

/-- Member `move_backward(first, last, dst)`: `memmove` to `dst - n` when
assignment is trivial, `std::copy_backward` otherwise. -/
def move_backward (T : Traits) (first last dst : Nat) (s : static_vector Value Capacity) :
    Outcome Unit (static_vector Value Capacity) :=
  if T.has_trivial_assign then memmove (dst - (last - first)) first (last - first) s
  else std_copy_backward first last dst s

/-- Member `fill(dst, v)`: `memcpy` of one element when assignment is trivial,
`*ptr = v` otherwise. -/
def fill (T : Traits) (dst : Nat) (v : ValueRef Value) (s : static_vector Value Capacity) :
    Outcome Unit (static_vector Value Capacity) :=
  if T.has_trivial_assign then .returned () (raw_copy (fun _ => v.read s.m_storage) dst 1 s)
  else assign_element dst (v.read s.m_storage) s

/-- Member `construct(first, last)`: nothing for a trivial constructor, the
default-construction loop with rollback otherwise. -/
def construct [Inhabited Value] (T : Traits) (first last : Nat)
    (s : static_vector Value Capacity) : Outcome Unit (static_vector Value Capacity) :=
  if T.has_trivial_constructor then .returned () s
  else construct_ascending T (fun _ _ => some default) first (last - first) 0 s

/-- Assertion `s <= Capacity`. -/
def check_capacity (n : Nat) (s : static_vector Value Capacity) :
    Outcome Unit (static_vector Value Capacity) :=
  if n ≤ Capacity then .returned () s else .assertion_failed .capacity s

/-- Assertion `0 < m_size`. -/
def check_empty (s : static_vector Value Capacity) :
    Outcome Unit (static_vector Value Capacity) :=
  if 0 < s.m_size then .returned () s else .assertion_failed .empty s

/-- Assertion `0 <= dist && dist < m_size` for `dist = position - begin()`. -/
def check_iterator_end_neq (position : Nat) (s : static_vector Value Capacity) :
    Outcome Unit (static_vector Value Capacity) :=
  if position < s.m_size then .returned () s else .assertion_failed .invalid_iterator s

/-- Assertion `0 <= dist && dist <= m_size` for `dist = position - begin()`. -/
def check_iterator_end_eq (position : Nat) (s : static_vector Value Capacity) :
    Outcome Unit (static_vector Value Capacity) :=
  if position ≤ s.m_size then .returned () s else .assertion_failed .invalid_iterator s

/-- The assignment `m_size = n`. -/
def set_size (n : Nat) (s : static_vector Value Capacity) : static_vector Value Capacity :=
  { s with m_size := n }

/-- Accessor `size()`. -/
def size (s : static_vector Value Capacity) : Nat := s.m_size

/-- Accessor `capacity()`. -/
def capacity (_s : static_vector Value Capacity) : Nat := Capacity

/-- Accessor `empty()`. -/
def empty (s : static_vector Value Capacity) : Bool := decide (0 = s.m_size)

/-- The sequence `*begin(), ..., *(end() - 1)` of slot contents. -/
def elements (s : static_vector Value Capacity) : List (Option Value) :=
  (List.range s.m_size).map s.m_storage

/-- The contents of all `Capacity` slots of the storage region. -/
def slots (s : static_vector Value Capacity) : List (Option Value) :=
  (List.range Capacity).map s.m_storage

/-- Constructor `static_vector()`: an uninitialized region and `m_size(0)`. The
arguments are the ghost fields of the new object. -/
def default_ctor (fuel : Option Nat) (log : List Event) : static_vector Value Capacity :=
  { m_storage := fun _ => none, m_size := 0, fuel := fuel, log := log }

/-- Member `resize(count)`. -/
def resize [Inhabited Value] (T : Traits) (count : Nat) (s : static_vector Value Capacity) :
    Outcome Unit (static_vector Value Capacity) :=
  if count < s.m_size then
    .returned () (set_size count (destroy T count s.m_size s))
  else
    (check_capacity count s).bind fun _ s1 =>
    (construct T s1.m_size count s1).bind fun _ s2 =>
    .returned () (set_size count s2)

/-- Member `resize(count, value)`. -/
def resize_value (T : Traits) (count : Nat) (value : ValueRef Value)
    (s : static_vector Value Capacity) : Outcome Unit (static_vector Value Capacity) :=
  if count < s.m_size then
    .returned () (set_size count (destroy T count s.m_size s))
  else
    (check_capacity count s).bind fun _ s1 =>
    (std_uninitialized_fill T s1.m_size count value s1).bind fun _ s2 =>
    .returned () (set_size count s2)

/-- Member `reserve(count)`. -/
def reserve (count : Nat) (s : static_vector Value Capacity) :
    Outcome Unit (static_vector Value Capacity) :=
  check_capacity count s

/-- Member `push_back(value)`. -/
def push_back (T : Traits) (value : ValueRef Value) (s : static_vector Value Capacity) :
    Outcome Unit (static_vector Value Capacity) :=
  (check_capacity (s.m_size + 1) s).bind fun _ s1 =>
  (uninitialized_fill T s1.m_size value s1).bind fun _ s2 =>
  .returned () (set_size (s2.m_size + 1) s2)

/-- Member `pop_back()`. -/
def pop_back (T : Traits) (s : static_vector Value Capacity) :
    Outcome Unit (static_vector Value Capacity) :=
  (check_empty s).bind fun _ s1 =>
  let s2 := destroy_at T (s1.m_size - 1) s1
  .returned () (set_size (s2.m_size - 1) s2)

/-- Member `insert(position, value)`. -/
def insert (T : Traits) (position : Nat) (value : ValueRef Value)
    (s : static_vector Value Capacity) : Outcome Unit (static_vector Value Capacity) :=
  (check_iterator_end_eq position s).bind fun _ s1 =>
  (check_capacity (s1.m_size + 1) s1).bind fun _ s2 =>
  if position = s2.m_size then
    (uninitialized_fill T position value s2).bind fun _ s3 =>
    .returned () (set_size (s3.m_size + 1) s3)
  else
    (uninitialized_fill T s2.m_size (ValueRef.element (s2.m_size - 1)) s2).bind fun _ s3 =>
    let s4 := set_size (s3.m_size + 1) s3
    (move_backward T position (s4.m_size - 2) (s4.m_size - 1) s4).bind fun _ s5 =>
    fill T position value s5

/-- Member `insert(position, count, value)` with the sum `m_size + count` taken
in the natural numbers: the member function for arguments whose sum does not
wrap in `size_type`, that is `m_size + count < 2 ^ w`, where it equals
`insert_n_wrapping w` (theorem `insert_n_wrapping_eq`). -/
def insert_n (T : Traits) (position count : Nat) (value : ValueRef Value)
    (s : static_vector Value Capacity) : Outcome Unit (static_vector Value Capacity) :=
  (check_iterator_end_eq position s).bind fun _ s1 =>
  (check_capacity (s1.m_size + count) s1).bind fun _ s2 =>
  if position = s2.m_size then
    (std_uninitialized_fill T position (position + count) value s2).bind fun _ s3 =>
    .returned () (set_size (s3.m_size + count) s3)
  else
    let to_move := s2.m_size - position
    if count < to_move then
      (uninitialized_copy T (Range.self (s2.m_size - count)) count s2.m_size s2).bind
        fun _ s3 =>
      let s4 := set_size (s3.m_size + count) s3
      (move_backward T position (position + to_move - count) (s4.m_size - count) s4).bind
        fun _ s5 =>
      std_fill_n position count value s5
    else
      (std_uninitialized_fill T s2.m_size (position + count) value s2).bind fun _ s3 =>
      let s4 := set_size (s3.m_size + (count - to_move)) s3
      (uninitialized_copy T (Range.self position) to_move (position + count) s4).bind
        fun _ s5 =>
      let s6 := set_size (s5.m_size + to_move) s5
      std_fill_n position to_move value s6

/-- Member `insert_in_the_middle(position, first, last, count)` for a source
sequence `items` behind iterators of kind `kind`. -/
def insert_in_the_middle (T : Traits) (position : Nat) (kind : IteratorKind)
    (items : List Value) (count : Nat) (s : static_vector Value Capacity) :
    Outcome Unit (static_vector Value Capacity) :=
  let to_move := s.m_size - position
  if count < to_move then
    (uninitialized_copy T (Range.self (s.m_size - count)) count s.m_size s).bind fun _ s1 =>
    let s2 := set_size (s1.m_size + count) s1
    (move_backward T position (position + to_move - count) (s2.m_size - count) s2).bind
      fun _ s3 =>
    copy T (Range.input kind items) count position s3
  else
    let middle_iter := items.drop to_move
    (uninitialized_copy T (Range.input kind middle_iter) (count - to_move) s.m_size s).bind
      fun _ s1 =>
    let s2 := set_size (s1.m_size + (count - to_move)) s1
    (uninitialized_copy T (Range.self position) to_move (position + count) s2).bind
      fun _ s3 =>
    let s4 := set_size (s3.m_size + to_move) s3
    copy T (Range.input kind items) to_move position s4

/-- The loop of `uninitialized_copy_checked(first, last, dest, max_count)` with
its rollback; `count` elements have been constructed so far. -/
def uninitialized_copy_checked_loop (T : Traits) (dest max_count : Nat) :
    (items : List Value) → (count : Nat) → static_vector Value Capacity →
      Outcome (Bool × Nat) (static_vector Value Capacity)
  | [], count, s => .returned (true, count) s
  | v :: rest, count, s =>
    if max_count ≤ count then .returned (false, count) s
    else
      match uninitialized_fill T (dest + count) (ValueRef.value v) s with
      | .returned _ s1 => uninitialized_copy_checked_loop T dest max_count rest (count + 1) s1
      | .threw e s1 => .threw e (destroy T dest (dest + count) s1)
      | .assertion_failed a s1 => .assertion_failed a s1

/-- Member `uninitialized_copy_checked(first, last, dest, max_count)`. -/
def uninitialized_copy_checked (T : Traits) (items : List Value) (dest max_count : Nat)
    (s : static_vector Value Capacity) : Outcome (Bool × Nat) (static_vector Value Capacity) :=
  uninitialized_copy_checked_loop T dest max_count items 0 s

/-- Member `insert_dispatch` for a random-access traversal. -/
def insert_dispatch_random_access (T : Traits) (position : Nat) (kind : IteratorKind)
    (items : List Value) (s : static_vector Value Capacity) :
    Outcome Unit (static_vector Value Capacity) :=
  (check_iterator_end_eq position s).bind fun _ s1 =>
  let count := items.length
  (check_capacity (s1.m_size + count) s1).bind fun _ s2 =>
  if position = s2.m_size then
    (uninitialized_copy T (Range.input kind items) count position s2).bind fun _ s3 =>
    .returned () (set_size (s3.m_size + count) s3)
  else
    insert_in_the_middle T position kind items count s2

/-- Member `insert_dispatch` for any other traversal. -/
def insert_dispatch_not_random_access (T : Traits) (position : Nat) (kind : IteratorKind)
    (items : List Value) (s : static_vector Value Capacity) :
    Outcome Unit (static_vector Value Capacity) :=
  (check_iterator_end_eq position s).bind fun _ s1 =>
  if position = s1.m_size then
    (uninitialized_copy_checked T items position (Capacity - position) s1).bind
      fun copy_data s2 =>
    (check_capacity (if copy_data.1 then s2.m_size + copy_data.2 else Capacity + 1) s2).bind
      fun _ s3 =>
    .returned () (set_size (s3.m_size + copy_data.2) s3)
  else
    let count := items.length
    (check_capacity (s1.m_size + count) s1).bind fun _ s2 =>
    insert_in_the_middle T position kind items count s2

/-- Member `insert(position, first, last)`. -/
def insert_range (T : Traits) (position : Nat) (kind : IteratorKind) (items : List Value)
    (s : static_vector Value Capacity) : Outcome Unit (static_vector Value Capacity) :=
  if kind.is_random_access then insert_dispatch_random_access T position kind items s
  else insert_dispatch_not_random_access T position kind items s

/-- Member `erase(position)`. -/
def erase (T : Traits) (position : Nat) (s : static_vector Value Capacity) :
    Outcome Unit (static_vector Value Capacity) :=
  (check_iterator_end_neq position s).bind fun _ s1 =>
  (move T (position + 1) s1.m_size position s1).bind fun _ s2 =>
  let s3 := destroy_at T (s2.m_size - 1) s2
  .returned () (set_size (s3.m_size - 1) s3)

/-- Member `erase(first, last)`. -/
def erase_range (T : Traits) (first last : Nat) (s : static_vector Value Capacity) :
    Outcome Unit (static_vector Value Capacity) :=
  (check_iterator_end_neq first s).bind fun _ s1 =>
  (check_iterator_end_neq last s1).bind fun _ s2 =>
  let n : Int := (last : Int) - (first : Int)
  if 0 ≤ n then
    (move T last s2.m_size first s2).bind fun _ s3 =>
    let s4 := destroy T (s3.m_size - n.toNat) s3.m_size s3
    .returned () (set_size (s4.m_size - n.toNat) s4)
  else .assertion_failed .invalid_range s2

/-- Member `assign_dispatch` for a random-access traversal. -/
def assign_dispatch_random_access (T : Traits) (kind : IteratorKind) (items : List Value)
    (s : static_vector Value Capacity) : Outcome Unit (static_vector Value Capacity) :=
  let n := items.length
  (check_capacity n s).bind fun _ s1 =>
  if s1.m_size ≤ n then
    (copy T (Range.input kind items) s1.m_size 0 s1).bind fun _ s2 =>
    (uninitialized_copy T (Range.input kind (items.drop s2.m_size)) (n - s2.m_size)
      s2.m_size s2).bind fun _ s3 =>
    .returned () (set_size n s3)
  else
    (copy T (Range.input kind items) n 0 s1).bind fun _ s2 =>
    .returned () (set_size n (destroy T n s2.m_size s2))

/-- The first loop of the forward-only `assign_dispatch`,
`for ( ; it != end() && first != last ; ++it, ++first, ++s ) *it = *first;`.
It returns `it` (which equals `s`) and the rest of the source. -/
def assign_dispatch_loop :
    (items : List Value) → (it : Nat) → static_vector Value Capacity →
      Outcome (Nat × List Value) (static_vector Value Capacity)
  | [], it, s => .returned (it, []) s
  | v :: rest, it, s =>
    if it = s.m_size then .returned (it, v :: rest) s
    else
      match assign_element it (some v) s with
      | .returned _ s1 => assign_dispatch_loop rest (it + 1) s1
      | .threw e s1 => .threw e s1
      | .assertion_failed a s1 => .assertion_failed a s1

/-- Member `assign_dispatch` for any other traversal. -/
def assign_dispatch_not_random_access (T : Traits) (items : List Value)
    (s : static_vector Value Capacity) : Outcome Unit (static_vector Value Capacity) :=
  (assign_dispatch_loop items 0 s).bind fun r s1 =>
  let it := r.1
  let s2 := destroy T it s1.m_size s1
  (uninitialized_copy_checked T r.2 it (Capacity - it) s2).bind fun copy_data s3 =>
  let n := it + copy_data.2
  (check_capacity (if copy_data.1 then n else Capacity + 1) s3).bind fun _ s4 =>
  .returned () (set_size n s4)

/-- Member `assign(first, last)`. -/
def assign (T : Traits) (kind : IteratorKind) (items : List Value)
    (s : static_vector Value Capacity) : Outcome Unit (static_vector Value Capacity) :=
  if kind.is_random_access then assign_dispatch_random_access T kind items s
  else assign_dispatch_not_random_access T items s

/-- Member `assign(count, value)`. -/
def assign_n (T : Traits) (count : Nat) (value : ValueRef Value)
    (s : static_vector Value Capacity) : Outcome Unit (static_vector Value Capacity) :=
  if count < s.m_size then
    (std_fill_n 0 count value s).bind fun _ s1 =>
    .returned () (set_size count (destroy T count s1.m_size s1))
  else
    (check_capacity count s).bind fun _ s1 =>
    (std_fill_n 0 s1.m_size value s1).bind fun _ s2 =>
    (std_uninitialized_fill T s2.m_size count value s2).bind fun _ s3 =>
    .returned () (set_size count s3)

/-- Member `clear()`. -/
def clear (T : Traits) (s : static_vector Value Capacity) :
    Outcome Unit (static_vector Value Capacity) :=
  .returned () (set_size 0 (destroy T 0 s.m_size s))

/-- Member `at(i)`: the content of slot `i`, or `std::out_of_range`. -/
def at_ (i : Nat) (s : static_vector Value Capacity) :
    Outcome (Option Value) (static_vector Value Capacity) :=
  if s.m_size ≤ i then .threw .out_of_range s else .returned (s.m_storage i) s

/-- Member `operator[](i)`. -/
def operator_subscript (i : Nat) (s : static_vector Value Capacity) :
    Outcome (Option Value) (static_vector Value Capacity) :=
  if i < s.m_size then .returned (s.m_storage i) s else .assertion_failed .index_out_of_bounds s

/-- Member `front()`. -/
def front (s : static_vector Value Capacity) :
    Outcome (Option Value) (static_vector Value Capacity) :=
  (check_empty s).bind fun _ s1 => .returned (s1.m_storage 0) s1

/-- Member `back()`. -/
def back (s : static_vector Value Capacity) :
    Outcome (Option Value) (static_vector Value Capacity) :=
  (check_empty s).bind fun _ s1 => .returned (s1.m_storage (s1.m_size - 1)) s1

/-- Constructor `static_vector(count)`. -/
def ctor_count [Inhabited Value] (T : Traits) (count : Nat) (fuel : Option Nat)
    (log : List Event) : Outcome Unit (static_vector Value Capacity) :=
  resize T count (default_ctor fuel log)

/-- Constructor `static_vector(count, value)`; the value is the caller's. -/
def ctor_count_value (T : Traits) (count : Nat) (value : Value) (fuel : Option Nat)
    (log : List Event) : Outcome Unit (static_vector Value Capacity) :=
  resize_value T count (ValueRef.value value) (default_ctor fuel log)

/-- Constructor `static_vector(static_vector const& other)`: `m_size(other.m_size)`,
then the elements of `other` are copied into the new region. -/
def ctor_copy (T : Traits) (other : static_vector Value Capacity) (fuel : Option Nat)
    (log : List Event) : Outcome Unit (static_vector Value Capacity) :=
  let s : static_vector Value Capacity := set_size other.m_size (default_ctor fuel log)
  uninitialized_copy T (Range.storage other.m_storage 0) other.m_size 0 s

/-- Constructor `static_vector(static_vector<value_type, C> const& other)`. -/
def ctor_convert {C : Nat} (T : Traits) (other : static_vector Value C) (fuel : Option Nat)
    (log : List Event) : Outcome Unit (static_vector Value Capacity) :=
  let s : static_vector Value Capacity := set_size other.m_size (default_ctor fuel log)
  (check_capacity other.m_size s).bind fun _ s1 =>
  uninitialized_copy T (Range.storage other.m_storage 0) other.m_size 0 s1

/-- Constructor `static_vector(first, last)`. -/
def ctor_range (T : Traits) (kind : IteratorKind) (items : List Value) (fuel : Option Nat)
    (log : List Event) : Outcome Unit (static_vector Value Capacity) :=
  assign T kind items (default_ctor fuel log)

/-- A public mutating member call with its arguments. -/
inductive Call (Value : Type) where
  | resize (count : Nat)
  | resize_value (count : Nat) (value : ValueRef Value)
  | reserve (count : Nat)
  | push_back (value : ValueRef Value)
  | pop_back
  | insert (position : Nat) (value : ValueRef Value)
  | insert_n (position count : Nat) (value : ValueRef Value)
  | insert_range (position : Nat) (kind : IteratorKind) (items : List Value)
  | erase (position : Nat)
  | erase_range (first last : Nat)
  | assign (kind : IteratorKind) (items : List Value)
  | assign_n (count : Nat) (value : ValueRef Value)
  | clear

/-- The effect of a public mutating member call. -/
def call [Inhabited Value] (T : Traits) (c : Call Value) (s : static_vector Value Capacity) :
    Outcome Unit (static_vector Value Capacity) :=
  match c with
  | .resize count => resize T count s
  | .resize_value count value => resize_value T count value s
  | .reserve count => reserve count s
  | .push_back value => push_back T value s
  | .pop_back => pop_back T s
  | .insert position value => insert T position value s
  | .insert_n position count value => insert_n T position count value s
  | .insert_range position kind items => insert_range T position kind items s
  | .erase position => erase T position s
  | .erase_range first last => erase_range T first last s
  | .assign kind items => assign T kind items s
  | .assign_n count value => assign_n T count value s
  | .clear => clear T s

/-- The containers that exist after a sequence of constructor and member calls
that each returned normally. Between two calls the behaviour of the element
type (the fault counter) may be anything. -/
inductive Reachable [Inhabited Value] (T : Traits) :
    (Capacity : Nat) → static_vector Value Capacity → Prop where
  | default_ctor {Capacity : Nat} (fuel : Option Nat) (log : List Event) :
      Reachable T Capacity (default_ctor fuel log)
  | ctor_count {Capacity : Nat} (count : Nat) (fuel : Option Nat) (log : List Event)
      (s : static_vector Value Capacity) :
      ctor_count T count fuel log = .returned () s → Reachable T Capacity s
  | ctor_count_value {Capacity : Nat} (count : Nat) (value : Value) (fuel : Option Nat)
      (log : List Event) (s : static_vector Value Capacity) :
      ctor_count_value T count value fuel log = .returned () s → Reachable T Capacity s
  | ctor_copy {Capacity : Nat} (other : static_vector Value Capacity) (fuel : Option Nat)
      (log : List Event) (s : static_vector Value Capacity) :
      Reachable T Capacity other → ctor_copy T other fuel log = .returned () s →
      Reachable T Capacity s
  | ctor_convert {Capacity C : Nat} (other : static_vector Value C) (fuel : Option Nat)
      (log : List Event) (s : static_vector Value Capacity) :
      Reachable T C other → ctor_convert T other fuel log = .returned () s →
      Reachable T Capacity s
  | ctor_range {Capacity : Nat} (kind : IteratorKind) (items : List Value)
      (fuel : Option Nat) (log : List Event) (s : static_vector Value Capacity) :
      ctor_range T kind items fuel log = .returned () s → Reachable T Capacity s
  | member {Capacity : Nat} (c : Call Value) (s0 s : static_vector Value Capacity) :
      Reachable T Capacity s0 → call T c s0 = .returned () s → Reachable T Capacity s
  | element_behaviour {Capacity : Nat} (fuel : Option Nat)
      (s : static_vector Value Capacity) :
      Reachable T Capacity s → Reachable T Capacity { s with fuel := fuel }

/-- The state `s2` differs from `s` at most in the storage, which is `m`, and in
the ghost fields; an element type that never throws stays so. -/
def updates (s : static_vector Value Capacity) (m : Nat → Option Value)
    (s2 : static_vector Value Capacity) : Prop :=
  s2.m_storage = m ∧ s2.m_size = s.m_size ∧ (s.fuel = none → s2.fuel = none)

/-- Storage of a container of size `n` after the `k` values `g 0, ..., g (k - 1)`
were inserted before slot `p`: the slots from `p` on move up by `k`. -/
def inserted (g : Nat → Option Value) (p k n : Nat) (m : Nat → Option Value) :
    Nat → Option Value :=
  fun i => if i < p then m i else if i < p + k then g (i - p)
    else if i < n + k then m (i - k) else m i

/-- The traits of an element type none of whose operations is trivial. -/
def Traits.element_wise : Traits := ⟨false, false, false, false⟩

/-- The traits of an element type all of whose operations are trivial. -/
def Traits.raw : Traits := ⟨true, true, true, true⟩

/-- A container of numbers holding `xs`, with uninitialized slots above. -/
def of_list (Capacity : Nat) (xs : List Nat) (fuel : Option Nat) : static_vector Nat Capacity :=
  { m_storage := fun i => xs[i]?, m_size := xs.length, fuel := fuel, log := [] }

/-- The storage invariant of the data model for a container of size `N` and
capacity `C`: every slot below `N` is live, every slot in `[N, C)` is
uninitialized. -/
def shape (C N : Nat) (m : Nat → Option Value) : Prop :=
  (∀ i, i < N → (m i).isSome = true) ∧ (∀ i, N ≤ i → i < C → m i = none)

/-- A valid container: `m_size <= Capacity`, the slots `[0, m_size)` are live and
the slots `[m_size, Capacity)` are uninitialized. -/
def valid (s : static_vector Value Capacity) : Prop :=
  s.m_size ≤ Capacity ∧ shape Capacity s.m_size s.m_storage

/-- A `value_type const&` argument that is a value of the caller or refers to a
live element of the container. -/
def ref_valid (x : ValueRef Value) (s : static_vector Value Capacity) : Prop :=
  match x with
  | .value _ => True
  | .element j => j < s.m_size

/-- The trace of `s2` extends the trace of `s` by events that all satisfy `P`. -/
def log_ext (P : Event → Prop) (s s2 : static_vector Value Capacity) : Prop :=
  ∃ evs : List Event, s2.log = s.log ++ evs ∧ ∀ e, e ∈ evs → P e

/-- A three-way postcondition on an outcome that also sees which assertion
failed. -/
def sat_kind {α σ : Type} (o : Outcome α σ) (Qr : α → σ → Prop) (Qt : σ → Prop)
    (Qa : Assertion → σ → Prop) : Prop :=
  match o with
  | .returned a s => Qr a s
  | .threw _ s => Qt s
  | .assertion_failed a s => Qa a s

/-- Addition of two `size_type` values when `size_type` is an unsigned `w`-bit
integer: the sum modulo `2 ^ w`. -/
def size_type_add (w a b : Nat) : Nat := (a + b) % 2 ^ w

/-- The two assertions at the head of `insert(position, count, value)`,
`check_iterator_end_eq(position)` and `check_capacity(m_size + count)`, with
the sum `m_size + count` computed in an unsigned `w`-bit `size_type`. -/
def insert_n_checks (w position count : Nat) (s : static_vector Value Capacity) :
    Outcome Unit (static_vector Value Capacity) :=
  (check_iterator_end_eq position s).bind fun _ s1 =>
  check_capacity (size_type_add w s1.m_size count) s1

/-- The order of two steps of one call, the earlier one first: `m_size` has not
decreased from the one to the other, and of two constructions the later one
targets a higher slot. -/
def Event.precedes (a b : Event) : Prop :=
  a.size ≤ b.size ∧ (a.kind = .construct → b.kind = .construct → a.index < b.index)

/-- The trace of `s2` extends the trace of `s` by steps that all satisfy `P`,
were made with `m_size` between that of `s` and that of `s2`, and are in the
order `Event.precedes`. -/
def steps (P : Event → Prop) (s s2 : static_vector Value Capacity) : Prop :=
  ∃ evs : List Event, s2.log = s.log ++ evs ∧
    (∀ e, e ∈ evs → P e ∧ s.m_size ≤ e.size ∧ e.size ≤ s2.m_size) ∧
    evs.Pairwise Event.precedes ∧ s.m_size ≤ s2.m_size

/-- A step of a phase that builds new elements in the slots `[lo, hi)`: a
construction or a raw write, or a destructor call of a rollback. -/
def builds (lo hi : Nat) (e : Event) : Prop :=
  lo ≤ e.index ∧ e.index < hi ∧ e.kind ≠ .assign

/-- A step of a phase that overwrites elements in the slots `[lo, hi)`: an
assignment or a raw write. -/
def overwrites (lo hi : Nat) (e : Event) : Prop :=
  lo ≤ e.index ∧ e.index < hi ∧ (e.kind = .assign ∨ e.kind = .raw_write)

/-- The slot discipline of one step of an insertion of `k` values before slot `p`
of a container that had size `n`: the step targets a slot in `[p, n + k)`, a
construction a slot at or above the current `m_size`, an assignment a slot
below the current `m_size` that held an element before the call, and a
destructor call (of a rollback) a slot that held none. -/
def disciplined (p k n : Nat) (e : Event) : Prop :=
  p ≤ e.index ∧ e.index < n + k ∧
  (e.kind = .construct → e.size ≤ e.index) ∧
  (e.kind = .assign → e.index < e.size ∧ e.index < n) ∧
  (e.kind = .destroy → n ≤ e.index)

/-- No element of `s` from slot `p` on is lost in `s2`: its value is still in
its slot, or it is in the slot `k` places up. -/
def relocated (p k : Nat) (s s2 : static_vector Value Capacity) : Prop :=
  ∀ i, p ≤ i → i < s.m_size →
    s2.m_storage i = s.m_storage i ∨ s2.m_storage (i + k) = s.m_storage i

/-- Every step in the trace from `s` to `s2` that targeted a slot below the size
of `s` (an assignment or a raw write over an element of `s`) targeted a slot
whose value in `s` is, in `s2`, in the slot `k` places up. -/
def shifted (k : Nat) (s s2 : static_vector Value Capacity) : Prop :=
  log_ext (fun e => e.index < s.m_size → s2.m_storage (e.index + k) = s.m_storage e.index)
    s s2

/-- Member `insert(position, count, value)` with the arithmetic of `m_size` done in
an unsigned `w`-bit `size_type`, as the source does it: the argument
`m_size + count` of the capacity check and the updates `m_size += ...` are taken
modulo `2 ^ w`. Iterators stay offsets from `begin()`. For arguments with
`m_size + count < 2 ^ w` this is `insert_n`. -/
def insert_n_wrapping (w : Nat) (T : Traits) (position count : Nat) (value : ValueRef Value)
    (s : static_vector Value Capacity) : Outcome Unit (static_vector Value Capacity) :=
  (insert_n_checks w position count s).bind fun _ s2 =>
  if position = s2.m_size then
    (std_uninitialized_fill T position (position + count) value s2).bind fun _ s3 =>
    .returned () (set_size (size_type_add w s3.m_size count) s3)
  else
    let to_move := s2.m_size - position
    if count < to_move then
      (uninitialized_copy T (Range.self (s2.m_size - count)) count s2.m_size s2).bind
        fun _ s3 =>
      let s4 := set_size (size_type_add w s3.m_size count) s3
      (move_backward T position (position + to_move - count) (s4.m_size - count) s4).bind
        fun _ s5 =>
      std_fill_n position count value s5
    else
      (std_uninitialized_fill T s2.m_size (position + count) value s2).bind fun _ s3 =>
      let s4 := set_size (size_type_add w s3.m_size (count - to_move)) s3
      (uninitialized_copy T (Range.self position) to_move (position + count) s4).bind
        fun _ s5 =>
      let s6 := set_size (size_type_add w s5.m_size to_move) s5
      std_fill_n position to_move value s6

/-! ## Lemmas and theorems -/

/-! ### Outcomes and the loops of the algorithms -/

theorem sat_bind {α β σ : Type} {o : Outcome α σ} {f : α → σ → Outcome β σ}
    {Qr : β → σ → Prop} {Qt Qa : σ → Prop}
    (h : o.sat (fun a s => (f a s).sat Qr Qt Qa) Qt Qa) : (o.bind f).sat Qr Qt Qa := by
  cases o <;> simpa [Outcome.bind, Outcome.sat] using h

theorem sat_mono {α σ : Type} {o : Outcome α σ} {Qr Qr2 : α → σ → Prop} {Qt Qt2 Qa Qa2 : σ → Prop}
    (h : o.sat Qr Qt Qa) (hr : ∀ a s, Qr a s → Qr2 a s) (ht : ∀ s, Qt s → Qt2 s)
    (ha : ∀ s, Qa s → Qa2 s) : o.sat Qr2 Qt2 Qa2 := by
  cases o with
  | returned a s => exact hr a s h
  | threw e s => exact ht s h
  | assertion_failed a s => exact ha s h

theorem tick_eq_none {f : Option Nat} (h : tick f = none) : f ≠ none := by
  cases f with
  | none => simp [tick] at h
  | some n => simp

theorem tick_eq_some {f g : Option Nat} (h : tick f = some g) : (f = none → g = none) ∧ (g = none → f = none) := by
  cases f with
  | none => simp [tick] at h; simp [← h]
  | some n =>
    cases n with
    | zero => simp [tick] at h
    | succ n => simp [tick] at h; simp [← h]

theorem assign_ascending_sat (rd : Nat → (Nat → Option Value) → Option Value) (dst : Nat)
    (I : Nat → (Nat → Option Value) → Prop) :
    ∀ (n k : Nat) (s : static_vector Value Capacity), I k s.m_storage →
      (∀ j m, k ≤ j → j < k + n → I j m → I (j + 1) (write m (dst + j) (rd j m))) →
      (assign_ascending rd dst n k s).sat
        (fun _ s' => I (k + n) s'.m_storage ∧ s'.m_size = s.m_size ∧ (s.fuel = none → s'.fuel = none))
        (fun s' => (∃ j, k ≤ j ∧ j < k + n ∧ I j s'.m_storage) ∧ s'.m_size = s.m_size ∧ s.fuel ≠ none)
        (fun _ => False) := by
  intro n
  induction n with
  | zero => intro k s h0 _; simpa [assign_ascending, Outcome.sat] using h0
  | succ n ih =>
    intro k s h0 hstep
    unfold assign_ascending assign_element
    cases ht : tick s.fuel with
    | none =>
      simp only [Outcome.sat]
      exact ⟨⟨k, le_refl _, by omega, h0⟩, trivial, tick_eq_none ht⟩
    | some f =>
      simp only
      refine sat_mono (ih (k + 1) _ (hstep k _ (le_refl _) (by omega) h0) ?_) ?_ ?_ ?_
      · intro j m h1 h2 h3
        exact hstep j m (by omega) (by omega) h3
      · rintro _ s' ⟨h1, h2, h3⟩
        refine ⟨by simpa [Nat.add_assoc, Nat.add_comm 1 n] using h1, h2, fun h => h3 ((tick_eq_some ht).1 h)⟩
      · rintro s' ⟨⟨j, h1, h2, h3⟩, h4, h5⟩
        exact ⟨⟨j, by omega, by omega, h3⟩, h4, fun h => h5 ((tick_eq_some ht).1 h)⟩
      · intro s' h; exact h

theorem assign_descending_sat (rd : Nat → (Nat → Option Value) → Option Value) (dst : Nat)
    (I : Nat → (Nat → Option Value) → Prop) :
    ∀ (n : Nat) (s : static_vector Value Capacity), I n s.m_storage →
      (∀ j m, j < n → I (j + 1) m → I j (write m (dst + j) (rd j m))) →
      (assign_descending rd dst n s).sat
        (fun _ s' => I 0 s'.m_storage ∧ s'.m_size = s.m_size ∧ (s.fuel = none → s'.fuel = none))
        (fun s' => (∃ j, 0 < j ∧ j ≤ n ∧ I j s'.m_storage) ∧ s'.m_size = s.m_size ∧ s.fuel ≠ none)
        (fun _ => False) := by
  intro n
  induction n with
  | zero => intro s h0 _; simpa [assign_descending, Outcome.sat] using h0
  | succ n ih =>
    intro s h0 hstep
    unfold assign_descending assign_element
    cases ht : tick s.fuel with
    | none =>
      simp only [Outcome.sat]
      exact ⟨⟨n + 1, by omega, le_refl _, h0⟩, trivial, tick_eq_none ht⟩
    | some f =>
      simp only
      refine sat_mono (ih _ (hstep n _ (by omega) h0) ?_) ?_ ?_ ?_
      · intro j m h1 h3
        exact hstep j m (by omega) h3
      · rintro _ s' ⟨h1, h2, h3⟩
        exact ⟨h1, h2, fun h => h3 ((tick_eq_some ht).1 h)⟩
      · rintro s' ⟨⟨j, h1, h2, h3⟩, h4, h5⟩
        exact ⟨⟨j, by omega, by omega, h3⟩, h4, fun h => h5 ((tick_eq_some ht).1 h)⟩
      · intro s' h; exact h

theorem destroy_dispatch_false_spec :
    ∀ (n first : Nat) (s : static_vector Value Capacity),
      (destroy_dispatch_false first n s).m_storage = wipe first (first + n) s.m_storage ∧
      (destroy_dispatch_false first n s).m_size = s.m_size ∧
      (destroy_dispatch_false first n s).fuel = s.fuel := by
  intro n
  induction n with
  | zero =>
    intro first s
    refine ⟨?_, rfl, rfl⟩
    funext i
    simp only [destroy_dispatch_false, wipe]
    rw [if_neg]
    omega
  | succ n ih =>
    intro first s
    obtain ⟨h1, h2, h3⟩ := ih (first + 1) (destructor first s)
    refine ⟨?_, ?_, ?_⟩
    · rw [destroy_dispatch_false, h1]
      funext i
      simp only [wipe, destructor, write]
      by_cases h : i = first
      · subst h; simp
      · simp only [h, if_false]
        congr 1
        apply propext
        constructor <;> intro h' <;> omega
    · rw [destroy_dispatch_false, h2]; rfl
    · rw [destroy_dispatch_false, h3]; rfl

theorem destroy_storage (T : Traits) (first last : Nat) (s : static_vector Value Capacity) :
    (destroy T first last s).m_storage =
      if T.has_trivial_destructor then s.m_storage else wipe first last s.m_storage := by
  unfold destroy
  split
  · rfl
  · rw [(destroy_dispatch_false_spec _ _ _).1]
    funext i
    simp only [wipe]
    congr 1
    apply propext
    constructor <;> intro h' <;> omega

theorem destroy_size (T : Traits) (first last : Nat) (s : static_vector Value Capacity) :
    (destroy T first last s).m_size = s.m_size := by
  unfold destroy
  split
  · rfl
  · exact (destroy_dispatch_false_spec _ _ _).2.1

theorem destroy_fuel (T : Traits) (first last : Nat) (s : static_vector Value Capacity) :
    (destroy T first last s).fuel = s.fuel := by
  unfold destroy
  split
  · rfl
  · exact (destroy_dispatch_false_spec _ _ _).2.2

theorem construct_ascending_sat (T : Traits) (rd : Nat → (Nat → Option Value) → Option Value)
    (dst : Nat) (I : Nat → (Nat → Option Value) → Prop) :
    ∀ (n k : Nat) (s : static_vector Value Capacity), I k s.m_storage →
      (∀ j m, k ≤ j → j < k + n → I j m → I (j + 1) (write m (dst + j) (rd j m))) →
      (construct_ascending T rd dst n k s).sat
        (fun _ s' => I (k + n) s'.m_storage ∧ s'.m_size = s.m_size ∧ (s.fuel = none → s'.fuel = none))
        (fun s' => (∃ j m, k ≤ j ∧ j < k + n ∧ I j m ∧
            s'.m_storage = if T.has_trivial_destructor then m else wipe dst (dst + j) m) ∧
          s'.m_size = s.m_size ∧ s.fuel ≠ none)
        (fun _ => False) := by
  intro n
  induction n with
  | zero => intro k s h0 _; simpa [construct_ascending, Outcome.sat] using h0
  | succ n ih =>
    intro k s h0 hstep
    unfold construct_ascending placement_new
    cases ht : tick s.fuel with
    | none =>
      simp only [Outcome.sat]
      exact ⟨⟨k, s.m_storage, le_refl _, by omega, h0, destroy_storage _ _ _ _⟩,
        destroy_size _ _ _ _, tick_eq_none ht⟩
    | some f =>
      simp only
      refine sat_mono (ih (k + 1) _ (hstep k _ (le_refl _) (by omega) h0) ?_) ?_ ?_ ?_
      · intro j m h1 h2 h3
        exact hstep j m (by omega) (by omega) h3
      · rintro _ s' ⟨h1, h2, h3⟩
        refine ⟨by simpa [Nat.add_assoc, Nat.add_comm 1 n] using h1, h2, fun h => h3 ((tick_eq_some ht).1 h)⟩
      · rintro s' ⟨⟨j, m, h1, h2, h3, h6⟩, h4, h5⟩
        exact ⟨⟨j, m, by omega, by omega, h3, h6⟩, h4, fun h => h5 ((tick_eq_some ht).1 h)⟩
      · intro s' h; exact h

/-! ### What the members write when the source is not disturbed by the writes -/

theorem blit_zero (g : Nat → Option Value) (dst : Nat) (m : Nat → Option Value) :
    blit g dst 0 m = m := by
  funext i
  simp only [blit]
  rw [if_neg]
  omega

theorem blit_one (g : Nat → Option Value) (dst : Nat) (m : Nat → Option Value) :
    blit g dst 1 m = write m dst (g 0) := by
  funext i
  simp only [blit, write]
  by_cases h : i = dst
  · subst h; simp
  · rw [if_neg, if_neg h]; omega

theorem blit_congr (g g2 : Nat → Option Value) (dst n : Nat) (m : Nat → Option Value)
    (h : ∀ j, j < n → g j = g2 j) : blit g dst n m = blit g2 dst n m := by
  funext i
  simp only [blit]
  split
  · apply h; omega
  · rfl

theorem write_blit (g : Nat → Option Value) (dst j : Nat) (m : Nat → Option Value) :
    write (blit g dst j m) (dst + j) (g j) = blit g dst (j + 1) m := by
  funext i
  simp only [blit, write]
  by_cases h : i = dst + j
  · subst h; simp
  · rw [if_neg h]
    by_cases h2 : dst ≤ i ∧ i < dst + j
    · rw [if_pos h2, if_pos]; omega
    · rw [if_neg h2, if_neg]; omega

theorem assign_ascending_content (rd : Nat → (Nat → Option Value) → Option Value)
    (dst n : Nat) (s : static_vector Value Capacity) (g : Nat → Option Value)
    (hrd : ∀ j m, j < n → (∀ i, ¬(dst ≤ i ∧ i < dst + j) → m i = s.m_storage i) → rd j m = g j) :
    (assign_ascending rd dst n 0 s).sat (fun _ s2 => updates s (blit g dst n s.m_storage) s2)
      (fun s2 => (∃ j, j < n ∧ s2.m_storage = blit g dst j s.m_storage) ∧
        s2.m_size = s.m_size ∧ s.fuel ≠ none)
      (fun _ => False) := by
  refine sat_mono (assign_ascending_sat rd dst (fun j m => m = blit g dst j s.m_storage) n 0 s
    (blit_zero _ _ _).symm ?_) ?_ ?_ ?_
  · intro j m _ h2 h3
    have : rd j m = g j := by
      apply hrd j m (by omega)
      intro i hi
      rw [h3]; simp only [blit]; rw [if_neg hi]
    rw [this, h3, write_blit]
  · rintro _ s2 ⟨h1, h2, h3⟩
    exact ⟨by simpa using h1, h2, h3⟩
  · rintro s2 ⟨⟨j, _, h2, h3⟩, h4, h5⟩
    exact ⟨⟨j, by omega, h3⟩, h4, h5⟩
  · intro _ h; exact h

theorem construct_ascending_content (T : Traits)
    (rd : Nat → (Nat → Option Value) → Option Value)
    (dst n : Nat) (s : static_vector Value Capacity) (g : Nat → Option Value)
    (hrd : ∀ j m, j < n → (∀ i, ¬(dst ≤ i ∧ i < dst + j) → m i = s.m_storage i) → rd j m = g j) :
    (construct_ascending T rd dst n 0 s).sat
      (fun _ s2 => updates s (blit g dst n s.m_storage) s2)
      (fun s2 => (∃ j, j < n ∧ s2.m_storage =
          if T.has_trivial_destructor then blit g dst j s.m_storage
          else wipe dst (dst + j) s.m_storage) ∧
        s2.m_size = s.m_size ∧ s.fuel ≠ none)
      (fun _ => False) := by
  refine sat_mono (construct_ascending_sat T rd dst (fun j m => m = blit g dst j s.m_storage)
    n 0 s (blit_zero _ _ _).symm ?_) ?_ ?_ ?_
  · intro j m _ h2 h3
    have : rd j m = g j := by
      apply hrd j m (by omega)
      intro i hi
      rw [h3]; simp only [blit]; rw [if_neg hi]
    rw [this, h3, write_blit]
  · rintro _ s2 ⟨h1, h2, h3⟩
    exact ⟨by simpa using h1, h2, h3⟩
  · rintro s2 ⟨⟨j, m, _, h2, h3, h6⟩, h4, h5⟩
    refine ⟨⟨j, by omega, ?_⟩, h4, h5⟩
    rw [h6, h3]
    split
    · rfl
    · funext i
      simp only [wipe, blit]
      split <;> rfl
  · intro _ h; exact h

theorem assign_descending_content (rd : Nat → (Nat → Option Value) → Option Value)
    (dst n : Nat) (s : static_vector Value Capacity) (g : Nat → Option Value)
    (hrd : ∀ j m, j < n → (∀ i, ¬(dst + j < i ∧ i < dst + n) → m i = s.m_storage i) →
      rd j m = g j) :
    (assign_descending rd dst n s).sat (fun _ s2 => updates s (blit g dst n s.m_storage) s2)
      (fun s2 => s2.m_size = s.m_size ∧ s.fuel ≠ none)
      (fun _ => False) := by
  refine sat_mono (assign_descending_sat rd dst
    (fun j m => m = blit (fun k => g (j + k)) (dst + j) (n - j) s.m_storage) n s ?_ ?_) ?_ ?_ ?_
  · simp only [Nat.sub_self]
    exact (blit_zero _ _ _).symm
  · intro j m h1 h3
    have : rd j m = g j := by
      apply hrd j m h1
      intro i hi
      rw [h3]; simp only [blit]; rw [if_neg]; omega
    rw [this, h3]
    funext i
    simp only [write, blit]
    by_cases h : i = dst + j
    · subst h
      rw [if_pos rfl, if_pos (by omega)]
      simp
    · rw [if_neg h]
      by_cases h2 : dst + (j + 1) ≤ i ∧ i < dst + (j + 1) + (n - (j + 1))
      · rw [if_pos h2, if_pos (by omega)]
        congr 1; omega
      · rw [if_neg h2, if_neg (by omega)]
  · rintro _ s2 ⟨h1, h2, h3⟩
    refine ⟨?_, h2, h3⟩
    rw [h1]
    funext i
    simp [blit]
  · rintro s2 ⟨_, h4, h5⟩
    exact ⟨h4, h5⟩
  · intro _ h; exact h

theorem raw_copy_updates (src : Nat → Option Value) (dst n : Nat)
    (s : static_vector Value Capacity) :
    updates s (blit src dst n s.m_storage) (raw_copy src dst n s) :=
  ⟨rfl, rfl, fun h => h⟩

theorem copy_content (T : Traits) (src : Range Value) (n dst : Nat)
    (s : static_vector Value Capacity) (g : Nat → Option Value)
    (hrd : ∀ j m, j < n → (∀ i, ¬(dst ≤ i ∧ i < dst + j) → m i = s.m_storage i) →
      src.read j m = g j) :
    (copy T src n dst s).sat (fun _ s2 => updates s (blit g dst n s.m_storage) s2)
      (fun _ => s.fuel ≠ none) (fun _ => False) := by
  unfold copy
  split
  · simp only [memcpy, Outcome.sat]
    rw [← blit_congr (fun k => src.read k s.m_storage) g dst n s.m_storage
      (fun j hj => hrd j _ hj (fun _ _ => rfl))]
    exact raw_copy_updates _ _ _ _
  · exact sat_mono (assign_ascending_content src.read dst n s g hrd) (fun _ _ h => h)
      (fun _ h => h.2.2) (fun _ h => h)

theorem uninitialized_copy_content (T : Traits) (src : Range Value) (n dst : Nat)
    (s : static_vector Value Capacity) (g : Nat → Option Value)
    (hrd : ∀ j m, j < n → (∀ i, ¬(dst ≤ i ∧ i < dst + j) → m i = s.m_storage i) →
      src.read j m = g j) :
    (uninitialized_copy T src n dst s).sat
      (fun _ s2 => updates s (blit g dst n s.m_storage) s2)
      (fun _ => s.fuel ≠ none) (fun _ => False) := by
  unfold uninitialized_copy
  split
  · simp only [memcpy, Outcome.sat]
    rw [← blit_congr (fun k => src.read k s.m_storage) g dst n s.m_storage
      (fun j hj => hrd j _ hj (fun _ _ => rfl))]
    exact raw_copy_updates _ _ _ _
  · exact sat_mono (construct_ascending_content T src.read dst n s g hrd) (fun _ _ h => h)
      (fun _ h => h.2.2) (fun _ h => h)

theorem std_fill_n_content (dst n : Nat) (v : Value) (s : static_vector Value Capacity) :
    (std_fill_n dst n (ValueRef.value v) s).sat
      (fun _ s2 => updates s (blit (fun _ => some v) dst n s.m_storage) s2)
      (fun _ => s.fuel ≠ none) (fun _ => False) :=
  sat_mono (assign_ascending_content _ dst n s (fun _ => some v) (fun _ _ _ _ => rfl))
    (fun _ _ h => h) (fun _ h => h.2.2) (fun _ h => h)

theorem std_uninitialized_fill_content (T : Traits) (first last : Nat) (v : Value)
    (s : static_vector Value Capacity) :
    (std_uninitialized_fill T first last (ValueRef.value v) s).sat
      (fun _ s2 => updates s (blit (fun _ => some v) first (last - first) s.m_storage) s2)
      (fun _ => s.fuel ≠ none) (fun _ => False) :=
  sat_mono (construct_ascending_content T _ first (last - first) s (fun _ => some v)
    (fun _ _ _ _ => rfl)) (fun _ _ h => h) (fun _ h => h.2.2) (fun _ h => h)

theorem placement_new_sat (i : Nat) (x : Option Value) (s : static_vector Value Capacity) :
    (placement_new i x s).sat (fun _ s2 => updates s (write s.m_storage i x) s2)
      (fun s2 => s2 = s ∧ s.fuel ≠ none) (fun _ => False) := by
  unfold placement_new
  cases ht : tick s.fuel with
  | none => exact ⟨rfl, tick_eq_none ht⟩
  | some f => exact ⟨rfl, rfl, (tick_eq_some ht).1⟩

theorem assign_element_sat (i : Nat) (x : Option Value) (s : static_vector Value Capacity) :
    (assign_element i x s).sat (fun _ s2 => updates s (write s.m_storage i x) s2)
      (fun s2 => s2 = s ∧ s.fuel ≠ none) (fun _ => False) := by
  unfold assign_element
  cases ht : tick s.fuel with
  | none => exact ⟨rfl, tick_eq_none ht⟩
  | some f => exact ⟨rfl, rfl, (tick_eq_some ht).1⟩

theorem uninitialized_fill_sat (T : Traits) (dst : Nat) (x : ValueRef Value)
    (s : static_vector Value Capacity) :
    (uninitialized_fill T dst x s).sat
      (fun _ s2 => updates s (write s.m_storage dst (x.read s.m_storage)) s2)
      (fun s2 => s2 = s ∧ s.fuel ≠ none) (fun _ => False) := by
  unfold uninitialized_fill
  split
  · simp only [Outcome.sat]
    rw [← blit_one (fun _ => x.read s.m_storage)]
    exact raw_copy_updates _ _ _ _
  · exact placement_new_sat _ _ _

theorem fill_sat (T : Traits) (dst : Nat) (x : ValueRef Value)
    (s : static_vector Value Capacity) :
    (fill T dst x s).sat
      (fun _ s2 => updates s (write s.m_storage dst (x.read s.m_storage)) s2)
      (fun s2 => s2 = s ∧ s.fuel ≠ none) (fun _ => False) := by
  unfold fill
  split
  · simp only [Outcome.sat]
    rw [← blit_one (fun _ => x.read s.m_storage)]
    exact raw_copy_updates _ _ _ _
  · exact assign_element_sat _ _ _

theorem move_content (T : Traits) (first last dst : Nat) (s : static_vector Value Capacity)
    (h : dst ≤ first) :
    (move T first last dst s).sat
      (fun _ s2 => updates s
        (blit (fun k => s.m_storage (first + k)) dst (last - first) s.m_storage) s2)
      (fun _ => s.fuel ≠ none) (fun _ => False) := by
  unfold move
  split
  · exact raw_copy_updates _ _ _ _
  · refine sat_mono (assign_ascending_content (Range.self first).read dst (last - first) s
      (fun k => s.m_storage (first + k)) ?_) (fun _ _ h => h) (fun _ h => h.2.2) (fun _ h => h)
    intro j m _ hm
    simp only [Range.read]
    apply hm
    omega

theorem move_backward_content (T : Traits) (first last dst : Nat)
    (s : static_vector Value Capacity) (h : first ≤ dst - (last - first)) :
    (move_backward T first last dst s).sat
      (fun _ s2 => updates s
        (blit (fun k => s.m_storage (first + k)) (dst - (last - first)) (last - first)
          s.m_storage) s2)
      (fun _ => s.fuel ≠ none) (fun _ => False) := by
  unfold move_backward
  split
  · exact raw_copy_updates _ _ _ _
  · refine sat_mono (assign_descending_content (Range.self first).read (dst - (last - first))
      (last - first) s (fun k => s.m_storage (first + k)) ?_)
      (fun _ _ h => h) (fun _ h => h.2) (fun _ h => h)
    intro j m _ hm
    simp only [Range.read]
    apply hm
    omega

theorem construct_content [Inhabited Value] (T : Traits) (first last : Nat)
    (s : static_vector Value Capacity) :
    (construct T first last s).sat
      (fun _ s2 => updates s
        (if T.has_trivial_constructor then s.m_storage
         else blit (fun _ => some default) first (last - first) s.m_storage) s2)
      (fun _ => s.fuel ≠ none) (fun _ => False) := by
  unfold construct
  split
  · exact ⟨rfl, rfl, fun h => h⟩
  · exact sat_mono (construct_ascending_content T _ first (last - first) s
      (fun _ => some default) (fun _ _ _ _ => rfl)) (fun _ _ h => h) (fun _ h => h.2.2)
      (fun _ h => h)

/-! ### The element sequence after an insertion (C3) -/

theorem getElem?_map_range (f : Nat → Option Value) (n i : Nat) :
    ((List.range n).map f)[i]? = if i < n then some (f i) else none := by
  by_cases h : i < n
  · simp [h, List.getElem?_range h]
  · simp [h, List.getElem?_eq_none (by simpa using h : (List.range n).length ≤ i)]

theorem map_range_inserted (g m : Nat → Option Value) (p k n : Nat) (hp : p ≤ n) :
    (List.range (n + k)).map (inserted g p k n m) =
      ((List.range n).map m).take p ++ (List.range k).map g ++ ((List.range n).map m).drop p := by
  apply List.ext_getElem?
  intro i
  rw [List.append_assoc, List.getElem?_append, List.getElem?_append, List.getElem?_take,
    List.getElem?_drop, getElem?_map_range, getElem?_map_range, getElem?_map_range]
  simp only [List.length_take, List.length_map, List.length_range, min_eq_left hp, inserted]
  by_cases h1 : i < p
  · have h4 : i < n + k := by omega
    have h5 : i < n := by omega
    simp only [h1, h4, h5, if_true]
  · by_cases h2 : i < p + k
    · have h4 : i < n + k := by omega
      have h5 : i - p < k := by omega
      simp only [h1, h2, h4, h5, if_true, if_false]
    · have h5 : ¬ (i - p < k) := by omega
      have e : p + (i - p - k) = i - k := by omega
      rw [getElem?_map_range]
      by_cases h3 : i < n + k
      · have h6 : i - k < n := by omega
        simp only [h1, h2, h3, h5, h6, e, if_true, if_false]
      · have h6 : ¬ (i - k < n) := by omega
        simp only [h1, h2, h3, h5, h6, e, if_true, if_false]

theorem elements_inserted (s s2 : static_vector Value Capacity) (g : Nat → Option Value)
    (p k : Nat) (hp : p ≤ s.m_size)
    (h1 : s2.m_storage = inserted g p k s.m_size s.m_storage)
    (h2 : s2.m_size = s.m_size + k) :
    s2.elements = s.elements.take p ++ (List.range k).map g ++ s.elements.drop p := by
  unfold elements
  rw [h1, h2]
  exact map_range_inserted g s.m_storage p k s.m_size hp

theorem map_range_const (k : Nat) (x : Option Value) :
    (List.range k).map (fun _ => x) = List.replicate k x := by
  apply List.ext_getElem?
  intro i
  rw [getElem?_map_range, List.getElem?_replicate]

theorem map_range_getElem (items : List Value) :
    (List.range items.length).map (fun j => items[j]?) = items.map some := by
  apply List.ext_getElem?
  intro i
  rw [getElem?_map_range, List.getElem?_map]
  by_cases h : i < items.length
  · simp [h]
  · simp [h, List.getElem?_eq_none (Nat.le_of_not_lt h)]

theorem insert_n_storage (T : Traits) (p k : Nat) (v : Value)
    (s : static_vector Value Capacity) (hp : p ≤ s.m_size) (hc : s.m_size + k ≤ Capacity) :
    (insert_n T p k (ValueRef.value v) s).sat
      (fun _ s2 => s2.m_storage = inserted (fun _ => some v) p k s.m_size s.m_storage ∧
        s2.m_size = s.m_size + k ∧ (s.fuel = none → s2.fuel = none))
      (fun _ => s.fuel ≠ none) (fun _ => False) := by
  unfold insert_n
  simp only [check_iterator_end_eq, check_capacity, hp, hc, if_true, Outcome.bind]
  split_ifs with h1 h2
  · -- at the end
    apply sat_bind
    refine sat_mono (std_uninitialized_fill_content T p (p + k) v s) ?_ (fun _ h => h)
      (fun _ h => h)
    rintro _ s3 ⟨h3, h4, h5⟩
    refine ⟨?_, by simp [set_size, h4], h5⟩
    simp only [set_size, h3]
    funext i
    simp only [blit, inserted]
    split_ifs <;> first | rfl | (exfalso; omega)
  · -- fewer new values than elements to move
    apply sat_bind
    refine sat_mono (uninitialized_copy_content T (Range.self (s.m_size - k)) k s.m_size s
      (fun j => s.m_storage (s.m_size - k + j)) ?_) ?_ (fun _ h => h) (fun _ h => h)
    · intro j m _ hm
      simp only [Range.read]
      apply hm; omega
    rintro _ s3 ⟨h3, h4, h5⟩
    apply sat_bind
    refine sat_mono (move_backward_content T p (p + (s.m_size - p) - k) (s3.m_size + k - k)
      (set_size (s3.m_size + k) s3) ?_) ?_ ?_ (fun _ h => h)
    · omega
    · rintro _ s5 ⟨h6, h7, h8⟩
      refine sat_mono (std_fill_n_content p k v s5) ?_ ?_ (fun _ h => h)
      · rintro _ s6 ⟨h9, h10, h11⟩
        refine ⟨?_, ?_, fun h => h11 (h8 (h5 h))⟩
        · rw [h9, h6]
          simp only [set_size, h3, h4]
          funext i
          simp only [blit, inserted]
          split_ifs <;> first | rfl | (exfalso; omega) | (congr 1; omega)
        · rw [h10, h7]; simp [set_size, h4]
      · intro _ h hn
        exact h (h8 (h5 hn))
    · intro _ h hn
      exact h (h5 hn)
  · -- at least as many new values as elements to move
    apply sat_bind
    refine sat_mono (std_uninitialized_fill_content T s.m_size (p + k) v s) ?_ (fun _ h => h)
      (fun _ h => h)
    rintro _ s3 ⟨h3, h4, h5⟩
    apply sat_bind
    refine sat_mono (uninitialized_copy_content T (Range.self p) (s.m_size - p) (p + k)
      (set_size (s3.m_size + (k - (s.m_size - p))) s3)
      (fun j => s.m_storage (p + j)) ?_) ?_ ?_ (fun _ h => h)
    · intro j m hj hm
      simp only [Range.read]
      rw [hm _ (by omega)]
      simp only [set_size, h3, blit]
      rw [if_neg]; omega
    · rintro _ s5 ⟨h6, h7, h8⟩
      refine sat_mono (std_fill_n_content p (s.m_size - p) v _) ?_ ?_ (fun _ h => h)
      · rintro _ s6 ⟨h9, h10, h11⟩
        refine ⟨?_, ?_, fun h => h11 (h8 (h5 h))⟩
        · rw [h9]
          simp only [set_size, h6, h3, h4]
          funext i
          simp only [blit, inserted]
          split_ifs <;> first | rfl | (exfalso; omega) | (congr 1; omega)
        · rw [h10]; simp only [set_size, h7, h4]; omega
      · intro _ h hn
        exact h (h8 (h5 hn))
    · intro _ h hn
      exact h (h5 hn)

theorem sat_returned {α σ : Type} {o : Outcome α σ} {Qr : α → σ → Prop} {Qt Qa : σ → Prop}
    (h : o.sat Qr Qt Qa) {a : α} {s : σ} (ho : o = .returned a s) : Qr a s := by
  subst ho; exact h

theorem sat_threw {α σ : Type} {o : Outcome α σ} {Qr : α → σ → Prop} {Qt Qa : σ → Prop}
    (h : o.sat Qr Qt Qa) {e : Exception} {s : σ} (ho : o = .threw e s) : Qt s := by
  subst ho; exact h

theorem sat_total {σ : Type} {o : Outcome Unit σ} {Qr : Unit → σ → Prop} {Qt Qa : σ → Prop}
    (h : o.sat Qr Qt Qa) (ht : ∀ s, ¬ Qt s) (ha : ∀ s, ¬ Qa s) : ∃ s, o = .returned () s := by
  cases o with
  | returned a s => exact ⟨s, rfl⟩
  | threw e s => exact absurd h (ht s)
  | assertion_failed a s => exact absurd h (ha s)

/-- The result of `insert(position, count, value)` for a value of the caller (an
argument that does not refer to an element of the container), with
`position <= size()` and `size() + count <= Capacity`: if no element operation
throws the call returns, and whenever it returns the container holds
`xs[0..p) ++ (count copies of value) ++ xs[p..size)` and `size()` has grown by
`count`. This covers every position and every relation between `count` and the
number of elements to shift, on the raw and on the element-wise path. -/
theorem insert_n_correct (T : Traits) (p k : Nat) (v : Value)
    (s : static_vector Value Capacity) (hp : p ≤ s.m_size) (hc : s.m_size + k ≤ Capacity) :
    (s.fuel = none → ∃ s2, insert_n T p k (ValueRef.value v) s = .returned () s2) ∧
    (∀ s2, insert_n T p k (ValueRef.value v) s = .returned () s2 →
      s2.elements = s.elements.take p ++ List.replicate k (some v) ++ s.elements.drop p ∧
      s2.size = s.size + k) := by
  have h := insert_n_storage T p k v s hp hc
  refine ⟨fun hf => sat_total h (fun _ hn => hn hf) (fun _ hn => hn), fun s2 h2 => ?_⟩
  obtain ⟨h3, h4, _⟩ := sat_returned h h2
  refine ⟨?_, h4⟩
  rw [elements_inserted s s2 _ p k hp h3 h4, map_range_const]

/-- Two copies of the caller's value 9 inserted before slot 1 of `{1,2,3,4}`. -/
theorem insert_n_correct_example :
    (∃ s2, insert_n Traits.element_wise 1 2 (ValueRef.value 9) (of_list 8 [1, 2, 3, 4] none)
        = .returned () s2) ∧
    (∀ s2, insert_n Traits.element_wise 1 2 (ValueRef.value 9) (of_list 8 [1, 2, 3, 4] none)
        = .returned () s2 →
      s2.elements = [some 1, some 9, some 9, some 2, some 3, some 4] ∧ s2.size = 6) :=
  ⟨(insert_n_correct Traits.element_wise 1 2 9 (of_list 8 [1, 2, 3, 4] none)
      (by decide) (by decide)).1 rfl,
   (insert_n_correct Traits.element_wise 1 2 9 (of_list 8 [1, 2, 3, 4] none)
      (by decide) (by decide)).2⟩

theorem uninitialized_copy_checked_loop_content (T : Traits) (dest max_count : Nat) :
    ∀ (items : List Value) (count : Nat) (s : static_vector Value Capacity),
      count + items.length ≤ max_count →
      (uninitialized_copy_checked_loop T dest max_count items count s).sat
        (fun r s2 => r = (true, count + items.length) ∧
          updates s (blit (fun j => items[j]?) (dest + count) items.length s.m_storage) s2)
        (fun _ => s.fuel ≠ none) (fun _ => False) := by
  intro items
  induction items with
  | nil =>
    intro count s _
    simp only [uninitialized_copy_checked_loop, Outcome.sat, List.length_nil, Nat.add_zero,
      blit_zero]
    exact ⟨trivial, rfl, rfl, fun h => h⟩
  | cons v rest ih =>
    intro count s hle
    simp only [List.length_cons] at hle
    unfold uninitialized_copy_checked_loop
    rw [if_neg (by omega)]
    have h1 := uninitialized_fill_sat T (dest + count) (ValueRef.value v) s
    cases ho : uninitialized_fill T (dest + count) (ValueRef.value v) s with
    | returned a s1 =>
      obtain ⟨h2, h3, h4⟩ := sat_returned h1 ho
      refine sat_mono (ih (count + 1) s1 (by omega)) ?_ ?_ (fun _ h => h)
      · rintro r s2 ⟨h5, h6, h7, h8⟩
        refine ⟨by rw [h5, List.length_cons]; congr 1; omega, ?_, by rw [h7, h3],
          fun h => h8 (h4 h)⟩
        rw [h6, h2]
        funext i
        simp only [blit, write, ValueRef.read, List.length_cons]
        by_cases e : i = dest + count
        · subst e
          rw [if_neg (by omega), if_pos rfl, if_pos (by omega)]
          simp
        · rw [if_neg e]
          by_cases w : dest + (count + 1) ≤ i ∧ i < dest + (count + 1) + rest.length
          · rw [if_pos w, if_pos (by omega)]
            have : i - (dest + count) = (i - (dest + (count + 1))) + 1 := by omega
            rw [this, List.getElem?_cons_succ]
          · rw [if_neg w, if_neg (by omega)]
      · intro _ h hn
        exact h (h4 hn)
    | threw e s1 =>
      exact (sat_threw h1 ho).2
    | assertion_failed a s1 =>
      rw [ho] at h1
      exact h1

theorem insert_in_the_middle_storage (T : Traits) (p : Nat) (kind : IteratorKind)
    (items : List Value) (s : static_vector Value Capacity) (hp : p ≤ s.m_size) :
    (insert_in_the_middle T p kind items items.length s).sat
      (fun _ s2 => s2.m_storage = inserted (fun j => items[j]?) p items.length s.m_size
          s.m_storage ∧
        s2.m_size = s.m_size + items.length ∧ (s.fuel = none → s2.fuel = none))
      (fun _ => s.fuel ≠ none) (fun _ => False) := by
  unfold insert_in_the_middle
  simp only
  split_ifs with h2
  · apply sat_bind
    refine sat_mono (uninitialized_copy_content T (Range.self (s.m_size - items.length))
      items.length s.m_size s (fun j => s.m_storage (s.m_size - items.length + j)) ?_) ?_
      (fun _ h => h) (fun _ h => h)
    · intro j m _ hm
      simp only [Range.read]
      apply hm; omega
    rintro _ s3 ⟨h3, h4, h5⟩
    apply sat_bind
    refine sat_mono (move_backward_content T p (p + (s.m_size - p) - items.length)
      (s3.m_size + items.length - items.length)
      (set_size (s3.m_size + items.length) s3) ?_) ?_ ?_ (fun _ h => h)
    · omega
    · rintro _ s5 ⟨h6, h7, h8⟩
      refine sat_mono (copy_content T (Range.input kind items) items.length p s5
        (fun j => items[j]?) (fun _ _ _ _ => rfl)) ?_ ?_ (fun _ h => h)
      · rintro _ s6 ⟨h9, h10, h11⟩
        refine ⟨?_, ?_, fun h => h11 (h8 (h5 h))⟩
        · rw [h9, h6]
          simp only [set_size, h3, h4]
          funext i
          simp only [blit, inserted]
          split_ifs <;> first | rfl | (exfalso; omega) | (congr 1; omega)
        · rw [h10, h7]; simp [set_size, h4]
      · intro _ h hn
        exact h (h8 (h5 hn))
    · intro _ h hn
      exact h (h5 hn)
  · apply sat_bind
    refine sat_mono (uninitialized_copy_content T
      (Range.input kind (items.drop (s.m_size - p))) (items.length - (s.m_size - p)) s.m_size s
      (fun j => items[s.m_size - p + j]?) ?_) ?_ (fun _ h => h) (fun _ h => h)
    · intro j m _ _
      simp only [Range.read, List.getElem?_drop]
    rintro _ s3 ⟨h3, h4, h5⟩
    apply sat_bind
    refine sat_mono (uninitialized_copy_content T (Range.self p) (s.m_size - p)
      (p + items.length)
      (set_size (s3.m_size + (items.length - (s.m_size - p))) s3)
      (fun j => s.m_storage (p + j)) ?_) ?_ ?_ (fun _ h => h)
    · intro j m hj hm
      simp only [Range.read]
      rw [hm _ (by omega)]
      simp only [set_size, h3, blit]
      rw [if_neg]; omega
    · rintro _ s5 ⟨h6, h7, h8⟩
      refine sat_mono (copy_content T (Range.input kind items) (s.m_size - p) p _
        (fun j => items[j]?) (fun _ _ _ _ => rfl)) ?_ ?_ (fun _ h => h)
      · rintro _ s6 ⟨h9, h10, h11⟩
        refine ⟨?_, ?_, fun h => h11 (h8 (h5 h))⟩
        · rw [h9]
          simp only [set_size, h6, h3, h4]
          funext i
          simp only [blit, inserted]
          split_ifs <;> first | rfl | (exfalso; omega) | (congr 1; omega)
        · rw [h10]; simp only [set_size, h7, h4]; omega
      · intro _ h hn
        exact h (h8 (h5 hn))
    · intro _ h hn
      exact h (h5 hn)

theorem insert_range_storage (T : Traits) (p : Nat) (kind : IteratorKind)
    (items : List Value) (s : static_vector Value Capacity) (hp : p ≤ s.m_size)
    (hc : s.m_size + items.length ≤ Capacity) :
    (insert_range T p kind items s).sat
      (fun _ s2 => s2.m_storage = inserted (fun j => items[j]?) p items.length s.m_size
          s.m_storage ∧
        s2.m_size = s.m_size + items.length ∧ (s.fuel = none → s2.fuel = none))
      (fun _ => s.fuel ≠ none) (fun _ => False) := by
  unfold insert_range
  split
  · unfold insert_dispatch_random_access
    simp only [check_iterator_end_eq, check_capacity, hp, hc, if_true, Outcome.bind]
    split_ifs with h1
    · apply sat_bind
      refine sat_mono (uninitialized_copy_content T (Range.input kind items) items.length p s
        (fun j => items[j]?) (fun _ _ _ _ => rfl)) ?_ (fun _ h => h) (fun _ h => h)
      rintro _ s3 ⟨h3, h4, h5⟩
      refine ⟨?_, by simp [set_size, h4], h5⟩
      simp only [set_size, h3]
      funext i
      simp only [blit, inserted]
      split_ifs <;> first | rfl | (exfalso; omega)
    · exact insert_in_the_middle_storage T p kind items s hp
  · unfold insert_dispatch_not_random_access
    simp only [check_iterator_end_eq, check_capacity, hp, hc, if_true, Outcome.bind]
    split_ifs with h1
    · apply sat_bind
      refine sat_mono (uninitialized_copy_checked_loop_content T p (Capacity - p) items 0 s
        (by omega)) ?_ (fun _ h => h) (fun _ h => h)
      rintro r s3 ⟨h2, h3, h4, h5⟩
      subst h2
      simp only [if_true, Nat.zero_add]
      rw [if_pos (by omega)]
      refine ⟨?_, by simp [set_size, h4], h5⟩
      simp only [set_size, h3]
      funext i
      simp only [blit, inserted, Nat.add_zero]
      split_ifs <;> first | rfl | (exfalso; omega)
    · exact insert_in_the_middle_storage T p kind items s hp

theorem inserted_congr (g g2 : Nat → Option Value) (p k n : Nat) (m : Nat → Option Value)
    (h : ∀ j, j < k → g j = g2 j) : inserted g p k n m = inserted g2 p k n m := by
  funext i
  simp only [inserted]
  split_ifs <;> first | rfl | (apply h; omega)

/-- C3: `insert(position, first, last)` with `position <= size()`, a source
sequence of the caller and `size() + distance(first, last) <= Capacity`, for
every kind of source iterator (pointer, random access, forward only): if no
element operation throws the call returns, and whenever it returns the container
holds `xs[0..p) ++ r ++ xs[p..size)` and `size()` has grown by the length of
`r`. When `r` is `k` copies of `v`, storage and size are those that
`insert(position, k, v)` produces. -/
theorem C3_insert_range_correct (T : Traits) (p : Nat) (kind : IteratorKind)
    (items : List Value) (s : static_vector Value Capacity) (hp : p ≤ s.m_size)
    (hc : s.m_size + items.length ≤ Capacity) :
    (s.fuel = none → ∃ s2, insert_range T p kind items s = .returned () s2) ∧
    (∀ s2, insert_range T p kind items s = .returned () s2 →
      s2.elements = s.elements.take p ++ items.map some ++ s.elements.drop p ∧
      s2.size = s.size + items.length) ∧
    (∀ k v s2 s3, items = List.replicate k v →
      insert_range T p kind items s = .returned () s2 →
      insert_n T p k (ValueRef.value v) s = .returned () s3 →
      s2.m_storage = s3.m_storage ∧ s2.size = s3.size ∧ s2.elements = s3.elements) := by
  have h := insert_range_storage T p kind items s hp hc
  refine ⟨fun hf => sat_total h (fun _ hn => hn hf) (fun _ hn => hn), fun s2 h2 => ?_, ?_⟩
  · obtain ⟨h3, h4, _⟩ := sat_returned h h2
    refine ⟨?_, h4⟩
    rw [elements_inserted s s2 _ p items.length hp h3 h4, map_range_getElem]
  · intro k v s2 s3 hi h2 h3
    subst hi
    simp only [List.length_replicate] at hc h
    obtain ⟨h4, h5, _⟩ := sat_returned h h2
    obtain ⟨h6, h7, _⟩ := sat_returned (insert_n_storage T p k v s hp hc) h3
    have e1 : s2.m_storage = s3.m_storage := by
      rw [h4, h6]
      apply inserted_congr
      intro j hj
      simp [List.getElem?_replicate, hj]
    have e2 : s2.m_size = s3.m_size := by rw [h5, h7]
    refine ⟨e1, e2, ?_⟩
    unfold elements
    rw [e1, e2]

/-- C3 at a concrete input: `{7,8,9}` behind forward-only iterators inserted
before slot 1 of `{1,2,3,4}`. -/
theorem C3_insert_range_correct_witness :
    (∃ s2, insert_range Traits.element_wise 1 IteratorKind.forward [7, 8, 9]
        (of_list 8 [1, 2, 3, 4] none) = .returned () s2) ∧
    (∀ s2, insert_range Traits.element_wise 1 IteratorKind.forward [7, 8, 9]
        (of_list 8 [1, 2, 3, 4] none) = .returned () s2 →
      s2.elements = [some 1, some 7, some 8, some 9, some 2, some 3, some 4] ∧ s2.size = 7) :=
  ⟨(C3_insert_range_correct Traits.element_wise 1 IteratorKind.forward [7, 8, 9]
      (of_list 8 [1, 2, 3, 4] none) (by decide) (by decide)).1 rfl,
   (C3_insert_range_correct Traits.element_wise 1 IteratorKind.forward [7, 8, 9]
      (of_list 8 [1, 2, 3, 4] none) (by decide) (by decide)).2.1⟩

/-! ### Assignment from a range (C4) -/

theorem assign_dispatch_loop_content :
    ∀ (items : List Value) (it : Nat) (s : static_vector Value Capacity), it ≤ s.m_size →
      (assign_dispatch_loop items it s).sat
        (fun r s2 => r = (it + min items.length (s.m_size - it),
            items.drop (min items.length (s.m_size - it))) ∧
          updates s (blit (fun j => items[j]?) it (min items.length (s.m_size - it))
            s.m_storage) s2)
        (fun s2 => s2.m_size = s.m_size ∧ s.fuel ≠ none) (fun _ => False) := by
  intro items
  induction items with
  | nil =>
    intro it s _
    simp only [assign_dispatch_loop, Outcome.sat, List.length_nil, Nat.zero_min, Nat.add_zero,
      blit_zero, List.drop_nil]
    exact ⟨trivial, rfl, rfl, fun h => h⟩
  | cons v rest ih =>
    intro it s hle
    unfold assign_dispatch_loop
    split_ifs with h0
    · have : min (v :: rest).length (s.m_size - it) = 0 := by
        rw [h0, Nat.sub_self, Nat.min_zero]
      simp only [Outcome.sat, this, Nat.add_zero, List.drop_zero, blit_zero]
      exact ⟨trivial, rfl, rfl, fun h => h⟩
    · have h1 := assign_element_sat it (some v) s
      cases ho : assign_element it (some v) s with
      | returned a s1 =>
        obtain ⟨h2, h3, h4⟩ := sat_returned h1 ho
        have e : min (v :: rest).length (s.m_size - it) =
            min rest.length (s1.m_size - (it + 1)) + 1 := by
          rw [h3, List.length_cons]; omega
        refine sat_mono (ih (it + 1) s1 (by omega)) ?_ ?_ (fun _ h => h)
        · rintro r s2 ⟨h5, h6, h7, h8⟩
          refine ⟨?_, ?_, by rw [h7, h3], fun h => h8 (h4 h)⟩
          · rw [h5, e, List.drop_succ_cons]
            congr 1; omega
          · rw [h6, h2, e]
            funext i
            simp only [blit, write]
            by_cases e2 : i = it
            · subst e2
              rw [if_neg (by omega), if_pos rfl, if_pos (by omega)]
              simp
            · rw [if_neg e2]
              by_cases w : it + 1 ≤ i ∧ i < it + 1 + min rest.length (s1.m_size - (it + 1))
              · rw [if_pos w, if_pos (by omega)]
                have : i - it = (i - (it + 1)) + 1 := by omega
                rw [this, List.getElem?_cons_succ]
              · rw [if_neg w, if_neg (by omega)]
        · rintro s2 ⟨h5, h6⟩
          exact ⟨by rw [h5, h3], fun hn => h6 (h4 hn)⟩
      | threw e s1 =>
        obtain ⟨h2, h3⟩ := sat_threw h1 ho
        exact ⟨by rw [h2], h3⟩
      | assertion_failed a s1 =>
        rw [ho] at h1
        exact h1

theorem assign_storage (T : Traits) (kind : IteratorKind) (items : List Value)
    (s : static_vector Value Capacity) (hc : items.length ≤ Capacity) :
    (assign T kind items s).sat
      (fun _ s2 => (∀ i, i < items.length → s2.m_storage i = items[i]?) ∧
        s2.m_size = items.length ∧ (s.fuel = none → s2.fuel = none))
      (fun _ => s.fuel ≠ none) (fun _ => False) := by
  unfold assign
  split
  · unfold assign_dispatch_random_access
    simp only [check_capacity, hc, if_true, Outcome.bind]
    split_ifs with h1
    · apply sat_bind
      refine sat_mono (copy_content T (Range.input kind items) s.m_size 0 s
        (fun j => items[j]?) (fun _ _ _ _ => rfl)) ?_ (fun _ h => h) (fun _ h => h)
      rintro _ s2 ⟨h2, h3, h4⟩
      apply sat_bind
      refine sat_mono (uninitialized_copy_content T (Range.input kind (items.drop s2.m_size))
        (items.length - s2.m_size) s2.m_size s2 (fun j => items[s2.m_size + j]?) ?_) ?_ ?_
        (fun _ h => h)
      · intro j m _ _
        simp only [Range.read, List.getElem?_drop]
      · rintro _ s3 ⟨h5, h6, h7⟩
        refine ⟨?_, rfl, fun h => h7 (h4 h)⟩
        intro i hi
        simp only [set_size, h5, h2, h3, blit]
        split_ifs <;> first | rfl | (exfalso; omega) | (congr 1; omega)
      · intro _ h hn
        exact h (h4 hn)
    · apply sat_bind
      refine sat_mono (copy_content T (Range.input kind items) items.length 0 s
        (fun j => items[j]?) (fun _ _ _ _ => rfl)) ?_ (fun _ h => h) (fun _ h => h)
      rintro _ s2 ⟨h2, h3, h4⟩
      refine ⟨?_, rfl, fun h => ?_⟩
      · intro i hi
        simp only [set_size, destroy_storage, h2]
        split
        · simp only [blit]
          rw [if_pos (by omega)]; rfl
        · simp only [wipe, blit]
          rw [if_neg (by omega), if_pos (by omega)]; rfl
      · simp only [set_size, destroy_fuel]
        exact h4 h
  · unfold assign_dispatch_not_random_access
    apply sat_bind
    refine sat_mono (assign_dispatch_loop_content items 0 s (Nat.zero_le _)) ?_ (fun _ h => h.2)
      (fun _ h => h)
    rintro r s1 ⟨h1, h2, h3, h4⟩
    subst h1
    simp only [Nat.zero_add, Nat.sub_zero]
    apply sat_bind
    refine sat_mono (uninitialized_copy_checked_loop_content T (min items.length s.m_size)
      (Capacity - min items.length s.m_size) (items.drop (min items.length s.m_size)) 0
      (destroy T (min items.length s.m_size) s1.m_size s1) ?_) ?_ ?_ (fun _ h => h)
    · simp only [List.length_drop]; omega
    · rintro r s3 ⟨h5, h6, h7, h8⟩
      subst h5
      simp only [Nat.zero_add, List.length_drop, if_true, check_capacity, Outcome.bind]
      rw [if_pos (by omega)]
      refine ⟨?_, by simp only [set_size]; omega, fun h => ?_⟩
      · intro i hi
        simp only [set_size, h6, destroy_storage, h2, h3, Nat.add_zero, List.length_drop, blit,
          List.getElem?_drop]
        by_cases hw : min items.length s.m_size ≤ i
        · rw [if_pos (by omega)]
          congr 1; omega
        · rw [if_neg (by omega)]
          have hb : blit (fun j => items[j]?) 0 (min items.length (s.m_size - 0)) s.m_storage i
              = items[i]? := by
            simp only [blit]
            rw [if_pos (by omega)]; rfl
          split
          · exact hb
          · simp only [wipe]
            rw [if_neg (by omega)]; exact hb
      · apply h8
        rw [destroy_fuel]
        exact h4 h
    · intro _ h hn
      apply h
      rw [destroy_fuel]
      exact h4 hn

theorem elements_eq_of_storage (s2 : static_vector Value Capacity) (items : List Value)
    (h1 : ∀ i, i < items.length → s2.m_storage i = items[i]?) (h2 : s2.m_size = items.length) :
    s2.elements = items.map some := by
  unfold elements
  rw [h2, ← map_range_getElem]
  apply List.map_congr_left
  intro i hi
  exact h1 i (List.mem_range.1 hi)

/-- C4: `assign(first, last)` from a source sequence `v` of the caller with
`length(v) <= Capacity`, into a container of any size, for every kind of source
iterator (the random-access and the forward-only `assign_dispatch`): if no
element operation throws the call returns, and whenever it returns
`size() = length(v)` and the elements from `begin()` to `end()` are exactly `v`. -/
theorem C4_assign_round_trip (T : Traits) (kind : IteratorKind) (items : List Value)
    (s : static_vector Value Capacity) (hc : items.length ≤ Capacity) :
    (s.fuel = none → ∃ s2, assign T kind items s = .returned () s2) ∧
    (∀ s2, assign T kind items s = .returned () s2 →
      s2.size = items.length ∧ s2.elements = items.map some) := by
  have h := assign_storage T kind items s hc
  refine ⟨fun hf => sat_total h (fun _ hn => hn hf) (fun _ hn => hn), fun s2 h2 => ?_⟩
  obtain ⟨h3, h4, _⟩ := sat_returned h h2
  exact ⟨h4, elements_eq_of_storage s2 items h3 h4⟩

/-- C4 at concrete inputs: a forward-only source longer than the container, and a
random-access source shorter than it. -/
theorem C4_assign_round_trip_witness :
    (∀ s2, assign Traits.element_wise IteratorKind.forward [7, 8, 9, 10, 11]
        (of_list 5 [1, 2, 3, 4] none) = .returned () s2 →
      s2.size = 5 ∧ s2.elements = [some 7, some 8, some 9, some 10, some 11]) ∧
    (∃ s2, assign Traits.element_wise IteratorKind.random_access [7, 8]
        (of_list 5 [1, 2, 3, 4] none) = .returned () s2) :=
  ⟨(C4_assign_round_trip Traits.element_wise IteratorKind.forward [7, 8, 9, 10, 11]
      (of_list 5 [1, 2, 3, 4] none) (by decide)).2,
   (C4_assign_round_trip Traits.element_wise IteratorKind.random_access [7, 8]
      (of_list 5 [1, 2, 3, 4] none) (by decide)).1 rfl⟩

/-! ### Resizing (C5) -/

theorem construct_ascending_frame (T : Traits)
    (rd : Nat → (Nat → Option Value) → Option Value) (dst n : Nat)
    (s : static_vector Value Capacity) :
    (construct_ascending T rd dst n 0 s).sat
      (fun _ s2 => (∀ i, ¬(dst ≤ i ∧ i < dst + n) → s2.m_storage i = s.m_storage i) ∧
        s2.m_size = s.m_size ∧ (s.fuel = none → s2.fuel = none))
      (fun s2 => (∃ j, j < n ∧
          (∀ i, ¬(dst ≤ i ∧ i < dst + j) → s2.m_storage i = s.m_storage i) ∧
          (T.has_trivial_destructor = false → s2.m_storage = wipe dst (dst + j) s.m_storage)) ∧
        s2.m_size = s.m_size ∧ s.fuel ≠ none)
      (fun _ => False) := by
  refine sat_mono (construct_ascending_sat T rd dst
    (fun j m => ∀ i, ¬(dst ≤ i ∧ i < dst + j) → m i = s.m_storage i) n 0 s
    (fun _ _ => rfl) ?_) ?_ ?_ (fun _ h => h)
  · intro j m _ _ h3 i hi
    simp only [write]
    rw [if_neg (by omega)]
    exact h3 i (by omega)
  · rintro _ s2 ⟨h1, h2, h3⟩
    exact ⟨by simpa using h1, h2, h3⟩
  · rintro s2 ⟨⟨j, m, _, h2, h3, h6⟩, h4, h5⟩
    refine ⟨⟨j, by omega, ?_, ?_⟩, h4, h5⟩
    · intro i hi
      rw [h6]
      split
      · exact h3 i hi
      · simp only [wipe]
        rw [if_neg hi]
        exact h3 i hi
    · intro ht
      rw [h6, ht]
      simp only [Bool.false_eq_true, if_false]
      funext i
      simp only [wipe]
      split
      · rfl
      · exact h3 i (by assumption)

theorem resize_sat [Inhabited Value] (T : Traits) (count : Nat)
    (s : static_vector Value Capacity) (hc : count ≤ Capacity) :
    (resize T count s).sat
      (fun _ s2 => s2.m_size = count ∧
        (∀ i, i < min count s.m_size → s2.m_storage i = s.m_storage i) ∧
        (s.fuel = none → s2.fuel = none))
      (fun s2 => s.m_size < count ∧ s.fuel ≠ none ∧ s2.m_size = s.m_size ∧
        (∀ i, i < s.m_size → s2.m_storage i = s.m_storage i) ∧
        (T.has_trivial_destructor = false →
          ∃ j, j < count - s.m_size ∧
            s2.m_storage = wipe s.m_size (s.m_size + j) s.m_storage))
      (fun _ => False) := by
  unfold resize
  split_ifs with h1
  · refine ⟨rfl, ?_, ?_⟩
    · intro i hi
      simp only [set_size, destroy_storage]
      split
      · rfl
      · simp only [wipe]
        rw [if_neg (by omega)]
    · simp only [set_size, destroy_fuel]
      exact fun h => h
  · simp only [check_capacity, hc, if_true, Outcome.bind]
    unfold construct
    split_ifs with h2
    · exact ⟨rfl, fun _ _ => rfl, fun h => h⟩
    · apply sat_bind
      refine sat_mono (construct_ascending_frame T _ s.m_size (count - s.m_size) s) ?_ ?_
        (fun _ h => h)
      · rintro _ s2 ⟨h3, h4, h5⟩
        exact ⟨rfl, fun i hi => h3 i (by omega), h5⟩
      · rintro s2 ⟨⟨j, h3, h4, h5⟩, h6, h7⟩
        exact ⟨by omega, h7, h6, fun i hi => h4 i (by omega), fun ht => ⟨j, h3, h5 ht⟩⟩

theorem resize_value_sat (T : Traits) (count : Nat) (x : ValueRef Value)
    (s : static_vector Value Capacity) (hc : count ≤ Capacity) :
    (resize_value T count x s).sat
      (fun _ s2 => s2.m_size = count ∧
        (∀ i, i < min count s.m_size → s2.m_storage i = s.m_storage i) ∧
        (s.fuel = none → s2.fuel = none))
      (fun s2 => s.m_size < count ∧ s.fuel ≠ none ∧ s2.m_size = s.m_size ∧
        (∀ i, i < s.m_size → s2.m_storage i = s.m_storage i) ∧
        (T.has_trivial_destructor = false →
          ∃ j, j < count - s.m_size ∧
            s2.m_storage = wipe s.m_size (s.m_size + j) s.m_storage))
      (fun _ => False) := by
  unfold resize_value
  split_ifs with h1
  · refine ⟨rfl, ?_, ?_⟩
    · intro i hi
      simp only [set_size, destroy_storage]
      split
      · rfl
      · simp only [wipe]
        rw [if_neg (by omega)]
    · simp only [set_size, destroy_fuel]
      exact fun h => h
  · simp only [check_capacity, hc, if_true, Outcome.bind]
    unfold std_uninitialized_fill
    apply sat_bind
    refine sat_mono (construct_ascending_frame T _ s.m_size (count - s.m_size) s) ?_ ?_
      (fun _ h => h)
    · rintro _ s2 ⟨h3, h4, h5⟩
      exact ⟨rfl, fun i hi => h3 i (by omega), h5⟩
    · rintro s2 ⟨⟨j, h3, h4, h5⟩, h6, h7⟩
      exact ⟨by omega, h7, h6, fun i hi => h4 i (by omega), fun ht => ⟨j, h3, h5 ht⟩⟩

/-- C5: for `count <= Capacity`, `resize(count)` and `resize(count, value)` return
when no element operation throws, and whenever they return `size()` is `count`
and every element at an index below `min(count, old size)` is the one that was
there before. -/
theorem C5_resize_postcondition [Inhabited Value] (T : Traits) (count : Nat)
    (x : ValueRef Value) (s : static_vector Value Capacity) (hc : count ≤ Capacity) :
    ((s.fuel = none → ∃ s2, resize T count s = .returned () s2) ∧
     (∀ s2, resize T count s = .returned () s2 →
        s2.size = count ∧ ∀ i, i < min count s.size → s2.m_storage i = s.m_storage i)) ∧
    ((s.fuel = none → ∃ s2, resize_value T count x s = .returned () s2) ∧
     (∀ s2, resize_value T count x s = .returned () s2 →
        s2.size = count ∧ ∀ i, i < min count s.size → s2.m_storage i = s.m_storage i)) := by
  have h1 := resize_sat T count s hc
  have h2 := resize_value_sat T count x s hc
  refine ⟨⟨fun hf => sat_total h1 (fun _ hn => hn.2.1 hf) (fun _ hn => hn), fun s2 h => ?_⟩,
    ⟨fun hf => sat_total h2 (fun _ hn => hn.2.1 hf) (fun _ hn => hn), fun s2 h => ?_⟩⟩
  · obtain ⟨h3, h4, _⟩ := sat_returned h1 h
    exact ⟨h3, h4⟩
  · obtain ⟨h3, h4, _⟩ := sat_returned h2 h
    exact ⟨h3, h4⟩

/-- C5 at concrete inputs: `{1,2,3,4}` resized to 2 and to 6. -/
theorem C5_resize_postcondition_witness :
    (∀ s2, resize Traits.element_wise 2 (of_list 8 [1, 2, 3, 4] none) = .returned () s2 →
      s2.size = 2 ∧ ∀ i, i < 2 → s2.m_storage i = [1, 2, 3, 4][i]?) ∧
    (∀ s2, resize_value Traits.element_wise 6 (ValueRef.value 9) (of_list 8 [1, 2, 3, 4] none)
        = .returned () s2 →
      s2.size = 6 ∧ ∀ i, i < 4 → s2.m_storage i = [1, 2, 3, 4][i]?) :=
  ⟨(C5_resize_postcondition Traits.element_wise 2 (ValueRef.value 9)
      (of_list 8 [1, 2, 3, 4] none) (by decide)).1.2,
   (C5_resize_postcondition Traits.element_wise 6 (ValueRef.value 9)
      (of_list 8 [1, 2, 3, 4] none) (by decide)).2.2⟩

/-! ### Erasing a range and checked access (C6, C7) -/

theorem map_range_erased (m : Nat → Option Value) (a b n : Nat) (hab : a ≤ b) (hb : b ≤ n)
    (f : Nat → Option Value)
    (hf : ∀ i, i < n - (b - a) → f i = if i < a then m i else m (i + (b - a))) :
    (List.range (n - (b - a))).map f =
      ((List.range n).map m).take a ++ ((List.range n).map m).drop b := by
  apply List.ext_getElem?
  intro i
  rw [List.getElem?_append, List.getElem?_take, List.getElem?_drop, getElem?_map_range,
    getElem?_map_range, getElem?_map_range]
  simp only [List.length_take, List.length_map, List.length_range,
    min_eq_left (le_trans hab hb)]
  by_cases h1 : i < a
  · have h4 : i < n - (b - a) := by omega
    have h5 : i < n := by omega
    simp only [h1, h4, h5, if_true, hf i h4]
  · by_cases h3 : i < n - (b - a)
    · have h6 : b + (i - a) < n := by omega
      have e : i + (b - a) = b + (i - a) := by omega
      simp only [h1, h3, h6, if_true, if_false, hf i h3, e]
    · have h6 : ¬ (b + (i - a) < n) := by omega
      simp only [h1, h3, h6, if_false]

theorem erase_range_sat (T : Traits) (a b : Nat) (s : static_vector Value Capacity)
    (hab : a ≤ b) (hb : b < s.m_size) :
    (erase_range T a b s).sat
      (fun _ s2 => s2.m_size = s.m_size - (b - a) ∧
        (∀ i, i < s.m_size - (b - a) →
          s2.m_storage i = if i < a then s.m_storage i else s.m_storage (i + (b - a))) ∧
        (s.fuel = none → s2.fuel = none))
      (fun _ => s.fuel ≠ none) (fun _ => False) := by
  unfold erase_range
  have ha : a < s.m_size := by omega
  have hn : (0 : Int) ≤ (b : Int) - (a : Int) := by omega
  have ht : ((b : Int) - (a : Int)).toNat = b - a := by omega
  simp only [check_iterator_end_neq, ha, hb, if_true, Outcome.bind, hn, ht]
  apply sat_bind
  refine sat_mono (move_content T b s.m_size a s hab) ?_ (fun _ h => h) (fun _ h => h)
  rintro _ s3 ⟨h3, h4, h5⟩
  refine ⟨by simp only [set_size, destroy_size, h4], ?_, ?_⟩
  · intro i hi
    have hb : blit (fun k => s.m_storage (b + k)) a (s.m_size - b) s.m_storage i =
        if i < a then s.m_storage i else s.m_storage (i + (b - a)) := by
      simp only [blit]
      split_ifs <;> first | rfl | (exfalso; omega) | (congr 1; omega)
    simp only [set_size, destroy_storage, destroy_size, h3, h4]
    split
    · exact hb
    · simp only [wipe]
      rw [if_neg (by omega)]
      exact hb
  · simp only [set_size, destroy_fuel]
    exact h5

/-- C6: `erase(first, last)` for a range that passes the iterator assertions of
the function (`first <= last`, both iterators at live elements): if no element
operation throws the call returns, and whenever it returns the container holds
`xs[0..a) ++ xs[b..size)` and `size()` has dropped by `b - a`. -/
theorem C6_erase_range_correct (T : Traits) (a b : Nat) (s : static_vector Value Capacity)
    (hab : a ≤ b) (hb : b < s.m_size) :
    (s.fuel = none → ∃ s2, erase_range T a b s = .returned () s2) ∧
    (∀ s2, erase_range T a b s = .returned () s2 →
      s2.elements = s.elements.take a ++ s.elements.drop b ∧
      s2.size = s.size - (b - a)) := by
  have h := erase_range_sat T a b s hab hb
  refine ⟨fun hf => sat_total h (fun _ hn => hn hf) (fun _ hn => hn), fun s2 h2 => ?_⟩
  obtain ⟨h3, h4, _⟩ := sat_returned h h2
  refine ⟨?_, h3⟩
  unfold elements
  rw [h3]
  exact map_range_erased s.m_storage a b s.m_size hab (Nat.le_of_lt hb) s2.m_storage h4

/-- C6 at the input of the specification: capacity 5, elements `{1,2,3,4}`,
`erase(begin() + 1, begin() + 3)` yields `{1,4}` with `size() == 2`. -/
theorem C6_erase_range_correct_witness :
    (∃ s2, erase_range Traits.element_wise 1 3 (of_list 5 [1, 2, 3, 4] none)
      = .returned () s2) ∧
    (∀ s2, erase_range Traits.element_wise 1 3 (of_list 5 [1, 2, 3, 4] none)
        = .returned () s2 →
      s2.elements = [some 1, some 4] ∧ s2.size = 2) :=
  ⟨(C6_erase_range_correct Traits.element_wise 1 3 (of_list 5 [1, 2, 3, 4] none)
      (by decide) (by decide)).1 rfl,
   (C6_erase_range_correct Traits.element_wise 1 3 (of_list 5 [1, 2, 3, 4] none)
      (by decide) (by decide)).2⟩

/-- C7: `at(i)` throws `std::out_of_range` exactly when `i >= size()`; otherwise
it returns element `i`; in both cases the container is unchanged. So `at(size())`
fails, and `at(size() - 1)` succeeds on a non-empty container. -/
theorem C7_at_bounds (i : Nat) (s : static_vector Value Capacity) :
    (at_ i s = .threw .out_of_range s ↔ s.size ≤ i) ∧
    (at_ i s = .returned (s.m_storage i) s ↔ i < s.size) ∧
    (at_ i s).state = s ∧
    at_ s.size s = .threw .out_of_range s ∧
    (0 < s.size → at_ (s.size - 1) s = .returned (s.m_storage (s.size - 1)) s) := by
  unfold at_ size
  refine ⟨?_, ?_, ?_, ?_, ?_⟩
  · split_ifs with h <;> simp [h]
  · split_ifs with h <;> simp [h]
    omega
  · split_ifs <;> rfl
  · simp
  · intro h
    rw [if_neg (by omega)]

/-! ### The strong guarantee (C8) -/

theorem construct_ascending_throws (T : Traits)
    (rd : Nat → (Nat → Option Value) → Option Value) (dst : Nat) :
    ∀ (n k : Nat) (s : static_vector Value Capacity) (f : Nat), s.fuel = some f → f < n →
      (construct_ascending T rd dst n k s).is_threw = true := by
  intro n
  induction n with
  | zero => intro k s f _ h; omega
  | succ n ih =>
    intro k s f hf hlt
    unfold construct_ascending placement_new
    cases f with
    | zero => simp [hf, tick, Outcome.is_threw]
    | succ f =>
      simp only [hf, tick]
      exact ih (k + 1) _ f rfl (by omega)

theorem push_back_sat (T : Traits) (x : ValueRef Value) (s : static_vector Value Capacity) :
    (push_back T x s).sat (fun _ _ => True) (fun s2 => s2 = s) (fun _ => True) := by
  unfold push_back check_capacity
  split_ifs with h
  · simp only [Outcome.bind]
    apply sat_bind
    exact sat_mono (uninitialized_fill_sat T s.m_size x s) (fun _ _ _ => trivial)
      (fun _ h => h.1) (fun _ _ => trivial)
  · trivial

/-- C8: strong guarantee of `push_back` and of growing `resize`. Whenever an
element construction throws during `push_back(value)`, `resize(count)` or
`resize(count, value)` (whatever the number of the failing invocation), the
state after the failure has the old `size()` and the old elements at
`[0, size())`; for `push_back` the whole state is the old one; for `resize`, with
a non-trivial destructor, the storage is the old storage with the constructed
slots `[size(), size() + j)` destroyed (uninitialized again). The last three
parts state that the failure does occur when the counter of successful
constructions runs out during the call. -/
theorem C8_strong_guarantee [Inhabited Value] (T : Traits) (count : Nat)
    (x : ValueRef Value) (s : static_vector Value Capacity) :
    (∀ e s2, push_back T x s = .threw e s2 → s2 = s) ∧
    (∀ e s2, resize T count s = .threw e s2 →
      s.size < count ∧ s2.size = s.size ∧ s2.elements = s.elements ∧
      (∀ i, i < s.size → s2.m_storage i = s.m_storage i) ∧
      (T.has_trivial_destructor = false →
        ∃ j, j < count - s.size ∧ s2.m_storage = wipe s.size (s.size + j) s.m_storage)) ∧
    (∀ e s2, resize_value T count x s = .threw e s2 →
      s.size < count ∧ s2.size = s.size ∧ s2.elements = s.elements ∧
      (∀ i, i < s.size → s2.m_storage i = s.m_storage i) ∧
      (T.has_trivial_destructor = false →
        ∃ j, j < count - s.size ∧ s2.m_storage = wipe s.size (s.size + j) s.m_storage)) ∧
    (T.has_trivial_copy = false → s.fuel = some 0 → s.size + 1 ≤ Capacity →
      (push_back T x s).is_threw = true) ∧
    (∀ f, T.has_trivial_constructor = false → s.fuel = some f → f < count - s.size →
      count ≤ Capacity → (resize T count s).is_threw = true) ∧
    (∀ f, s.fuel = some f → f < count - s.size → count ≤ Capacity →
      (resize_value T count x s).is_threw = true) := by
  unfold size
  refine ⟨?_, ?_, ?_, ?_, ?_, ?_⟩
  · intro e s2 h
    exact sat_threw (push_back_sat T x s) h
  · intro e s2 h
    by_cases hc : count ≤ Capacity
    · obtain ⟨h1, _, h3, h4, h5⟩ := sat_threw (resize_sat T count s hc) h
      refine ⟨h1, h3, ?_, h4, h5⟩
      unfold elements
      rw [h3]
      apply List.map_congr_left
      intro i hi
      exact h4 i (List.mem_range.1 hi)
    · exfalso
      unfold resize check_capacity at h
      split_ifs at h
      simp [Outcome.bind] at h
  · intro e s2 h
    by_cases hc : count ≤ Capacity
    · obtain ⟨h1, _, h3, h4, h5⟩ := sat_threw (resize_value_sat T count x s hc) h
      refine ⟨h1, h3, ?_, h4, h5⟩
      unfold elements
      rw [h3]
      apply List.map_congr_left
      intro i hi
      exact h4 i (List.mem_range.1 hi)
    · exfalso
      unfold resize_value check_capacity at h
      split_ifs at h
      simp [Outcome.bind] at h
  · intro ht hf hc
    unfold push_back check_capacity uninitialized_fill placement_new
    simp [hc, ht, hf, tick, Outcome.bind, Outcome.is_threw]
  · intro f ht hf hlt hc
    unfold resize check_capacity construct
    rw [if_neg (by omega)]
    simp only [hc, if_true, Outcome.bind, ht, Bool.false_eq_true, if_false]
    have h := construct_ascending_throws T (fun _ _ => some (default : Value)) s.m_size
      (count - s.m_size) 0 s f hf hlt
    cases ho : construct_ascending T (fun _ _ => some (default : Value)) s.m_size
        (count - s.m_size) 0 s with
    | returned a s1 => rw [ho] at h; simp [Outcome.is_threw] at h
    | threw e s1 => rfl
    | assertion_failed a s1 => rw [ho] at h; simp [Outcome.is_threw] at h
  · intro f hf hlt hc
    unfold resize_value check_capacity std_uninitialized_fill
    rw [if_neg (by omega)]
    simp only [hc, if_true, Outcome.bind]
    have h := construct_ascending_throws T (fun _ m => x.read m) s.m_size
      (count - s.m_size) 0 s f hf hlt
    cases ho : construct_ascending T (fun _ m => x.read m) s.m_size
        (count - s.m_size) 0 s with
    | returned a s1 => rw [ho] at h; simp [Outcome.is_threw] at h
    | threw e s1 => rfl
    | assertion_failed a s1 => rw [ho] at h; simp [Outcome.is_threw] at h

/-- C8 at a concrete input: the element constructor fails on its third
invocation while `{1,2}` is resized to 5; the two elements constructed in the
new tail are destroyed, and size and elements are as before. -/
theorem C8_strong_guarantee_witness :
    resize Traits.element_wise 5 (of_list 6 [1, 2] (some 2))
      = .threw .element_operation (resize Traits.element_wise 5 (of_list 6 [1, 2] (some 2))).state ∧
    (resize Traits.element_wise 5 (of_list 6 [1, 2] (some 2))).state.size = 2 ∧
    (resize Traits.element_wise 5 (of_list 6 [1, 2] (some 2))).state.elements
      = [some 1, some 2] ∧
    (resize Traits.element_wise 5 (of_list 6 [1, 2] (some 2))).state.slots
      = [some 1, some 2, none, none, none, none] ∧
    (resize Traits.element_wise 5 (of_list 6 [1, 2] (some 2))).state.log.map Event.kind
      = [.construct, .construct, .destroy, .destroy] :=
  ⟨rfl,
   ((C8_strong_guarantee Traits.element_wise 5 (ValueRef.value 0)
      (of_list 6 [1, 2] (some 2))).2.1 _ _ rfl).2.1,
   ((C8_strong_guarantee Traits.element_wise 5 (ValueRef.value 0)
      (of_list 6 [1, 2] (some 2))).2.1 _ _ rfl).2.2.1,
   rfl, rfl⟩

/-! ### The capacity invariant (C1) -/

theorem assign_ascending_size (rd : Nat → (Nat → Option Value) → Option Value)
    (dst n k : Nat) (s : static_vector Value Capacity) :
    (assign_ascending rd dst n k s).sat (fun _ s2 => s2.m_size = s.m_size)
      (fun s2 => s2.m_size = s.m_size) (fun _ => False) :=
  sat_mono (assign_ascending_sat rd dst (fun _ _ => True) n k s trivial
    (fun _ _ _ _ _ => trivial)) (fun _ _ h => h.2.1) (fun _ h => h.2.1) (fun _ h => h)

theorem assign_descending_size (rd : Nat → (Nat → Option Value) → Option Value)
    (dst n : Nat) (s : static_vector Value Capacity) :
    (assign_descending rd dst n s).sat (fun _ s2 => s2.m_size = s.m_size)
      (fun s2 => s2.m_size = s.m_size) (fun _ => False) :=
  sat_mono (assign_descending_sat rd dst (fun _ _ => True) n s trivial
    (fun _ _ _ _ => trivial)) (fun _ _ h => h.2.1) (fun _ h => h.2.1) (fun _ h => h)

theorem construct_ascending_size (T : Traits)
    (rd : Nat → (Nat → Option Value) → Option Value)
    (dst n k : Nat) (s : static_vector Value Capacity) :
    (construct_ascending T rd dst n k s).sat (fun _ s2 => s2.m_size = s.m_size)
      (fun s2 => s2.m_size = s.m_size) (fun _ => False) :=
  sat_mono (construct_ascending_sat T rd dst (fun _ _ => True) n k s trivial
    (fun _ _ _ _ _ => trivial)) (fun _ _ h => h.2.1) (fun _ h => h.2.1) (fun _ h => h)

theorem copy_size (T : Traits) (src : Range Value) (n dst : Nat)
    (s : static_vector Value Capacity) :
    (copy T src n dst s).sat (fun _ s2 => s2.m_size = s.m_size)
      (fun s2 => s2.m_size = s.m_size) (fun _ => False) := by
  unfold copy
  split
  · rfl
  · exact assign_ascending_size _ _ _ _ _

theorem uninitialized_copy_size (T : Traits) (src : Range Value) (n dst : Nat)
    (s : static_vector Value Capacity) :
    (uninitialized_copy T src n dst s).sat (fun _ s2 => s2.m_size = s.m_size)
      (fun s2 => s2.m_size = s.m_size) (fun _ => False) := by
  unfold uninitialized_copy
  split
  · rfl
  · exact construct_ascending_size _ _ _ _ _ _

theorem uninitialized_fill_size (T : Traits) (dst : Nat) (x : ValueRef Value)
    (s : static_vector Value Capacity) :
    (uninitialized_fill T dst x s).sat (fun _ s2 => s2.m_size = s.m_size)
      (fun s2 => s2.m_size = s.m_size) (fun _ => False) :=
  sat_mono (uninitialized_fill_sat T dst x s) (fun _ _ h => h.2.1) (fun _ h => by rw [h.1])
    (fun _ h => h)

theorem fill_size (T : Traits) (dst : Nat) (x : ValueRef Value)
    (s : static_vector Value Capacity) :
    (fill T dst x s).sat (fun _ s2 => s2.m_size = s.m_size)
      (fun s2 => s2.m_size = s.m_size) (fun _ => False) :=
  sat_mono (fill_sat T dst x s) (fun _ _ h => h.2.1) (fun _ h => by rw [h.1]) (fun _ h => h)

theorem move_size (T : Traits) (first last dst : Nat) (s : static_vector Value Capacity) :
    (move T first last dst s).sat (fun _ s2 => s2.m_size = s.m_size)
      (fun s2 => s2.m_size = s.m_size) (fun _ => False) := by
  unfold move
  split
  · rfl
  · exact assign_ascending_size _ _ _ _ _

theorem move_backward_size (T : Traits) (first last dst : Nat)
    (s : static_vector Value Capacity) :
    (move_backward T first last dst s).sat (fun _ s2 => s2.m_size = s.m_size)
      (fun s2 => s2.m_size = s.m_size) (fun _ => False) := by
  unfold move_backward
  split
  · rfl
  · exact assign_descending_size _ _ _ _

theorem construct_size [Inhabited Value] (T : Traits) (first last : Nat)
    (s : static_vector Value Capacity) :
    (construct T first last s).sat (fun _ s2 => s2.m_size = s.m_size)
      (fun s2 => s2.m_size = s.m_size) (fun _ => False) := by
  unfold construct
  split
  · rfl
  · exact construct_ascending_size _ _ _ _ _ _

theorem std_fill_n_size (dst n : Nat) (x : ValueRef Value) (s : static_vector Value Capacity) :
    (std_fill_n dst n x s).sat (fun _ s2 => s2.m_size = s.m_size)
      (fun s2 => s2.m_size = s.m_size) (fun _ => False) :=
  assign_ascending_size _ _ _ _ _

theorem std_uninitialized_fill_size (T : Traits) (first last : Nat) (x : ValueRef Value)
    (s : static_vector Value Capacity) :
    (std_uninitialized_fill T first last x s).sat (fun _ s2 => s2.m_size = s.m_size)
      (fun s2 => s2.m_size = s.m_size) (fun _ => False) :=
  construct_ascending_size _ _ _ _ _ _

theorem destroy_at_size (T : Traits) (it : Nat) (s : static_vector Value Capacity) :
    (destroy_at T it s).m_size = s.m_size := by
  unfold destroy_at
  split <;> rfl

theorem uninitialized_copy_checked_loop_size (T : Traits) (dest max_count : Nat) :
    ∀ (items : List Value) (count : Nat) (s : static_vector Value Capacity),
      (uninitialized_copy_checked_loop T dest max_count items count s).sat
        (fun _ s2 => s2.m_size = s.m_size) (fun s2 => s2.m_size = s.m_size)
        (fun _ => False) := by
  intro items
  induction items with
  | nil => intro count s; rfl
  | cons v rest ih =>
    intro count s
    unfold uninitialized_copy_checked_loop
    split_ifs
    · rfl
    · have h1 := uninitialized_fill_size T (dest + count) (ValueRef.value v) s
      cases ho : uninitialized_fill T (dest + count) (ValueRef.value v) s with
      | returned a s1 =>
        have h2 : s1.m_size = s.m_size := sat_returned h1 ho
        exact sat_mono (ih (count + 1) s1) (fun _ _ h => by rw [h, h2])
          (fun _ h => by rw [h, h2]) (fun _ h => h)
      | threw e s1 =>
        have h2 : s1.m_size = s.m_size := sat_threw h1 ho
        simp only [Outcome.sat, destroy_size, h2]
      | assertion_failed a s1 =>
        rw [ho] at h1
        exact h1

theorem assign_dispatch_loop_size :
    ∀ (items : List Value) (it : Nat) (s : static_vector Value Capacity),
      (assign_dispatch_loop items it s).sat
        (fun _ s2 => s2.m_size = s.m_size) (fun s2 => s2.m_size = s.m_size)
        (fun _ => False) := by
  intro items
  induction items with
  | nil => intro it s; rfl
  | cons v rest ih =>
    intro it s
    unfold assign_dispatch_loop
    split_ifs
    · rfl
    · have h1 := assign_element_sat it (some v) s
      cases ho : assign_element it (some v) s with
      | returned a s1 =>
        have h2 : s1.m_size = s.m_size := (sat_returned h1 ho).2.1
        exact sat_mono (ih (it + 1) s1) (fun _ _ h => by rw [h, h2])
          (fun _ h => by rw [h, h2]) (fun _ h => h)
      | threw e s1 =>
        have h2 := (sat_threw h1 ho).1
        simp only [Outcome.sat, h2]
      | assertion_failed a s1 =>
        rw [ho] at h1
        exact h1

theorem resize_bound [Inhabited Value] (T : Traits) (count : Nat)
    (s : static_vector Value Capacity) (hs : s.m_size ≤ Capacity) :
    (resize T count s).sat (fun _ s2 => s2.m_size ≤ Capacity)
      (fun s2 => s2.m_size ≤ Capacity) (fun _ => True) := by
  unfold resize check_capacity
  split_ifs with h1 h2
  · exact Nat.le_trans (Nat.le_of_lt h1) hs
  · simp only [Outcome.bind]
    apply sat_bind
    exact sat_mono (construct_size T s.m_size count s) (fun _ _ _ => h2)
      (fun _ h => by rw [h]; exact hs) (fun _ h => h.elim)
  · trivial

theorem resize_value_bound (T : Traits) (count : Nat) (x : ValueRef Value)
    (s : static_vector Value Capacity) (hs : s.m_size ≤ Capacity) :
    (resize_value T count x s).sat (fun _ s2 => s2.m_size ≤ Capacity)
      (fun s2 => s2.m_size ≤ Capacity) (fun _ => True) := by
  unfold resize_value check_capacity
  split_ifs with h1 h2
  · exact Nat.le_trans (Nat.le_of_lt h1) hs
  · simp only [Outcome.bind]
    apply sat_bind
    exact sat_mono (std_uninitialized_fill_size T s.m_size count x s) (fun _ _ _ => h2)
      (fun _ h => by rw [h]; exact hs) (fun _ h => h.elim)
  · trivial

theorem push_back_bound (T : Traits) (x : ValueRef Value)
    (s : static_vector Value Capacity) (hs : s.m_size ≤ Capacity) :
    (push_back T x s).sat (fun _ s2 => s2.m_size ≤ Capacity)
      (fun s2 => s2.m_size ≤ Capacity) (fun _ => True) := by
  unfold push_back check_capacity
  split_ifs with h1
  · simp only [Outcome.bind]
    apply sat_bind
    exact sat_mono (uninitialized_fill_size T s.m_size x s)
      (fun _ s2 h => by simp only [Outcome.sat, set_size]; omega)
      (fun _ h => by rw [h]; exact hs) (fun _ h => h.elim)
  · trivial

theorem pop_back_bound (T : Traits) (s : static_vector Value Capacity)
    (hs : s.m_size ≤ Capacity) :
    (pop_back T s).sat (fun _ s2 => s2.m_size ≤ Capacity)
      (fun s2 => s2.m_size ≤ Capacity) (fun _ => True) := by
  unfold pop_back check_empty
  split_ifs with h1
  · simp only [Outcome.bind, Outcome.sat, set_size, destroy_at_size]
    omega
  · trivial

theorem insert_bound (T : Traits) (p : Nat) (x : ValueRef Value)
    (s : static_vector Value Capacity) (hs : s.m_size ≤ Capacity) :
    (insert T p x s).sat (fun _ s2 => s2.m_size ≤ Capacity)
      (fun s2 => s2.m_size ≤ Capacity) (fun _ => True) := by
  unfold insert
  by_cases h1 : p ≤ s.m_size
  swap
  · simp only [check_iterator_end_eq, h1, if_false, Outcome.bind]; trivial
  by_cases h2 : s.m_size + 1 ≤ Capacity
  swap
  · simp only [check_iterator_end_eq, check_capacity, h1, h2, if_true, if_false, Outcome.bind]
    trivial
  simp only [check_iterator_end_eq, check_capacity, h1, h2, if_true, Outcome.bind]
  split_ifs with h3
  · apply sat_bind
    exact sat_mono (uninitialized_fill_size T p x s)
      (fun _ s2 h => by simp only [Outcome.sat, set_size]; omega)
      (fun _ h => by rw [h]; exact hs) (fun _ h => h.elim)
  · apply sat_bind
    refine sat_mono (uninitialized_fill_size T s.m_size _ s) ?_
      (fun _ h => by rw [h]; exact hs) (fun _ h => h.elim)
    intro _ s3 h4
    apply sat_bind
    refine sat_mono (move_backward_size T _ _ _ _) ?_ ?_ (fun _ h => h.elim)
    · intro _ s5 h5
      refine sat_mono (fill_size T p x s5) ?_ ?_ (fun _ h => h.elim)
      · intro _ s6 h6
        rw [h6, h5]; simp only [set_size]; omega
      · intro s6 h6
        rw [h6, h5]; simp only [set_size]; omega
    · intro s5 h5
      rw [h5]; simp only [set_size]; omega

theorem insert_n_bound (T : Traits) (p k : Nat) (x : ValueRef Value)
    (s : static_vector Value Capacity) (hs : s.m_size ≤ Capacity) :
    (insert_n T p k x s).sat (fun _ s2 => s2.m_size ≤ Capacity)
      (fun s2 => s2.m_size ≤ Capacity) (fun _ => True) := by
  unfold insert_n
  by_cases h1 : p ≤ s.m_size
  swap
  · simp only [check_iterator_end_eq, h1, if_false, Outcome.bind]; trivial
  by_cases h2 : s.m_size + k ≤ Capacity
  swap
  · simp only [check_iterator_end_eq, check_capacity, h1, h2, if_true, if_false, Outcome.bind]
    trivial
  simp only [check_iterator_end_eq, check_capacity, h1, h2, if_true, Outcome.bind]
  split_ifs with h3 h4
  · apply sat_bind
    exact sat_mono (std_uninitialized_fill_size T p (p + k) x s)
      (fun _ s2 h => by simp only [Outcome.sat, set_size]; omega)
      (fun _ h => by rw [h]; exact hs) (fun _ h => h.elim)
  · apply sat_bind
    refine sat_mono (uninitialized_copy_size T _ _ _ s) ?_
      (fun _ h => by rw [h]; exact hs) (fun _ h => h.elim)
    intro _ s3 h4
    apply sat_bind
    refine sat_mono (move_backward_size T _ _ _ _) ?_ ?_ (fun _ h => h.elim)
    · intro _ s5 h5
      refine sat_mono (std_fill_n_size p k x s5) ?_ ?_ (fun _ h => h.elim)
      · intro _ s6 h6
        rw [h6, h5]; simp only [set_size]; omega
      · intro s6 h6
        rw [h6, h5]; simp only [set_size]; omega
    · intro s5 h5
      rw [h5]; simp only [set_size]; omega
  · apply sat_bind
    refine sat_mono (std_uninitialized_fill_size T _ _ x s) ?_
      (fun _ h => by rw [h]; exact hs) (fun _ h => h.elim)
    intro _ s3 h4
    apply sat_bind
    refine sat_mono (uninitialized_copy_size T _ _ _ _) ?_ ?_ (fun _ h => h.elim)
    · intro _ s5 h5
      refine sat_mono (std_fill_n_size p _ x _) ?_ ?_ (fun _ h => h.elim)
      · intro _ s6 h6
        rw [h6]; simp only [set_size, h5]; omega
      · intro s6 h6
        rw [h6]; simp only [set_size, h5]; omega
    · intro s5 h5
      rw [h5]; simp only [set_size]; omega

theorem insert_in_the_middle_bound (T : Traits) (p : Nat) (kind : IteratorKind)
    (items : List Value) (count : Nat) (s : static_vector Value Capacity)
    (hs : s.m_size + count ≤ Capacity) :
    (insert_in_the_middle T p kind items count s).sat (fun _ s2 => s2.m_size ≤ Capacity)
      (fun s2 => s2.m_size ≤ Capacity) (fun _ => True) := by
  unfold insert_in_the_middle
  simp only
  split_ifs with h1
  · apply sat_bind
    refine sat_mono (uninitialized_copy_size T _ _ _ s) ?_
      (fun _ h => by rw [h]; omega) (fun _ h => h.elim)
    intro _ s3 h4
    apply sat_bind
    refine sat_mono (move_backward_size T _ _ _ _) ?_ ?_ (fun _ h => h.elim)
    · intro _ s5 h5
      refine sat_mono (copy_size T _ _ _ s5) ?_ ?_ (fun _ h => h.elim)
      · intro _ s6 h6
        rw [h6, h5]; simp only [set_size]; omega
      · intro s6 h6
        rw [h6, h5]; simp only [set_size]; omega
    · intro s5 h5
      rw [h5]; simp only [set_size]; omega
  · apply sat_bind
    refine sat_mono (uninitialized_copy_size T _ _ _ s) ?_
      (fun _ h => by rw [h]; omega) (fun _ h => h.elim)
    intro _ s3 h4
    apply sat_bind
    refine sat_mono (uninitialized_copy_size T _ _ _ _) ?_ ?_ (fun _ h => h.elim)
    · intro _ s5 h5
      refine sat_mono (copy_size T _ _ _ _) ?_ ?_ (fun _ h => h.elim)
      · intro _ s6 h6
        rw [h6]; simp only [set_size, h5]; omega
      · intro s6 h6
        rw [h6]; simp only [set_size, h5]; omega
    · intro s5 h5
      rw [h5]; simp only [set_size]; omega

theorem insert_range_bound (T : Traits) (p : Nat) (kind : IteratorKind)
    (items : List Value) (s : static_vector Value Capacity) (hs : s.m_size ≤ Capacity) :
    (insert_range T p kind items s).sat (fun _ s2 => s2.m_size ≤ Capacity)
      (fun s2 => s2.m_size ≤ Capacity) (fun _ => True) := by
  unfold insert_range
  by_cases h1 : p ≤ s.m_size
  swap
  · split
    · simp only [insert_dispatch_random_access, check_iterator_end_eq, h1, if_false,
        Outcome.bind]
      trivial
    · simp only [insert_dispatch_not_random_access, check_iterator_end_eq, h1, if_false,
        Outcome.bind]
      trivial
  split
  · unfold insert_dispatch_random_access
    by_cases h2 : s.m_size + items.length ≤ Capacity
    swap
    · simp only [check_iterator_end_eq, check_capacity, h1, h2, if_true, if_false,
        Outcome.bind]
      trivial
    simp only [check_iterator_end_eq, check_capacity, h1, h2, if_true, Outcome.bind]
    split_ifs with h3
    · apply sat_bind
      exact sat_mono (uninitialized_copy_size T _ _ _ s)
        (fun _ s2 h => by simp only [Outcome.sat, set_size]; omega)
        (fun _ h => by rw [h]; exact hs) (fun _ h => h.elim)
    · exact insert_in_the_middle_bound T p kind items _ s h2
  · unfold insert_dispatch_not_random_access
    simp only [check_iterator_end_eq, h1, if_true, Outcome.bind]
    split_ifs with h3
    · apply sat_bind
      refine sat_mono (uninitialized_copy_checked_loop_size T p (Capacity - p) items 0 s) ?_
        (fun _ h => by rw [h]; exact hs) (fun _ h => h.elim)
      intro r s2 h4
      unfold check_capacity
      by_cases h5 : r.1 = true
      · simp only [h5, if_true]
        split_ifs with h6
        · simp only [Outcome.bind, Outcome.sat, set_size]; omega
        · trivial
      · simp only [h5, Bool.false_eq_true, if_false]
        rw [if_neg (by omega)]
        trivial
    · unfold check_capacity
      split_ifs with h4
      · exact insert_in_the_middle_bound T p kind items _ s h4
      · trivial

theorem erase_bound (T : Traits) (p : Nat) (s : static_vector Value Capacity)
    (hs : s.m_size ≤ Capacity) :
    (erase T p s).sat (fun _ s2 => s2.m_size ≤ Capacity)
      (fun s2 => s2.m_size ≤ Capacity) (fun _ => True) := by
  unfold erase check_iterator_end_neq
  split_ifs with h1
  · simp only [Outcome.bind]
    apply sat_bind
    refine sat_mono (move_size T _ _ _ s) ?_ (fun _ h => by rw [h]; exact hs)
      (fun _ h => h.elim)
    intro _ s2 h2
    simp only [Outcome.sat, set_size, destroy_at_size, h2]
    omega
  · trivial

theorem erase_range_bound (T : Traits) (a b : Nat) (s : static_vector Value Capacity)
    (hs : s.m_size ≤ Capacity) :
    (erase_range T a b s).sat (fun _ s2 => s2.m_size ≤ Capacity)
      (fun s2 => s2.m_size ≤ Capacity) (fun _ => True) := by
  unfold erase_range
  by_cases h1 : a < s.m_size
  swap
  · simp only [check_iterator_end_neq, h1, if_false, Outcome.bind]; trivial
  by_cases h2 : b < s.m_size
  swap
  · simp only [check_iterator_end_neq, h1, h2, if_true, if_false, Outcome.bind]; trivial
  simp only [check_iterator_end_neq, h1, h2, if_true, Outcome.bind]
  split_ifs with h3
  · apply sat_bind
    refine sat_mono (move_size T _ _ _ s) ?_ (fun _ h => by rw [h]; exact hs)
      (fun _ h => h.elim)
    intro _ s2 h4
    simp only [Outcome.sat, set_size, destroy_size, h4]
    omega
  · trivial

theorem assign_bound (T : Traits) (kind : IteratorKind) (items : List Value)
    (s : static_vector Value Capacity) (hs : s.m_size ≤ Capacity) :
    (assign T kind items s).sat (fun _ s2 => s2.m_size ≤ Capacity)
      (fun s2 => s2.m_size ≤ Capacity) (fun _ => True) := by
  unfold assign
  split
  · unfold assign_dispatch_random_access
    by_cases h1 : items.length ≤ Capacity
    swap
    · simp only [check_capacity, h1, if_false, Outcome.bind]; trivial
    simp only [check_capacity, h1, if_true, Outcome.bind]
    split_ifs with h2
    · apply sat_bind
      refine sat_mono (copy_size T _ _ _ s) ?_ (fun _ h => by rw [h]; exact hs)
        (fun _ h => h.elim)
      intro _ s2 h3
      apply sat_bind
      exact sat_mono (uninitialized_copy_size T _ _ _ s2) (fun _ _ _ => h1)
        (fun _ h => by rw [h, h3]; exact hs) (fun _ h => h.elim)
    · apply sat_bind
      exact sat_mono (copy_size T _ _ _ s) (fun _ _ _ => h1) (fun _ h => by rw [h]; exact hs)
        (fun _ h => h.elim)
  · unfold assign_dispatch_not_random_access
    apply sat_bind
    refine sat_mono (assign_dispatch_loop_size items 0 s) ?_ (fun _ h => by rw [h]; exact hs)
      (fun _ h => h.elim)
    intro r s1 h1
    simp only
    apply sat_bind
    refine sat_mono (uninitialized_copy_checked_loop_size T r.1 (Capacity - r.1) r.2 0 _) ?_
      (fun _ h => by rw [h, destroy_size, h1]; exact hs) (fun _ h => h.elim)
    intro c s3 h2
    unfold check_capacity
    by_cases h5 : c.1 = true
    · simp only [h5, if_true]
      split_ifs with h6
      · exact h6
      · trivial
    · simp only [h5, Bool.false_eq_true, if_false]
      rw [if_neg (by omega)]
      trivial

theorem assign_n_bound (T : Traits) (count : Nat) (x : ValueRef Value)
    (s : static_vector Value Capacity) (hs : s.m_size ≤ Capacity) :
    (assign_n T count x s).sat (fun _ s2 => s2.m_size ≤ Capacity)
      (fun s2 => s2.m_size ≤ Capacity) (fun _ => True) := by
  unfold assign_n
  split_ifs with h1
  · apply sat_bind
    exact sat_mono (std_fill_n_size 0 count x s)
      (fun _ _ _ => Nat.le_trans (Nat.le_of_lt h1) hs)
      (fun _ h => by rw [h]; exact hs) (fun _ h => h.elim)
  · by_cases h2 : count ≤ Capacity
    swap
    · simp only [check_capacity, h2, if_false, Outcome.bind]; trivial
    simp only [check_capacity, h2, if_true, Outcome.bind]
    apply sat_bind
    refine sat_mono (std_fill_n_size 0 s.m_size x s) ?_ (fun _ h => by rw [h]; exact hs)
      (fun _ h => h.elim)
    intro _ s2 h3
    apply sat_bind
    exact sat_mono (std_uninitialized_fill_size T _ _ x s2) (fun _ _ _ => h2)
      (fun _ h => by rw [h, h3]; exact hs) (fun _ h => h.elim)

theorem call_bound [Inhabited Value] (T : Traits) (c : Call Value)
    (s : static_vector Value Capacity) (hs : s.m_size ≤ Capacity) :
    (call T c s).sat (fun _ s2 => s2.m_size ≤ Capacity)
      (fun s2 => s2.m_size ≤ Capacity) (fun _ => True) := by
  cases c with
  | resize count => exact resize_bound T count s hs
  | resize_value count value => exact resize_value_bound T count value s hs
  | reserve count =>
    simp only [call, reserve, check_capacity]
    split_ifs
    · exact hs
    · trivial
  | push_back value => exact push_back_bound T value s hs
  | pop_back => exact pop_back_bound T s hs
  | insert position value => exact insert_bound T position value s hs
  | insert_n position count value => exact insert_n_bound T position count value s hs
  | insert_range position kind items => exact insert_range_bound T position kind items s hs
  | erase position => exact erase_bound T position s hs
  | erase_range first last => exact erase_range_bound T first last s hs
  | assign kind items => exact assign_bound T kind items s hs
  | assign_n count value => exact assign_n_bound T count value s hs
  | clear => exact Nat.zero_le _

/-- C1: capacity invariant. Every container that exists after a sequence of
constructor calls (default, count, count and value, copy, converting copy,
range) and public member calls (`resize`, `resize` with a value, `reserve`,
`push_back`, `pop_back`, the three forms of `insert`, both of `erase`, both of
`assign`, `clear`) that each returned normally has `size() <= Capacity`. -/
theorem C1_capacity_invariant [Inhabited Value] (T : Traits) (Capacity : Nat)
    (s : static_vector Value Capacity) (h : Reachable T Capacity s) :
    0 ≤ s.size ∧ s.size ≤ Capacity := by
  refine ⟨Nat.zero_le _, ?_⟩
  unfold size
  induction h with
  | default_ctor fuel log => exact Nat.zero_le _
  | ctor_count count fuel log s h =>
    exact sat_returned (resize_bound T count (default_ctor fuel log) (Nat.zero_le _)) h
  | ctor_count_value count value fuel log s h =>
    exact sat_returned (resize_value_bound T count (ValueRef.value value)
      (default_ctor fuel log) (Nat.zero_le _)) h
  | ctor_copy other fuel log s _ h ih =>
    have h2 := sat_returned (uninitialized_copy_size T (Range.storage other.m_storage 0)
      other.m_size 0 (set_size other.m_size (default_ctor fuel log))) h
    rw [h2]
    exact ih
  | ctor_convert other fuel log s _ h _ =>
    unfold ctor_convert check_capacity at h
    simp only at h
    split_ifs at h with h1
    · have h2 := sat_returned (uninitialized_copy_size T (Range.storage other.m_storage 0)
        other.m_size 0 (set_size other.m_size (default_ctor fuel log))) h
      rw [h2]
      exact h1
    · simp [Outcome.bind] at h
  | ctor_range kind items fuel log s h =>
    exact sat_returned (assign_bound T kind items (default_ctor fuel log) (Nat.zero_le _)) h
  | member c s0 s _ h ih => exact sat_returned (call_bound T c s0 ih) h
  | element_behaviour fuel s _ ih => exact ih

/-- C1 at a concrete sequence of calls on a container of capacity 4:
`static_vector(2, 7)`, `push_back(1)`, `insert(begin() + 1, 8)`, `pop_back()`,
`erase(begin())`. -/
theorem C1_capacity_invariant_witness :
    ∃ s : static_vector Nat 4, s.elements = [some 8, some 7] ∧ 0 ≤ s.size ∧ s.size ≤ 4 :=
  ⟨((((((ctor_count_value Traits.element_wise 2 7 none [] :
      Outcome Unit (static_vector Nat 4)).bind
      fun _ s => call Traits.element_wise (Call.push_back (ValueRef.value 1)) s).bind
      fun _ s => call Traits.element_wise (Call.insert 1 (ValueRef.value 8)) s).bind
      fun _ s => call Traits.element_wise Call.pop_back s).bind
      fun _ s => call Traits.element_wise (Call.erase 0) s).state),
   rfl,
   C1_capacity_invariant Traits.element_wise 4 _
    (Reachable.member (Call.erase 0) _ _
      (Reachable.member Call.pop_back _ _
        (Reachable.member (Call.insert 1 (ValueRef.value 8)) _ _
          (Reachable.member (Call.push_back (ValueRef.value 1)) _ _
            (Reachable.ctor_count_value 2 7 none [] _ rfl) rfl) rfl) rfl) rfl)⟩

/-! ### The basic guarantee (C9) -/

theorem shape_write_live {C N : Nat} {m : Nat → Option Value} {i : Nat} {v : Option Value}
    (h : shape C N m) (hi : i < N) (hv : v.isSome = true) : shape C N (write m i v) := by
  refine ⟨fun k hk => ?_, fun k hk hc => ?_⟩
  · simp only [write]
    split
    · exact hv
    · exact h.1 k hk
  · simp only [write]
    rw [if_neg (by omega)]
    exact h.2 k hk hc

theorem shape_blit_live {C N : Nat} {m g : Nat → Option Value} {dst n : Nat}
    (h : shape C N m) (hd : dst + n ≤ N) (hg : ∀ j, j < n → (g j).isSome = true) :
    shape C N (blit g dst n m) := by
  refine ⟨fun k hk => ?_, fun k hk hc => ?_⟩
  · simp only [blit]
    split
    · exact hg _ (by omega)
    · exact h.1 k hk
  · simp only [blit]
    rw [if_neg (by omega)]
    exact h.2 k hk hc

theorem shape_write_next {C N : Nat} {m : Nat → Option Value} {v : Option Value}
    (h : shape C N m) (hv : v.isSome = true) : shape C (N + 1) (write m N v) := by
  refine ⟨fun k hk => ?_, fun k hk hc => ?_⟩
  · simp only [write]
    split
    · exact hv
    · exact h.1 k (by omega)
  · simp only [write]
    rw [if_neg (by omega)]
    exact h.2 k (by omega) hc

theorem shape_blit_next {C N : Nat} {m g : Nat → Option Value} {n : Nat}
    (h : shape C N m) (hg : ∀ j, j < n → (g j).isSome = true) :
    shape C (N + n) (blit g N n m) := by
  refine ⟨fun k hk => ?_, fun k hk hc => ?_⟩
  · simp only [blit]
    split
    · exact hg _ (by omega)
    · exact h.1 k (by omega)
  · simp only [blit]
    rw [if_neg (by omega)]
    exact h.2 k (by omega) hc

theorem shape_wipe {C N M : Nat} {m : Nat → Option Value} (h : shape C M m) (hle : N ≤ M) :
    shape C N (wipe N M m) := by
  refine ⟨fun k hk => ?_, fun k hk hc => ?_⟩
  · simp only [wipe]
    rw [if_neg (by omega)]
    exact h.1 k (by omega)
  · simp only [wipe]
    split
    · rfl
    · exact h.2 k (by omega) hc

theorem assign_ascending_shape (rd : Nat → (Nat → Option Value) → Option Value)
    (C N dst n : Nat) (s : static_vector Value Capacity) (h : shape C N s.m_storage)
    (hd : dst + n ≤ N)
    (hrd : ∀ j m, j < n → (∀ i, i < N → (m i).isSome = true) → (rd j m).isSome = true) :
    (assign_ascending rd dst n 0 s).sat
      (fun _ s2 => shape C N s2.m_storage ∧ s2.m_size = s.m_size)
      (fun s2 => shape C N s2.m_storage ∧ s2.m_size = s.m_size) (fun _ => False) := by
  refine sat_mono (assign_ascending_sat rd dst (fun _ m => shape C N m) n 0 s h ?_)
    (fun _ _ h => ⟨h.1, h.2.1⟩) ?_ (fun _ h => h)
  · intro j m _ h2 h3
    exact shape_write_live h3 (by omega) (hrd j m (by omega) h3.1)
  · rintro s2 ⟨⟨j, _, _, h3⟩, h4, _⟩
    exact ⟨h3, h4⟩

theorem assign_descending_shape (rd : Nat → (Nat → Option Value) → Option Value)
    (C N dst n : Nat) (s : static_vector Value Capacity) (h : shape C N s.m_storage)
    (hd : dst + n ≤ N)
    (hrd : ∀ j m, j < n → (∀ i, i < N → (m i).isSome = true) → (rd j m).isSome = true) :
    (assign_descending rd dst n s).sat
      (fun _ s2 => shape C N s2.m_storage ∧ s2.m_size = s.m_size)
      (fun s2 => shape C N s2.m_storage ∧ s2.m_size = s.m_size) (fun _ => False) := by
  refine sat_mono (assign_descending_sat rd dst (fun _ m => shape C N m) n s h ?_)
    (fun _ _ h => ⟨h.1, h.2.1⟩) ?_ (fun _ h => h)
  · intro j m h2 h3
    exact shape_write_live h3 (by omega) (hrd j m (by omega) h3.1)
  · rintro s2 ⟨⟨j, _, _, h3⟩, h4, _⟩
    exact ⟨h3, h4⟩

theorem construct_ascending_shape (T : Traits) (hT : T.has_trivial_destructor = false)
    (rd : Nat → (Nat → Option Value) → Option Value)
    (C N n : Nat) (s : static_vector Value Capacity) (h : shape C N s.m_storage)
    (hrd : ∀ j m, j < n → (∀ i, i < N → (m i).isSome = true) → (rd j m).isSome = true) :
    (construct_ascending T rd N n 0 s).sat
      (fun _ s2 => shape C (N + n) s2.m_storage ∧ s2.m_size = s.m_size)
      (fun s2 => shape C N s2.m_storage ∧ s2.m_size = s.m_size) (fun _ => False) := by
  refine sat_mono (construct_ascending_sat T rd N (fun j m => shape C (N + j) m) n 0 s h ?_)
    ?_ ?_ (fun _ h => h)
  · intro j m _ h2 h3
    exact shape_write_next h3 (hrd j m (by omega) (fun i hi => h3.1 i (by omega)))
  · rintro _ s2 ⟨h1, h2, _⟩
    exact ⟨by simpa using h1, h2⟩
  · rintro s2 ⟨⟨j, m, _, _, h3, h6⟩, h4, _⟩
    refine ⟨?_, h4⟩
    rw [h6, hT]
    simp only [Bool.false_eq_true, if_false]
    exact shape_wipe h3 (by omega)

theorem range_read_live (src : Range Value) (N n : Nat)
    (hsrc : match src with
      | .self first => first + n ≤ N
      | .storage o first => ∀ j, j < n → (o (first + j)).isSome = true
      | .input _ items => n ≤ items.length) :
    ∀ j m, j < n → (∀ i, i < N → (m i).isSome = true) → (src.read j m).isSome = true := by
  intro j m hj hm
  cases src with
  | self first => exact hm _ (by simp only at hsrc; omega)
  | storage o first => exact hsrc j hj
  | input kind items =>
    simp only at hsrc
    simp only [Range.read]
    rw [List.getElem?_eq_getElem (by omega)]
    rfl

theorem copy_shape (T : Traits) (src : Range Value) (C N n dst : Nat)
    (s : static_vector Value Capacity) (h : shape C N s.m_storage) (hd : dst + n ≤ N)
    (hrd : ∀ j m, j < n → (∀ i, i < N → (m i).isSome = true) →
      (src.read j m).isSome = true) :
    (copy T src n dst s).sat
      (fun _ s2 => shape C N s2.m_storage ∧ s2.m_size = s.m_size)
      (fun s2 => shape C N s2.m_storage ∧ s2.m_size = s.m_size) (fun _ => False) := by
  unfold copy
  split
  · exact ⟨shape_blit_live h hd (fun j hj => hrd j _ hj h.1), rfl⟩
  · exact assign_ascending_shape _ C N dst n s h hd hrd

theorem std_fill_n_shape (C N dst n : Nat) (x : ValueRef Value)
    (s : static_vector Value Capacity) (h : shape C N s.m_storage) (hd : dst + n ≤ N)
    (hx : ∀ m, (∀ i, i < N → (m i).isSome = true) → (x.read m).isSome = true) :
    (std_fill_n dst n x s).sat
      (fun _ s2 => shape C N s2.m_storage ∧ s2.m_size = s.m_size)
      (fun s2 => shape C N s2.m_storage ∧ s2.m_size = s.m_size) (fun _ => False) :=
  assign_ascending_shape _ C N dst n s h hd (fun _ m _ hm => hx m hm)

theorem fill_shape (T : Traits) (C N dst : Nat) (x : ValueRef Value)
    (s : static_vector Value Capacity) (h : shape C N s.m_storage) (hd : dst < N)
    (hx : ∀ m, (∀ i, i < N → (m i).isSome = true) → (x.read m).isSome = true) :
    (fill T dst x s).sat
      (fun _ s2 => shape C N s2.m_storage ∧ s2.m_size = s.m_size)
      (fun s2 => shape C N s2.m_storage ∧ s2.m_size = s.m_size) (fun _ => False) := by
  refine sat_mono (fill_sat T dst x s) ?_ ?_ (fun _ h => h)
  · rintro _ s2 ⟨h1, h2, _⟩
    rw [h1]
    exact ⟨shape_write_live h hd (hx _ h.1), h2⟩
  · rintro s2 ⟨h1, _⟩
    rw [h1]
    exact ⟨h, rfl⟩

theorem move_backward_shape (T : Traits) (C N first last dst : Nat)
    (s : static_vector Value Capacity) (h : shape C N s.m_storage) (hl : last ≤ N)
    (hd : dst ≤ N) :
    (move_backward T first last dst s).sat
      (fun _ s2 => shape C N s2.m_storage ∧ s2.m_size = s.m_size)
      (fun s2 => shape C N s2.m_storage ∧ s2.m_size = s.m_size) (fun _ => False) := by
  unfold move_backward
  split
  · exact ⟨shape_blit_live h (by omega) (fun j hj => h.1 _ (by omega)), rfl⟩
  · exact assign_descending_shape _ C N _ _ s h (by omega)
      (fun j m hj hm => hm _ (by omega))

theorem uninitialized_copy_shape (T : Traits) (hT : T.has_trivial_destructor = false)
    (src : Range Value) (C N n : Nat) (s : static_vector Value Capacity)
    (h : shape C N s.m_storage)
    (hrd : ∀ j m, j < n → (∀ i, i < N → (m i).isSome = true) →
      (src.read j m).isSome = true) :
    (uninitialized_copy T src n N s).sat
      (fun _ s2 => shape C (N + n) s2.m_storage ∧ s2.m_size = s.m_size)
      (fun s2 => shape C N s2.m_storage ∧ s2.m_size = s.m_size) (fun _ => False) := by
  unfold uninitialized_copy
  split
  · exact ⟨shape_blit_next h (fun j hj => hrd j _ hj h.1), rfl⟩
  · exact construct_ascending_shape T hT _ C N n s h hrd

theorem std_uninitialized_fill_shape (T : Traits) (hT : T.has_trivial_destructor = false)
    (C N last : Nat) (x : ValueRef Value) (s : static_vector Value Capacity)
    (h : shape C N s.m_storage)
    (hx : ∀ m, (∀ i, i < N → (m i).isSome = true) → (x.read m).isSome = true) :
    (std_uninitialized_fill T N last x s).sat
      (fun _ s2 => shape C (N + (last - N)) s2.m_storage ∧ s2.m_size = s.m_size)
      (fun s2 => shape C N s2.m_storage ∧ s2.m_size = s.m_size) (fun _ => False) :=
  construct_ascending_shape T hT _ C N (last - N) s h (fun _ m _ hm => hx m hm)

theorem uninitialized_fill_shape (T : Traits) (C N : Nat) (x : ValueRef Value)
    (s : static_vector Value Capacity) (h : shape C N s.m_storage)
    (hx : ∀ m, (∀ i, i < N → (m i).isSome = true) → (x.read m).isSome = true) :
    (uninitialized_fill T N x s).sat
      (fun _ s2 => shape C (N + 1) s2.m_storage ∧ s2.m_size = s.m_size)
      (fun s2 => s2 = s) (fun _ => False) := by
  refine sat_mono (uninitialized_fill_sat T N x s) ?_ (fun _ h => h.1) (fun _ h => h)
  rintro _ s2 ⟨h1, h2, _⟩
  rw [h1]
  exact ⟨shape_write_next h (hx _ h.1), h2⟩

theorem uninitialized_copy_checked_loop_shape (T : Traits)
    (hT : T.has_trivial_destructor = false) (C dest max_count : Nat) :
    ∀ (items : List Value) (count : Nat) (s : static_vector Value Capacity),
      shape C (dest + count) s.m_storage →
      (uninitialized_copy_checked_loop T dest max_count items count s).sat
        (fun r s2 => shape C (dest + r.2) s2.m_storage ∧ s2.m_size = s.m_size)
        (fun s2 => shape C dest s2.m_storage ∧ s2.m_size = s.m_size ∧ items ≠ [])
        (fun _ => False) := by
  intro items
  induction items with
  | nil => intro count s h; exact ⟨h, rfl⟩
  | cons v rest ih =>
    intro count s h
    unfold uninitialized_copy_checked_loop
    split_ifs
    · exact ⟨h, rfl⟩
    · have h1 := uninitialized_fill_shape T C (dest + count) (ValueRef.value v) s h
        (fun _ _ => rfl)
      cases ho : uninitialized_fill T (dest + count) (ValueRef.value v) s with
      | returned a s1 =>
        obtain ⟨h2, h3⟩ := sat_returned h1 ho
        refine sat_mono (ih (count + 1) s1 h2) (fun _ _ h => ⟨h.1, by rw [h.2, h3]⟩)
          (fun _ h => ⟨h.1, by rw [h.2.1, h3], by simp⟩) (fun _ h => h)
      | threw e s1 =>
        have h2 : s1 = s := sat_threw h1 ho
        subst h2
        refine ⟨?_, destroy_size _ _ _ _, by simp⟩
        rw [destroy_storage, hT]
        simp only [Bool.false_eq_true, if_false]
        exact shape_wipe h (by omega)
      | assertion_failed a s1 =>
        rw [ho] at h1
        exact h1

theorem assign_dispatch_loop_shape (C N : Nat) :
    ∀ (items : List Value) (it : Nat) (s : static_vector Value Capacity),
      shape C N s.m_storage → s.m_size = N → it ≤ N →
      (assign_dispatch_loop items it s).sat
        (fun r s2 => shape C N s2.m_storage ∧ s2.m_size = N ∧ r.1 ≤ N ∧
          (r.2 = [] ∨ r.1 = N))
        (fun s2 => shape C N s2.m_storage ∧ s2.m_size = N) (fun _ => False) := by
  intro items
  induction items with
  | nil => intro it s h hs hit; exact ⟨h, hs, hit, Or.inl rfl⟩
  | cons v rest ih =>
    intro it s h hs hit
    unfold assign_dispatch_loop
    split_ifs with h0
    · exact ⟨h, hs, hit, Or.inr (by rw [h0, hs])⟩
    · have h1 := assign_element_sat it (some v) s
      cases ho : assign_element it (some v) s with
      | returned a s1 =>
        obtain ⟨h2, h3, _⟩ := sat_returned h1 ho
        have h4 : shape C N s1.m_storage := by
          rw [h2]
          exact shape_write_live h (by omega) rfl
        exact ih (it + 1) s1 h4 (by rw [h3, hs]) (by omega)
      | threw e s1 =>
        have h2 : s1 = s := (sat_threw h1 ho).1
        subst h2
        exact ⟨h, hs⟩
      | assertion_failed a s1 =>
        rw [ho] at h1
        exact h1

theorem valid_of {s2 : static_vector Value Capacity} {n : Nat}
    (h1 : shape Capacity n s2.m_storage) (h2 : s2.m_size = n) (h3 : n ≤ Capacity) :
    valid s2 := by
  unfold valid
  rw [h2]
  exact ⟨h3, h1⟩

theorem ref_live (x : ValueRef Value) (s : static_vector Value Capacity)
    (hx : ref_valid x s) (N : Nat) (hN : s.m_size ≤ N) :
    ∀ m : Nat → Option Value, (∀ i, i < N → (m i).isSome = true) →
      (x.read m).isSome = true := by
  intro m hm
  cases x with
  | value v => rfl
  | element j => exact hm j (Nat.lt_of_lt_of_le hx hN)

theorem insert_valid (T : Traits) (p : Nat)
    (x : ValueRef Value) (s : static_vector Value Capacity) (hv : valid s)
    (hx : ref_valid x s) :
    (insert T p x s).sat (fun _ s2 => valid s2) (fun s2 => valid s2) (fun _ => True) := by
  unfold insert
  by_cases h1 : p ≤ s.m_size
  swap
  · simp only [check_iterator_end_eq, h1, if_false, Outcome.bind]; trivial
  by_cases h2 : s.m_size + 1 ≤ Capacity
  swap
  · simp only [check_iterator_end_eq, check_capacity, h1, h2, if_true, if_false, Outcome.bind]
    trivial
  simp only [check_iterator_end_eq, check_capacity, h1, h2, if_true, Outcome.bind]
  split_ifs with h3
  · subst h3
    apply sat_bind
    refine sat_mono (uninitialized_fill_shape T Capacity s.m_size x s hv.2
      (ref_live x s hx _ (le_refl _))) ?_ ?_ (fun _ h => h.elim)
    · rintro _ s3 ⟨h4, h5⟩
      exact valid_of (n := s.m_size + 1) h4 (by simp [set_size, h5]) h2
    · intro s3 h4
      rw [h4]; exact hv
  · apply sat_bind
    refine sat_mono (uninitialized_fill_shape T Capacity s.m_size
      (ValueRef.element (s.m_size - 1)) s hv.2 (fun m hm => hm _ (by omega))) ?_ ?_
      (fun _ h => h.elim)
    · rintro _ s3 ⟨h4, h5⟩
      apply sat_bind
      refine sat_mono (move_backward_shape T Capacity (s.m_size + 1) p _ _
        (set_size (s3.m_size + 1) s3) h4 (by simp only [set_size]; omega)
        (by simp only [set_size]; omega)) ?_ ?_ (fun _ h => h.elim)
      · rintro _ s5 ⟨h6, h7⟩
        have h8 : s5.m_size = s.m_size + 1 := by rw [h7]; simp [set_size, h5]
        refine sat_mono (fill_shape T Capacity (s.m_size + 1) p x s5 h6 (by omega)
          (ref_live x s hx _ (by omega))) ?_ ?_ (fun _ h => h.elim)
        · rintro _ s6 ⟨h9, h10⟩
          exact valid_of h9 (by rw [h10, h8]) h2
        · rintro s6 ⟨h9, h10⟩
          exact valid_of h9 (by rw [h10, h8]) h2
      · rintro s5 ⟨h6, h7⟩
        exact valid_of h6 (by rw [h7]; simp [set_size, h5]) h2
    · intro s3 h4
      rw [h4]; exact hv

theorem insert_n_valid (T : Traits) (hT : T.has_trivial_destructor = false) (p k : Nat)
    (x : ValueRef Value) (s : static_vector Value Capacity) (hv : valid s)
    (hx : ref_valid x s) :
    (insert_n T p k x s).sat (fun _ s2 => valid s2) (fun s2 => valid s2) (fun _ => True) := by
  unfold insert_n
  by_cases h1 : p ≤ s.m_size
  swap
  · simp only [check_iterator_end_eq, h1, if_false, Outcome.bind]; trivial
  by_cases h2 : s.m_size + k ≤ Capacity
  swap
  · simp only [check_iterator_end_eq, check_capacity, h1, h2, if_true, if_false, Outcome.bind]
    trivial
  simp only [check_iterator_end_eq, check_capacity, h1, h2, if_true, Outcome.bind]
  split_ifs with h3 h4
  · subst h3
    apply sat_bind
    refine sat_mono (std_uninitialized_fill_shape T hT Capacity s.m_size (s.m_size + k) x s
      hv.2 (ref_live x s hx _ (le_refl _))) ?_ ?_ (fun _ h => h.elim)
    · rintro _ s3 ⟨h5, h6⟩
      exact valid_of (n := s.m_size + k) (by simpa using h5) (by simp [set_size, h6]) h2
    · rintro s3 ⟨h5, h6⟩
      exact valid_of h5 h6 hv.1
  · apply sat_bind
    refine sat_mono (uninitialized_copy_shape T hT (Range.self (s.m_size - k)) Capacity
      s.m_size k s hv.2 (fun j m hj hm => hm _ (by omega))) ?_ ?_ (fun _ h => h.elim)
    · rintro _ s3 ⟨h5, h6⟩
      apply sat_bind
      refine sat_mono (move_backward_shape T Capacity (s.m_size + k) p _ _
        (set_size (s3.m_size + k) s3) h5 (by omega)
        (by simp only [set_size]; omega)) ?_ ?_ (fun _ h => h.elim)
      · rintro _ s5 ⟨h7, h8⟩
        have h9 : s5.m_size = s.m_size + k := by rw [h8]; simp [set_size, h6]
        refine sat_mono (std_fill_n_shape Capacity (s.m_size + k) p k x s5 h7 (by omega)
          (ref_live x s hx _ (by omega))) ?_ ?_ (fun _ h => h.elim)
        · rintro _ s6 ⟨h10, h11⟩
          exact valid_of h10 (by rw [h11, h9]) h2
        · rintro s6 ⟨h10, h11⟩
          exact valid_of h10 (by rw [h11, h9]) h2
      · rintro s5 ⟨h7, h8⟩
        exact valid_of h7 (by rw [h8]; simp [set_size, h6]) h2
    · rintro s3 ⟨h5, h6⟩
      exact valid_of h5 h6 hv.1
  · have e1 : s.m_size + (p + k - s.m_size) = p + k := by omega
    apply sat_bind
    refine sat_mono (std_uninitialized_fill_shape T hT Capacity s.m_size (p + k) x s
      hv.2 (ref_live x s hx _ (le_refl _))) ?_ ?_ (fun _ h => h.elim)
    · rintro _ s3 ⟨h5, h6⟩
      rw [e1] at h5
      apply sat_bind
      refine sat_mono (uninitialized_copy_shape T hT (Range.self p) Capacity (p + k)
        (s.m_size - p) (set_size (s3.m_size + (k - (s.m_size - p))) s3) h5
        (fun j m hj hm => hm _ (by omega))) ?_ ?_ (fun _ h => h.elim)
      · rintro _ s5 ⟨h7, h8⟩
        have e2 : p + k + (s.m_size - p) = s.m_size + k := by omega
        rw [e2] at h7
        refine sat_mono (std_fill_n_shape Capacity (s.m_size + k) p (s.m_size - p) x
          (set_size (s5.m_size + (s.m_size - p)) s5) h7 (by omega)
          (ref_live x s hx _ (by omega))) ?_ ?_ (fun _ h => h.elim)
        · rintro _ s6 ⟨h10, h11⟩
          exact valid_of h10 (by rw [h11]; simp only [set_size, h8, h6]; omega) h2
        · rintro s6 ⟨h10, h11⟩
          exact valid_of h10 (by rw [h11]; simp only [set_size, h8, h6]; omega) h2
      · rintro s5 ⟨h7, h8⟩
        exact valid_of h7 (by rw [h8]; simp only [set_size, h6]; omega) (by omega)
    · rintro s3 ⟨h5, h6⟩
      exact valid_of h5 h6 hv.1

theorem insert_in_the_middle_valid (T : Traits) (hT : T.has_trivial_destructor = false)
    (p : Nat) (kind : IteratorKind) (items : List Value)
    (s : static_vector Value Capacity) (hv : valid s) (h1 : p ≤ s.m_size)
    (h2 : s.m_size + items.length ≤ Capacity) :
    (insert_in_the_middle T p kind items items.length s).sat (fun _ s2 => valid s2)
      (fun s2 => valid s2) (fun _ => True) := by
  unfold insert_in_the_middle
  simp only
  split_ifs with h4
  · apply sat_bind
    refine sat_mono (uninitialized_copy_shape T hT (Range.self (s.m_size - items.length))
      Capacity s.m_size items.length s hv.2 (fun j m hj hm => hm _ (by omega))) ?_ ?_
      (fun _ h => h.elim)
    · rintro _ s3 ⟨h5, h6⟩
      apply sat_bind
      refine sat_mono (move_backward_shape T Capacity (s.m_size + items.length) p _ _
        (set_size (s3.m_size + items.length) s3) h5 (by omega)
        (by simp only [set_size]; omega)) ?_ ?_ (fun _ h => h.elim)
      · rintro _ s5 ⟨h7, h8⟩
        have h9 : s5.m_size = s.m_size + items.length := by rw [h8]; simp [set_size, h6]
        refine sat_mono (copy_shape T (Range.input kind items) Capacity
          (s.m_size + items.length) items.length p s5 h7 (by omega)
          (range_read_live _ _ _ (le_refl _))) ?_ ?_ (fun _ h => h.elim)
        · rintro _ s6 ⟨h10, h11⟩
          exact valid_of h10 (by rw [h11, h9]) h2
        · rintro s6 ⟨h10, h11⟩
          exact valid_of h10 (by rw [h11, h9]) h2
      · rintro s5 ⟨h7, h8⟩
        exact valid_of h7 (by rw [h8]; simp [set_size, h6]) h2
    · rintro s3 ⟨h5, h6⟩
      exact valid_of h5 h6 hv.1
  · have e1 : s.m_size + (items.length - (s.m_size - p)) = p + items.length := by omega
    apply sat_bind
    refine sat_mono (uninitialized_copy_shape T hT
      (Range.input kind (items.drop (s.m_size - p))) Capacity s.m_size
      (items.length - (s.m_size - p)) s hv.2
      (range_read_live _ _ _ (by simp))) ?_ ?_ (fun _ h => h.elim)
    · rintro _ s3 ⟨h5, h6⟩
      rw [e1] at h5
      apply sat_bind
      refine sat_mono (uninitialized_copy_shape T hT (Range.self p) Capacity
        (p + items.length) (s.m_size - p)
        (set_size (s3.m_size + (items.length - (s.m_size - p))) s3) h5
        (fun j m hj hm => hm _ (by omega))) ?_ ?_ (fun _ h => h.elim)
      · rintro _ s5 ⟨h7, h8⟩
        have e2 : p + items.length + (s.m_size - p) = s.m_size + items.length := by omega
        rw [e2] at h7
        refine sat_mono (copy_shape T (Range.input kind items) Capacity
          (s.m_size + items.length) (s.m_size - p) p
          (set_size (s5.m_size + (s.m_size - p)) s5) h7 (by omega)
          (range_read_live _ _ _ (by simp only; omega))) ?_ ?_ (fun _ h => h.elim)
        · rintro _ s6 ⟨h10, h11⟩
          exact valid_of h10 (by rw [h11]; simp only [set_size, h8, h6]; omega) h2
        · rintro s6 ⟨h10, h11⟩
          exact valid_of h10 (by rw [h11]; simp only [set_size, h8, h6]; omega) h2
      · rintro s5 ⟨h7, h8⟩
        exact valid_of h7 (by rw [h8]; simp only [set_size, h6]; omega) (by omega)
    · rintro s3 ⟨h5, h6⟩
      exact valid_of h5 h6 hv.1

theorem insert_range_valid (T : Traits) (hT : T.has_trivial_destructor = false) (p : Nat)
    (kind : IteratorKind) (items : List Value) (s : static_vector Value Capacity)
    (hv : valid s) :
    (insert_range T p kind items s).sat (fun _ s2 => valid s2) (fun s2 => valid s2)
      (fun _ => True) := by
  unfold insert_range
  by_cases h1 : p ≤ s.m_size
  swap
  · split
    · simp only [insert_dispatch_random_access, check_iterator_end_eq, h1, if_false,
        Outcome.bind]
      trivial
    · simp only [insert_dispatch_not_random_access, check_iterator_end_eq, h1, if_false,
        Outcome.bind]
      trivial
  split
  · unfold insert_dispatch_random_access
    by_cases h2 : s.m_size + items.length ≤ Capacity
    swap
    · simp only [check_iterator_end_eq, check_capacity, h1, h2, if_true, if_false,
        Outcome.bind]
      trivial
    simp only [check_iterator_end_eq, check_capacity, h1, h2, if_true, Outcome.bind]
    split_ifs with h3
    · subst h3
      apply sat_bind
      refine sat_mono (uninitialized_copy_shape T hT (Range.input kind items) Capacity
        s.m_size items.length s hv.2 (range_read_live _ _ _ (le_refl _))) ?_ ?_
        (fun _ h => h.elim)
      · rintro _ s3 ⟨h5, h6⟩
        exact valid_of h5 (by simp [set_size, h6]) h2
      · rintro s3 ⟨h5, h6⟩
        exact valid_of h5 h6 hv.1
    · exact insert_in_the_middle_valid T hT p kind items s hv h1 h2
  · unfold insert_dispatch_not_random_access
    simp only [check_iterator_end_eq, h1, if_true, Outcome.bind]
    split_ifs with h3
    · subst h3
      apply sat_bind
      refine sat_mono (uninitialized_copy_checked_loop_shape T hT Capacity s.m_size
        (Capacity - s.m_size) items 0 s hv.2) ?_ ?_ (fun _ h => h.elim)
      · rintro r s2 ⟨h4, h5⟩
        unfold check_capacity
        by_cases h6 : r.1 = true
        · simp only [h6, if_true]
          split_ifs with h7
          · exact valid_of h4 (by simp [set_size, h5]) (by omega)
          · trivial
        · simp only [h6, Bool.false_eq_true, if_false]
          rw [if_neg (by omega)]
          trivial
      · rintro s2 ⟨h4, h5, _⟩
        exact valid_of h4 h5 hv.1
    · unfold check_capacity
      split_ifs with h4
      · exact insert_in_the_middle_valid T hT p kind items s hv h1 h4
      · trivial

theorem assign_valid (T : Traits) (hT : T.has_trivial_destructor = false)
    (kind : IteratorKind) (items : List Value) (s : static_vector Value Capacity)
    (hv : valid s) :
    (assign T kind items s).sat (fun _ s2 => valid s2) (fun s2 => valid s2)
      (fun _ => True) := by
  unfold assign
  split
  · unfold assign_dispatch_random_access
    by_cases h1 : items.length ≤ Capacity
    swap
    · simp only [check_capacity, h1, if_false, Outcome.bind]; trivial
    simp only [check_capacity, h1, if_true, Outcome.bind]
    split_ifs with h2
    · apply sat_bind
      refine sat_mono (copy_shape T (Range.input kind items) Capacity s.m_size s.m_size 0 s
        hv.2 (by omega) (range_read_live _ _ _ h2)) ?_ ?_ (fun _ h => h.elim)
      · rintro _ s2 ⟨h3, h4⟩
        rw [h4]
        apply sat_bind
        refine sat_mono (uninitialized_copy_shape T hT
          (Range.input kind (items.drop s.m_size)) Capacity s.m_size
          (items.length - s.m_size) s2 h3 (range_read_live _ _ _ (by simp))) ?_ ?_
          (fun _ h => h.elim)
        · rintro _ s3 ⟨h5, h6⟩
          have e : s.m_size + (items.length - s.m_size) = items.length := by omega
          rw [e] at h5
          exact valid_of h5 rfl h1
        · rintro s3 ⟨h5, h6⟩
          exact valid_of h5 (by rw [h6, h4]) hv.1
      · rintro s2 ⟨h3, h4⟩
        exact valid_of h3 h4 hv.1
    · apply sat_bind
      refine sat_mono (copy_shape T (Range.input kind items) Capacity s.m_size items.length
        0 s hv.2 (by omega) (range_read_live _ _ _ (le_refl _))) ?_ ?_ (fun _ h => h.elim)
      · rintro _ s2 ⟨h3, h4⟩
        refine valid_of (n := items.length) ?_ rfl h1
        simp only [set_size, destroy_storage, hT, Bool.false_eq_true, if_false, h4]
        exact shape_wipe h3 (by omega)
      · rintro s2 ⟨h3, h4⟩
        exact valid_of h3 h4 hv.1
  · unfold assign_dispatch_not_random_access
    apply sat_bind
    refine sat_mono (assign_dispatch_loop_shape Capacity s.m_size items 0 s hv.2 rfl
      (Nat.zero_le _)) ?_ ?_ (fun _ h => h.elim)
    · rintro r s1 ⟨h1, h2, h3, h4⟩
      simp only
      have h5 : shape Capacity (r.1 + 0) (destroy T r.1 s1.m_size s1).m_storage := by
        rw [destroy_storage, hT, h2]
        simp only [Bool.false_eq_true, if_false, Nat.add_zero]
        exact shape_wipe h1 h3
      apply sat_bind
      refine sat_mono (uninitialized_copy_checked_loop_shape T hT Capacity r.1
        (Capacity - r.1) r.2 0 _ h5) ?_ ?_ (fun _ h => h.elim)
      · rintro c s3 ⟨h6, h7⟩
        unfold check_capacity
        by_cases h8 : c.1 = true
        · simp only [h8, if_true]
          split_ifs with h9
          · exact valid_of h6 rfl h9
          · trivial
        · simp only [h8, Bool.false_eq_true, if_false]
          rw [if_neg (by omega)]
          trivial
      · rintro s3 ⟨h6, h7, h8⟩
        have h9 : r.1 = s.m_size := by
          cases h4 with
          | inl h => exact absurd h h8
          | inr h => exact h
        rw [h9] at h6
        exact valid_of h6 (by rw [h7, destroy_size, h2]) hv.1
    · rintro s2 ⟨h1, h2⟩
      exact valid_of h1 h2 hv.1

theorem assign_n_valid (T : Traits) (hT : T.has_trivial_destructor = false) (k : Nat)
    (x : ValueRef Value) (s : static_vector Value Capacity) (hv : valid s)
    (hx : ref_valid x s) :
    (assign_n T k x s).sat (fun _ s2 => valid s2) (fun s2 => valid s2) (fun _ => True) := by
  unfold assign_n
  split_ifs with h1
  · apply sat_bind
    refine sat_mono (std_fill_n_shape Capacity s.m_size 0 k x s hv.2 (by omega)
      (ref_live x s hx _ (le_refl _))) ?_ ?_ (fun _ h => h.elim)
    · rintro _ s2 ⟨h3, h4⟩
      refine valid_of (n := k) ?_ rfl (by have := hv.1; omega)
      simp only [set_size, destroy_storage, hT, Bool.false_eq_true, if_false, h4]
      exact shape_wipe h3 (by omega)
    · rintro s2 ⟨h3, h4⟩
      exact valid_of h3 h4 hv.1
  · by_cases h2 : k ≤ Capacity
    swap
    · simp only [check_capacity, h2, if_false, Outcome.bind]; trivial
    simp only [check_capacity, h2, if_true, Outcome.bind]
    apply sat_bind
    refine sat_mono (std_fill_n_shape Capacity s.m_size 0 s.m_size x s hv.2 (by omega)
      (ref_live x s hx _ (le_refl _))) ?_ ?_ (fun _ h => h.elim)
    · rintro _ s2 ⟨h3, h4⟩
      rw [h4]
      apply sat_bind
      refine sat_mono (std_uninitialized_fill_shape T hT Capacity s.m_size k x s2 h3
        (ref_live x s hx _ (le_refl _))) ?_ ?_ (fun _ h => h.elim)
      · rintro _ s3 ⟨h5, h6⟩
        have e : s.m_size + (k - s.m_size) = k := by omega
        rw [e] at h5
        exact valid_of h5 rfl h2
      · rintro s3 ⟨h5, h6⟩
        exact valid_of h5 (by rw [h6, h4]) hv.1
    · rintro s2 ⟨h3, h4⟩
      exact valid_of h3 h4 hv.1

/-- C9: basic guarantee of `insert` and `assign`. Storage is `Capacity` slots that
are live or uninitialized, and every element construction and assignment may
throw. For an element type whose destructor is not trivial (so that destroying
a slot makes it uninitialized), starting from a container that satisfies the
invariant of the data model, whenever `insert(position, value)`,
`insert(position, count, value)`, `insert(position, first, last)`,
`assign(first, last)` or `assign(count, value)` throws, at whatever step, the
container afterwards has `size() <= Capacity`, every slot in `[0, size())` live
and every slot in `[size(), Capacity)` uninitialized. A value argument is a
value of the caller or a reference to a live element. -/
theorem C9_basic_guarantee (T : Traits) (hT : T.has_trivial_destructor = false)
    (s : static_vector Value Capacity) (hv : valid s) :
    (∀ p x e s2, ref_valid x s → insert T p x s = .threw e s2 → valid s2) ∧
    (∀ p k x e s2, ref_valid x s → insert_n T p k x s = .threw e s2 → valid s2) ∧
    (∀ p kind items e s2, insert_range T p kind items s = .threw e s2 → valid s2) ∧
    (∀ kind items e s2, assign T kind items s = .threw e s2 → valid s2) ∧
    (∀ k x e s2, ref_valid x s → assign_n T k x s = .threw e s2 → valid s2) :=
  ⟨fun p x _ _ hx h => sat_threw (insert_valid T p x s hv hx) h,
   fun p k x _ _ hx h => sat_threw (insert_n_valid T hT p k x s hv hx) h,
   fun p kind items _ _ h => sat_threw (insert_range_valid T hT p kind items s hv) h,
   fun kind items _ _ h => sat_threw (assign_valid T hT kind items s hv) h,
   fun k x _ _ hx h => sat_threw (assign_n_valid T hT k x s hv hx) h⟩

theorem of_list_valid (C : Nat) (xs : List Nat) (fuel : Option Nat) (h : xs.length ≤ C) :
    valid (of_list C xs fuel) := by
  refine ⟨h, fun i hi => ?_, fun i hi _ => ?_⟩
  · have hi2 : i < xs.length := hi
    simp only [of_list]
    rw [List.getElem?_eq_getElem hi2]
    rfl
  · have hi2 : xs.length ≤ i := hi
    simp only [of_list]
    exact List.getElem?_eq_none hi2

/-- C9 at a concrete input: `insert(begin() + 1, 2, 9)` into `{1,2,3,4}` (capacity
8) when the fourth element operation throws: two elements were constructed
beyond the old end, one was moved, and the container is left as the valid
sequence `{1,2,3,2,3,4}` of size 6. -/
theorem C9_basic_guarantee_witness :
    insert_n Traits.element_wise 1 2 (ValueRef.value 9) (of_list 8 [1, 2, 3, 4] (some 3))
      = .threw .element_operation
        (insert_n Traits.element_wise 1 2 (ValueRef.value 9)
          (of_list 8 [1, 2, 3, 4] (some 3))).state ∧
    (insert_n Traits.element_wise 1 2 (ValueRef.value 9)
      (of_list 8 [1, 2, 3, 4] (some 3))).state.slots
      = [some 1, some 2, some 3, some 2, some 3, some 4, none, none] ∧
    (insert_n Traits.element_wise 1 2 (ValueRef.value 9)
      (of_list 8 [1, 2, 3, 4] (some 3))).state.size = 6 ∧
    valid (insert_n Traits.element_wise 1 2 (ValueRef.value 9)
      (of_list 8 [1, 2, 3, 4] (some 3))).state :=
  ⟨rfl, rfl, rfl,
   (C9_basic_guarantee Traits.element_wise rfl (of_list 8 [1, 2, 3, 4] (some 3))
      (of_list_valid 8 [1, 2, 3, 4] (some 3) (by decide))).2.1 1 2 (ValueRef.value 9)
      .element_operation _ trivial rfl⟩

/-! ### Appending and removing at the end, unchecked access (C14, C15, C18) -/

theorem elements_push (s s2 : static_vector Value Capacity) (x : Option Value)
    (h1 : s2.m_storage = write s.m_storage s.m_size x) (h2 : s2.m_size = s.m_size + 1) :
    s2.elements = s.elements ++ [x] := by
  unfold elements
  rw [h2, List.range_succ, List.map_append, h1]
  congr 1
  · apply List.map_congr_left
    intro i hi
    simp only [write]
    rw [if_neg (by have := List.mem_range.1 hi; omega)]
  · simp [write]

theorem push_back_content (T : Traits) (x : ValueRef Value) (s : static_vector Value Capacity)
    (hc : s.m_size + 1 ≤ Capacity) :
    (push_back T x s).sat
      (fun _ s2 => s2.m_storage = write s.m_storage s.m_size (x.read s.m_storage) ∧
        s2.m_size = s.m_size + 1 ∧ (s.fuel = none → s2.fuel = none))
      (fun s2 => s2 = s ∧ s.fuel ≠ none) (fun _ => False) := by
  unfold push_back
  simp only [check_capacity, hc, if_true, Outcome.bind]
  apply sat_bind
  refine sat_mono (uninitialized_fill_sat T s.m_size x s) ?_ (fun _ h => h) (fun _ h => h)
  rintro _ s2 ⟨h1, h2, h3⟩
  exact ⟨h1, by simp [set_size, h2], h3⟩

/-- C14: `push_back(value)` for a value of the caller. With `size() < Capacity` the
call returns when the copy construction does not throw, and whenever it returns
the container holds `xs ++ [value]`: `size()` has grown by one, `back()` is the
value and every slot below the old size is untouched. With `size() == Capacity`
the call ends in the capacity assertion and the state is the one before. -/
theorem C14_push_back_appends (T : Traits) (v : Value) (s : static_vector Value Capacity) :
    (s.size < Capacity →
      (s.fuel = none → ∃ s2, push_back T (ValueRef.value v) s = .returned () s2) ∧
      (∀ s2, push_back T (ValueRef.value v) s = .returned () s2 →
        s2.elements = s.elements ++ [some v] ∧ s2.size = s.size + 1 ∧
        back s2 = .returned (some v) s2 ∧
        ∀ i, i < s.size → s2.m_storage i = s.m_storage i)) ∧
    (s.size = Capacity →
      push_back T (ValueRef.value v) s = .assertion_failed .capacity s) := by
  unfold size
  refine ⟨fun hlt => ?_, fun heq => ?_⟩
  · have h := push_back_content T (ValueRef.value v) s (by omega)
    refine ⟨fun hf => sat_total h (fun _ hn => hn.2 hf) (fun _ hn => hn), fun s2 h2 => ?_⟩
    obtain ⟨h3, h4, _⟩ := sat_returned h h2
    refine ⟨elements_push s s2 _ h3 h4, h4, ?_, ?_⟩
    · unfold back check_empty
      rw [if_pos (by omega)]
      simp only [Outcome.bind, h4, h3, Nat.add_sub_cancel, write, if_true, ValueRef.read]
    · intro i hi
      rw [h3]
      simp only [write]
      rw [if_neg (by omega)]
  · unfold push_back check_capacity
    rw [if_neg (by omega)]
    rfl

/-- C14 at a concrete input: `push_back(5)` on `{1,2}` gives `{1,2,5}`, and is
rejected on a full container of capacity 2. -/
theorem C14_push_back_appends_witness :
    (∀ s2, push_back Traits.element_wise (ValueRef.value 5) (of_list 4 [1, 2] none)
        = .returned () s2 →
      s2.elements = [some 1, some 2, some 5] ∧ s2.size = 3 ∧
      back s2 = .returned (some 5) s2 ∧
      ∀ i, i < 2 → s2.m_storage i = (of_list 4 [1, 2] none).m_storage i) ∧
    push_back Traits.element_wise (ValueRef.value 5) (of_list 2 [1, 2] none)
      = .assertion_failed .capacity (of_list 2 [1, 2] none) :=
  ⟨((C14_push_back_appends Traits.element_wise 5 (of_list 4 [1, 2] none)).1
      (by decide)).2,
   (C14_push_back_appends Traits.element_wise 5 (of_list 2 [1, 2] none)).2 rfl⟩

theorem destroy_at_storage (T : Traits) (it : Nat) (s : static_vector Value Capacity) :
    (destroy_at T it s).m_storage =
      if T.has_trivial_destructor then s.m_storage else write s.m_storage it none := by
  unfold destroy_at
  split <;> rfl

theorem destroy_at_fuel (T : Traits) (it : Nat) (s : static_vector Value Capacity) :
    (destroy_at T it s).fuel = s.fuel := by
  unfold destroy_at
  split <;> rfl

theorem elements_pop (s s2 : static_vector Value Capacity)
    (h1 : ∀ i, i < s.m_size - 1 → s2.m_storage i = s.m_storage i)
    (h2 : s2.m_size = s.m_size - 1) :
    s2.elements = s.elements.dropLast := by
  unfold elements
  rw [h2, List.dropLast_eq_take]
  apply List.ext_getElem?
  intro i
  rw [List.getElem?_take, getElem?_map_range, getElem?_map_range]
  simp only [List.length_map, List.length_range]
  by_cases h : i < s.m_size - 1
  · rw [if_pos h, if_pos h, if_pos (by omega), h1 i h]
  · rw [if_neg h, if_neg h]

theorem pop_back_result (T : Traits) (s : static_vector Value Capacity) (h : 0 < s.m_size) :
    pop_back T s = .returned () (set_size (s.m_size - 1) (destroy_at T (s.m_size - 1) s)) := by
  unfold pop_back check_empty
  rw [if_pos h]
  simp only [Outcome.bind, destroy_at_size]

/-- C15: `pop_back()` on a non-empty container returns and leaves `xs` without its
last element, `size()` one less; after `push_back(v)` on a container with
`size() < Capacity` it returns and restores the original sequence and size; on
an empty container it ends in the `check_empty` assertion with the state
untouched. -/
theorem C15_pop_back (T : Traits) (v : Value) (s : static_vector Value Capacity) :
    (0 < s.size →
      ∃ s2, pop_back T s = .returned () s2 ∧
        s2.elements = s.elements.dropLast ∧ s2.size = s.size - 1) ∧
    (s.size < Capacity →
      ∀ s1, push_back T (ValueRef.value v) s = .returned () s1 →
        ∃ s2, pop_back T s1 = .returned () s2 ∧
          s2.elements = s.elements ∧ s2.size = s.size) ∧
    (s.size = 0 → pop_back T s = .assertion_failed .empty s) := by
  unfold size
  refine ⟨fun hpos => ?_, fun hlt s1 h1 => ?_, fun h0 => ?_⟩
  · refine ⟨_, pop_back_result T s hpos, ?_, ?_⟩
    · apply elements_pop
      · intro i hi
        simp only [set_size, destroy_at_storage]
        split
        · rfl
        · simp only [write]
          rw [if_neg (by omega)]
      · rfl
    · simp [set_size]
  · obtain ⟨h3, h4, _⟩ := sat_returned (push_back_content T (ValueRef.value v) s (by omega)) h1
    refine ⟨_, pop_back_result T s1 (by omega), ?_, ?_⟩
    · have e : (set_size (s1.m_size - 1) (destroy_at T (s1.m_size - 1) s1)).elements
          = s1.elements.dropLast := by
        apply elements_pop
        · intro i hi
          simp only [set_size, destroy_at_storage]
          split
          · rfl
          · simp only [write]
            rw [if_neg (by omega)]
        · rfl
      rw [e, elements_push s s1 _ h3 h4, List.dropLast_concat]
    · simp only [set_size, h4, Nat.add_sub_cancel]
  · unfold pop_back check_empty
    rw [if_neg (by omega)]
    rfl

/-- C15 at a concrete input: `pop_back()` on `{1,2,3}`, after `push_back(9)`, and
on an empty container. -/
theorem C15_pop_back_witness :
    (∃ s2, pop_back Traits.element_wise (of_list 4 [1, 2, 3] none) = .returned () s2 ∧
      s2.elements = [some 1, some 2] ∧ s2.size = 2) ∧
    pop_back Traits.element_wise (of_list 4 [] none)
      = .assertion_failed .empty (of_list 4 [] none) :=
  ⟨(C15_pop_back Traits.element_wise 9 (of_list 4 [1, 2, 3] none)).1 (by decide),
   (C15_pop_back Traits.element_wise 9 (of_list 4 [] none)).2.2 rfl⟩

/-- C18: the unchecked accessors. For `i < size()`, `operator[](i)` returns what
`at(i)` returns, element `i`; on a non-empty container `front()` is element 0
and `back()` is element `size() - 1`. The assertion of `operator[]` fails
exactly when `i >= size()`, those of `front()` and `back()` exactly when the
container is empty. None of them changes the container. -/
theorem C18_unchecked_accessors (i : Nat) (s : static_vector Value Capacity) :
    (i < s.size → operator_subscript i s = at_ i s ∧
      operator_subscript i s = .returned (s.m_storage i) s) ∧
    (0 < s.size → front s = .returned (s.m_storage 0) s ∧
      back s = .returned (s.m_storage (s.size - 1)) s) ∧
    (operator_subscript i s = .assertion_failed .index_out_of_bounds s ↔ s.size ≤ i) ∧
    (front s = .assertion_failed .empty s ↔ s.size = 0) ∧
    (back s = .assertion_failed .empty s ↔ s.size = 0) ∧
    (operator_subscript i s).state = s ∧ (front s).state = s ∧ (back s).state = s := by
  unfold size operator_subscript at_ front back check_empty
  refine ⟨fun h => ?_, fun h => ?_, ?_, ?_, ?_, ?_, ?_, ?_⟩
  · rw [if_pos h, if_neg (by omega)]
    exact ⟨rfl, rfl⟩
  · rw [if_pos h]
    exact ⟨rfl, rfl⟩
  · split_ifs with h
    · simp; omega
    · simp; omega
  · split_ifs with h <;> simp [Outcome.bind] <;> omega
  · split_ifs with h <;> simp [Outcome.bind] <;> omega
  · split_ifs <;> rfl
  · split_ifs <;> rfl
  · split_ifs <;> rfl

/-- C18 at a concrete input: `{4,5,6}`. -/
theorem C18_unchecked_accessors_witness :
    operator_subscript 1 (of_list 4 [4, 5, 6] none) = at_ 1 (of_list 4 [4, 5, 6] none) ∧
    operator_subscript 1 (of_list 4 [4, 5, 6] none)
      = .returned (some 5) (of_list 4 [4, 5, 6] none) ∧
    front (of_list 4 [4, 5, 6] none) = .returned (some 4) (of_list 4 [4, 5, 6] none) ∧
    back (of_list 4 [4, 5, 6] none) = .returned (some 6) (of_list 4 [4, 5, 6] none) :=
  ⟨((C18_unchecked_accessors 1 (of_list 4 [4, 5, 6] none)).1 (by decide)).1,
   ((C18_unchecked_accessors 1 (of_list 4 [4, 5, 6] none)).1 (by decide)).2,
   ((C18_unchecked_accessors 1 (of_list 4 [4, 5, 6] none)).2.1 (by decide)).1,
   ((C18_unchecked_accessors 1 (of_list 4 [4, 5, 6] none)).2.1 (by decide)).2⟩

/-! ### Traces of slot events -/

theorem log_ext_refl (P : Event → Prop) (s : static_vector Value Capacity) : log_ext P s s :=
  ⟨[], by simp, fun _ h => by simp at h⟩

theorem log_ext_of_eq (P : Event → Prop) {s s2 : static_vector Value Capacity}
    (h : s2.log = s.log) : log_ext P s s2 :=
  ⟨[], by simp [h], fun _ h => by simp at h⟩

theorem log_ext_trans {P : Event → Prop} {s s1 s2 : static_vector Value Capacity}
    (h1 : log_ext P s s1) (h2 : log_ext P s1 s2) : log_ext P s s2 := by
  obtain ⟨e1, h3, h4⟩ := h1
  obtain ⟨e2, h5, h6⟩ := h2
  refine ⟨e1 ++ e2, by rw [h5, h3, List.append_assoc], fun e he => ?_⟩
  rcases List.mem_append.1 he with h | h
  · exact h4 e h
  · exact h6 e h

theorem log_ext_one {P : Event → Prop} {s s2 : static_vector Value Capacity} (e : Event)
    (h : s2.log = s.log ++ [e]) (hP : P e) : log_ext P s s2 :=
  ⟨[e], h, fun x hx => by rw [List.mem_singleton.1 hx]; exact hP⟩

theorem assign_element_log (P : Event → Prop) (i : Nat) (x : Option Value)
    (s : static_vector Value Capacity) (hP : P ⟨.assign, i, s.m_size⟩) :
    (assign_element i x s).sat (fun _ s2 => log_ext P s s2 ∧ s2.m_size = s.m_size)
      (fun s2 => s2 = s) (fun _ => False) := by
  unfold assign_element
  cases tick s.fuel with
  | none => rfl
  | some f => exact ⟨log_ext_one _ rfl hP, rfl⟩

theorem placement_new_log (P : Event → Prop) (i : Nat) (x : Option Value)
    (s : static_vector Value Capacity) (hP : P ⟨.construct, i, s.m_size⟩) :
    (placement_new i x s).sat (fun _ s2 => log_ext P s s2 ∧ s2.m_size = s.m_size)
      (fun s2 => s2 = s) (fun _ => False) := by
  unfold placement_new
  cases tick s.fuel with
  | none => rfl
  | some f => exact ⟨log_ext_one _ rfl hP, rfl⟩

theorem raw_copy_log (P : Event → Prop) (src : Nat → Option Value) (dst n : Nat)
    (s : static_vector Value Capacity)
    (hP : ∀ j, j < n → P ⟨.raw_write, dst + j, s.m_size⟩) :
    log_ext P s (raw_copy src dst n s) := by
  refine ⟨_, rfl, fun e he => ?_⟩
  obtain ⟨j, hj, rfl⟩ := List.mem_map.1 he
  exact hP j (List.mem_range.1 hj)

theorem assign_ascending_log (P : Event → Prop)
    (rd : Nat → (Nat → Option Value) → Option Value) (dst : Nat) :
    ∀ (n k : Nat) (s : static_vector Value Capacity),
      (∀ j, k ≤ j → j < k + n → P ⟨.assign, dst + j, s.m_size⟩) →
      (assign_ascending rd dst n k s).sat
        (fun _ s2 => log_ext P s s2 ∧ s2.m_size = s.m_size)
        (fun s2 => log_ext P s s2 ∧ s2.m_size = s.m_size) (fun _ => False) := by
  intro n
  induction n with
  | zero => intro k s _; exact ⟨log_ext_refl P s, rfl⟩
  | succ n ih =>
    intro k s hP
    unfold assign_ascending
    have h1 := assign_element_log P (dst + k) (rd k s.m_storage) s (hP k (le_refl _) (by omega))
    cases ho : assign_element (dst + k) (rd k s.m_storage) s with
    | returned a s1 =>
      obtain ⟨h2, h3⟩ := sat_returned h1 ho
      have hP1 : ∀ j, k + 1 ≤ j → j < k + 1 + n → P ⟨.assign, dst + j, s1.m_size⟩ := by
        intro j hj1 hj2
        rw [h3]
        exact hP j (by omega) (by omega)
      refine sat_mono (ih (k + 1) s1 hP1) ?_ ?_ (fun _ h => h)
      · rintro _ s2 ⟨h4, h5⟩
        exact ⟨log_ext_trans h2 h4, by rw [h5, h3]⟩
      · rintro s2 ⟨h4, h5⟩
        exact ⟨log_ext_trans h2 h4, by rw [h5, h3]⟩
    | threw e s1 =>
      have h2 : s1 = s := sat_threw h1 ho
      rw [h2]
      exact ⟨log_ext_refl P s, rfl⟩
    | assertion_failed a s1 =>
      rw [ho] at h1
      exact h1

theorem move_log (P : Event → Prop) (T : Traits) (first last dst : Nat)
    (s : static_vector Value Capacity)
    (hP : ∀ j, j < last - first →
      P ⟨.assign, dst + j, s.m_size⟩ ∧ P ⟨.raw_write, dst + j, s.m_size⟩) :
    (move T first last dst s).sat
      (fun _ s2 => log_ext P s s2 ∧ s2.m_size = s.m_size)
      (fun s2 => log_ext P s s2 ∧ s2.m_size = s.m_size) (fun _ => False) := by
  unfold move
  split
  · exact ⟨raw_copy_log P _ _ _ s (fun j hj => (hP j hj).2), rfl⟩
  · exact assign_ascending_log P _ dst _ 0 s (fun j _ hj => (hP j (by omega)).1)

theorem destroy_dispatch_false_log :
    ∀ (n first : Nat) (s : static_vector Value Capacity),
      (destroy_dispatch_false first n s).log =
        s.log ++ (List.range n).map (fun j => (⟨.destroy, first + j, s.m_size⟩ : Event)) := by
  intro n
  induction n with
  | zero => intro first s; simp [destroy_dispatch_false]
  | succ n ih =>
    intro first s
    rw [destroy_dispatch_false, ih (first + 1) (destructor first s)]
    simp only [destructor, record, List.append_assoc, List.range_succ_eq_map, List.map_cons,
      List.map_map, List.singleton_append, Nat.add_zero]
    congr 2
    apply List.map_congr_left
    intro j _
    simp only [Function.comp, Event.mk.injEq, true_and, and_true]
    omega

theorem destroy_log (T : Traits) (first last : Nat) (s : static_vector Value Capacity) :
    (destroy T first last s).log =
      s.log ++ (if T.has_trivial_destructor then []
        else (List.range (last - first)).map
          (fun j => (⟨.destroy, first + j, s.m_size⟩ : Event))) := by
  unfold destroy
  split
  · simp
  · exact destroy_dispatch_false_log _ _ _

theorem destroy_at_log (T : Traits) (it : Nat) (s : static_vector Value Capacity) :
    (destroy_at T it s).log =
      s.log ++ (if T.has_trivial_destructor then [] else [⟨.destroy, it, s.m_size⟩]) := by
  unfold destroy_at
  split
  · simp
  · rfl

/-! ### Erasing one element and clearing (C20, C13) -/

theorem sat_and {α σ : Type} {o : Outcome α σ} {Qr Qr2 : α → σ → Prop}
    {Qt Qt2 Qa Qa2 : σ → Prop} (h1 : o.sat Qr Qt Qa) (h2 : o.sat Qr2 Qt2 Qa2) :
    o.sat (fun a s => Qr a s ∧ Qr2 a s) (fun s => Qt s ∧ Qt2 s) (fun s => Qa s ∧ Qa2 s) := by
  cases o with
  | returned a s => exact ⟨h1, h2⟩
  | threw e s => exact ⟨h1, h2⟩
  | assertion_failed a s => exact ⟨h1, h2⟩

theorem erase_sat (T : Traits) (p : Nat) (s : static_vector Value Capacity)
    (hp : p < s.m_size) :
    (erase T p s).sat
      (fun _ s2 => s2.m_size = s.m_size - 1 ∧
        (∀ i, i < s.m_size - 1 →
          s2.m_storage i = if i < p then s.m_storage i else s.m_storage (i + 1)) ∧
        (s.fuel = none → s2.fuel = none) ∧
        (T.has_trivial_destructor = false → s2.m_storage (s.m_size - 1) = none) ∧
        ∃ evs : List Event,
          s2.log = s.log ++ evs ++
            (if T.has_trivial_destructor then [] else [⟨.destroy, s.m_size - 1, s.m_size⟩]) ∧
          ∀ e, e ∈ evs → e.kind ≠ .destroy)
      (fun _ => s.fuel ≠ none) (fun _ => False) := by
  unfold erase
  simp only [check_iterator_end_neq, hp, if_true, Outcome.bind]
  apply sat_bind
  refine sat_mono (sat_and (move_content T (p + 1) s.m_size p s (by omega))
    (move_log (fun e => e.kind ≠ .destroy) T (p + 1) s.m_size p s
      (fun _ _ => ⟨by simp, by simp⟩))) ?_ (fun _ h => h.1) (fun _ h => h.1)
  rintro _ s3 ⟨⟨h3, h4, h5⟩, ⟨evs, h6, h7⟩, _⟩
  refine ⟨by simp only [set_size, destroy_at_size, h4], ?_, ?_, ?_, ?_⟩
  · intro i hi
    have hb : blit (fun k => s.m_storage (p + 1 + k)) p (s.m_size - (p + 1)) s.m_storage i =
        if i < p then s.m_storage i else s.m_storage (i + 1) := by
      simp only [blit]
      split_ifs <;> first | rfl | (exfalso; omega) | (congr 1; omega)
    simp only [set_size, destroy_at_storage, destroy_at_size, h3, h4]
    split
    · exact hb
    · simp only [write]
      rw [if_neg (by omega)]
      exact hb
  · simp only [set_size, destroy_at_fuel]
    exact h5
  · intro hT
    simp only [set_size, destroy_at_storage, destroy_at_size, hT, h4, Bool.false_eq_true,
      if_false, write, if_true]
  · refine ⟨evs, ?_, h7⟩
    simp only [set_size, destroy_at_log, destroy_at_size, h6, h4]

/-- C20: `erase(position)` for `position = begin() + p` with `p < size()`: the
call returns when no element operation throws, and whenever it returns the
container holds `xs[0..p) ++ xs[p+1..size)` and `size()` is one less. Unless the
destructor is trivial (then nothing is destroyed), the trace of the call ends
with the one destructor call, at the last slot `size() - 1`, which is
uninitialized afterwards, and holds no other destructor call. `erase(end())`
ends in the invalid-iterator assertion with the state untouched. -/
theorem C20_erase_one (T : Traits) (p : Nat) (s : static_vector Value Capacity) :
    (p < s.size →
      (s.fuel = none → ∃ s2, erase T p s = .returned () s2) ∧
      (∀ s2, erase T p s = .returned () s2 →
        s2.elements = s.elements.take p ++ s.elements.drop (p + 1) ∧
        s2.size = s.size - 1 ∧
        (T.has_trivial_destructor = false → s2.m_storage (s.size - 1) = none) ∧
        ∃ evs : List Event,
          s2.log = s.log ++ evs ++
            (if T.has_trivial_destructor then [] else [⟨.destroy, s.size - 1, s.size⟩]) ∧
          ∀ e, e ∈ evs → e.kind ≠ .destroy)) ∧
    erase T s.size s = .assertion_failed .invalid_iterator s := by
  unfold size
  refine ⟨fun hp => ?_, ?_⟩
  · have h := erase_sat T p s hp
    refine ⟨fun hf => sat_total h (fun _ hn => hn hf) (fun _ hn => hn), fun s2 h2 => ?_⟩
    obtain ⟨h3, h4, _, h5, h6⟩ := sat_returned h h2
    refine ⟨?_, h3, h5, h6⟩
    unfold elements
    rw [h3]
    have e : p + 1 - p = 1 := by omega
    have h7 := map_range_erased s.m_storage p (p + 1) s.m_size (by omega) (by omega)
      s2.m_storage
    rw [e] at h7
    exact h7 h4
  · unfold erase check_iterator_end_neq
    rw [if_neg (by omega)]
    rfl

/-- C20 at a concrete input: `erase(begin() + 1)` on `{1,2,3,4}` gives `{1,3,4}`;
the trace is two assignments and one destructor call at slot 3. -/
theorem C20_erase_one_witness :
    (∀ s2, erase Traits.element_wise 1 (of_list 5 [1, 2, 3, 4] none) = .returned () s2 →
      s2.elements = [some 1, some 3, some 4] ∧ s2.size = 3) ∧
    (erase Traits.element_wise 1 (of_list 5 [1, 2, 3, 4] none)).state.log
      = [⟨.assign, 1, 4⟩, ⟨.assign, 2, 4⟩, ⟨.destroy, 3, 4⟩] ∧
    erase Traits.element_wise 4 (of_list 5 [1, 2, 3, 4] none)
      = .assertion_failed .invalid_iterator (of_list 5 [1, 2, 3, 4] none) :=
  ⟨fun s2 h => ⟨(((C20_erase_one Traits.element_wise 1 (of_list 5 [1, 2, 3, 4] none)).1
      (by decide)).2 s2 h).1,
     (((C20_erase_one Traits.element_wise 1 (of_list 5 [1, 2, 3, 4] none)).1
      (by decide)).2 s2 h).2.1⟩,
   rfl,
   (C20_erase_one Traits.element_wise 4 (of_list 5 [1, 2, 3, 4] none)).2⟩

/-- C13: `clear()` returns with `size() == 0`. Unless the destructor is trivial
(then `destroy` does nothing), its trace is exactly one destructor call for each
index `0, ..., n - 1`, in this order and each once, and these slots are
uninitialized afterwards. A second `clear()` right after it returns the very
same state: `size() == 0` again and no event added to the trace. -/
theorem C13_clear_idempotent (T : Traits) (s : static_vector Value Capacity) :
    ∃ s1, clear T s = .returned () s1 ∧ s1.size = 0 ∧
      s1.log = s.log ++ (if T.has_trivial_destructor then []
        else (List.range s.size).map (fun i => (⟨.destroy, i, s.size⟩ : Event))) ∧
      ((List.range s.size).map (fun i => (⟨.destroy, i, s.size⟩ : Event))).Nodup ∧
      (T.has_trivial_destructor = false → ∀ i, i < s.size → s1.m_storage i = none) ∧
      clear T s1 = .returned () s1 := by
  refine ⟨_, rfl, rfl, ?_, ?_, ?_, ?_⟩
  · simp only [set_size, destroy_log, size, Nat.sub_zero, Nat.zero_add]
  · apply List.Nodup.map
    · intro i j h
      simpa using h
    · exact List.nodup_range _
  · intro hT i hi
    simp only [set_size, destroy_storage, hT, Bool.false_eq_true, if_false, wipe]
    rw [if_pos ⟨Nat.zero_le _, hi⟩]
  · unfold clear
    simp only [set_size, destroy]
    split
    · rfl
    · rfl

/-- C13 at a concrete input: `clear()` on `{1,2,3}` destroys slots 0, 1, 2 once each;
the second `clear()` adds nothing. -/
theorem C13_clear_idempotent_witness :
    (clear Traits.element_wise (of_list 4 [1, 2, 3] none)).state.log
      = [⟨.destroy, 0, 3⟩, ⟨.destroy, 1, 3⟩, ⟨.destroy, 2, 3⟩] ∧
    (clear Traits.element_wise (of_list 4 [1, 2, 3] none)).state.slots
      = [none, none, none, none] ∧
    (clear Traits.element_wise
      (clear Traits.element_wise (of_list 4 [1, 2, 3] none)).state).state.log
      = [⟨.destroy, 0, 3⟩, ⟨.destroy, 1, 3⟩, ⟨.destroy, 2, 3⟩] ∧
    ∃ s1, clear Traits.element_wise (of_list 4 [1, 2, 3] none) = .returned () s1 ∧
      s1.size = 0 ∧ clear Traits.element_wise s1 = .returned () s1 :=
  ⟨rfl, rfl, rfl,
   (C13_clear_idempotent Traits.element_wise (of_list 4 [1, 2, 3] none)).elim
     fun s1 h => ⟨s1, h.1, h.2.1, h.2.2.2.2.2⟩⟩

/-! ### Single-value insert (C19) -/

theorem insert_storage (T : Traits) (p : Nat) (v : Value)
    (s : static_vector Value Capacity) (hp : p ≤ s.m_size) (hc : s.m_size + 1 ≤ Capacity) :
    (insert T p (ValueRef.value v) s).sat
      (fun _ s2 => s2.m_storage = inserted (fun _ => some v) p 1 s.m_size s.m_storage ∧
        s2.m_size = s.m_size + 1 ∧ (s.fuel = none → s2.fuel = none))
      (fun _ => s.fuel ≠ none) (fun _ => False) := by
  unfold insert
  simp only [check_iterator_end_eq, check_capacity, hp, hc, if_true, Outcome.bind]
  split_ifs with h1
  · apply sat_bind
    refine sat_mono (uninitialized_fill_sat T p (ValueRef.value v) s) ?_ (fun _ h => h.2)
      (fun _ h => h)
    rintro _ s3 ⟨h3, h4, h5⟩
    refine ⟨?_, by simp [set_size, h4], h5⟩
    simp only [set_size, h3]
    funext i
    simp only [write, inserted, ValueRef.read]
    split_ifs <;> first | rfl | (exfalso; omega)
  · apply sat_bind
    refine sat_mono (uninitialized_fill_sat T s.m_size (ValueRef.element (s.m_size - 1)) s) ?_
      (fun _ h => h.2) (fun _ h => h)
    rintro _ s3 ⟨h3, h4, h5⟩
    apply sat_bind
    refine sat_mono (move_backward_content T p (s3.m_size + 1 - 2) (s3.m_size + 1 - 1)
      (set_size (s3.m_size + 1) s3) ?_) ?_ ?_ (fun _ h => h)
    · omega
    · rintro _ s5 ⟨h6, h7, h8⟩
      refine sat_mono (fill_sat T p (ValueRef.value v) s5) ?_ ?_ (fun _ h => h)
      · rintro _ s6 ⟨h9, h10, h11⟩
        refine ⟨?_, ?_, fun h => h11 (h8 (h5 h))⟩
        · rw [h9, h6]
          simp only [set_size, h3, h4]
          funext i
          simp only [blit, inserted, write, ValueRef.read]
          split_ifs <;> first | rfl | (exfalso; omega) | (congr 1; omega)
        · rw [h10, h7]; simp [set_size, h4]
      · intro _ h hn
        exact h.2 (h8 (h5 hn))
    · intro _ h hn
      exact h (h5 hn)

/-- C19: `insert(position, value)` for a value of the caller, `position <= size()`
and `size() < Capacity`: the call returns when no element operation throws, and
whenever it returns the container holds `xs[0..p) ++ [value] ++ xs[p..size)`.
Whenever `insert(position, 1, value)` also returns, it leaves the same storage
and the same size, hence the same container. -/
theorem C19_insert_single_is_count_one (T : Traits) (p : Nat) (v : Value)
    (s : static_vector Value Capacity) (hp : p ≤ s.size) (hc : s.size < Capacity) :
    (s.fuel = none → ∃ s2, insert T p (ValueRef.value v) s = .returned () s2) ∧
    (∀ s2, insert T p (ValueRef.value v) s = .returned () s2 →
      s2.elements = s.elements.take p ++ [some v] ++ s.elements.drop p ∧
      s2.size = s.size + 1) ∧
    (∀ s2 s3, insert T p (ValueRef.value v) s = .returned () s2 →
      insert_n T p 1 (ValueRef.value v) s = .returned () s3 →
      s2.m_storage = s3.m_storage ∧ s2.size = s3.size ∧ s2.elements = s3.elements) := by
  unfold size at *
  have h := insert_storage T p v s hp (by omega)
  refine ⟨fun hf => sat_total h (fun _ hn => hn hf) (fun _ hn => hn), fun s2 h2 => ?_, ?_⟩
  · obtain ⟨h3, h4, _⟩ := sat_returned h h2
    refine ⟨?_, h4⟩
    rw [elements_inserted s s2 _ p 1 hp h3 h4]
    rfl
  · intro s2 s3 h2 h3
    obtain ⟨h4, h5, _⟩ := sat_returned h h2
    obtain ⟨h6, h7, _⟩ := sat_returned (insert_n_storage T p 1 v s hp (by omega)) h3
    have e1 : s2.m_storage = s3.m_storage := by rw [h4, h6]
    have e2 : s2.m_size = s3.m_size := by rw [h5, h7]
    refine ⟨e1, e2, ?_⟩
    unfold elements
    rw [e1, e2]

/-- C19 at a concrete input: 9 inserted before slot 1 of `{1,2,3,4}`. -/
theorem C19_insert_single_is_count_one_witness :
    (∃ s2, insert Traits.element_wise 1 (ValueRef.value 9) (of_list 8 [1, 2, 3, 4] none)
      = .returned () s2) ∧
    (∀ s2, insert Traits.element_wise 1 (ValueRef.value 9) (of_list 8 [1, 2, 3, 4] none)
        = .returned () s2 →
      s2.elements = [some 1, some 9, some 2, some 3, some 4] ∧ s2.size = 5) :=
  ⟨(C19_insert_single_is_count_one Traits.element_wise 1 9 (of_list 8 [1, 2, 3, 4] none)
      (by decide) (by decide)).1 rfl,
   (C19_insert_single_is_count_one Traits.element_wise 1 9 (of_list 8 [1, 2, 3, 4] none)
      (by decide) (by decide)).2.1⟩

/-! ### Constructors (C17) -/

theorem resize_value_content (T : Traits) (count : Nat) (v : Value)
    (s : static_vector Value Capacity) (hs : s.m_size ≤ count) (hc : count ≤ Capacity) :
    (resize_value T count (ValueRef.value v) s).sat
      (fun _ s2 => s2.m_storage = blit (fun _ => some v) s.m_size (count - s.m_size)
          s.m_storage ∧
        s2.m_size = count ∧ (s.fuel = none → s2.fuel = none))
      (fun _ => s.fuel ≠ none) (fun _ => False) := by
  unfold resize_value
  rw [if_neg (by omega)]
  simp only [check_capacity, hc, if_true, Outcome.bind]
  apply sat_bind
  refine sat_mono (std_uninitialized_fill_content T s.m_size count v s) ?_ (fun _ h => h)
    (fun _ h => h)
  rintro _ s2 ⟨h1, _, h3⟩
  exact ⟨h1, rfl, h3⟩

/-- C17: the constructors. For `count <= Capacity`, `static_vector(count, v)`
returns when no copy construction throws, and whenever it returns `size()` is
`count` and every element is `v`. `static_vector(first, last)` ends exactly as
`assign(first, last)` on a default-constructed container does (same outcome,
same state), so for a source of length `<= Capacity` it has the size and the
elements of the source. The default constructor gives `size() == 0`. -/
theorem C17_constructors (T : Traits) (count : Nat) (v : Value) (kind : IteratorKind)
    (items : List Value) (fuel : Option Nat) (log : List Event) :
    (count ≤ Capacity →
      (fuel = none → ∃ s : static_vector Value Capacity,
        ctor_count_value T count v fuel log = .returned () s) ∧
      (∀ s : static_vector Value Capacity,
        ctor_count_value T count v fuel log = .returned () s →
        s.size = count ∧ s.elements = List.replicate count (some v))) ∧
    ((ctor_range T kind items fuel log : Outcome Unit (static_vector Value Capacity))
        = assign T kind items (default_ctor fuel log) ∧
      (items.length ≤ Capacity →
        (fuel = none → ∃ s : static_vector Value Capacity,
          ctor_range T kind items fuel log = .returned () s) ∧
        (∀ s : static_vector Value Capacity,
          ctor_range T kind items fuel log = .returned () s →
          s.size = items.length ∧ s.elements = items.map some))) ∧
    (default_ctor fuel log : static_vector Value Capacity).size = 0 := by
  refine ⟨fun hc => ?_, ⟨rfl, fun hc => ?_⟩, rfl⟩
  · have h := resize_value_content T count v
      (default_ctor fuel log : static_vector Value Capacity) (Nat.zero_le _) hc
    refine ⟨fun hf => sat_total h (fun _ hn => hn hf) (fun _ hn => hn), fun s h2 => ?_⟩
    obtain ⟨h3, h4, _⟩ := sat_returned h h2
    refine ⟨h4, ?_⟩
    unfold elements
    rw [h4, h3, ← map_range_const]
    apply List.map_congr_left
    intro i hi
    simp only [blit, default_ctor, Nat.sub_zero, Nat.zero_add]
    rw [if_pos ⟨Nat.zero_le _, List.mem_range.1 hi⟩]
  · have h := assign_storage T kind items
      (default_ctor fuel log : static_vector Value Capacity) hc
    refine ⟨fun hf => sat_total h (fun _ hn => hn hf) (fun _ hn => hn), fun s h2 => ?_⟩
    obtain ⟨h3, h4, _⟩ := sat_returned h h2
    exact ⟨h4, elements_eq_of_storage s items h3 h4⟩

/-- C17 at concrete inputs: `static_vector<Nat, 4>(3, 7)` and
`static_vector<Nat, 4>(first, last)` for the forward-only source `{1,2}`. -/
theorem C17_constructors_witness :
    (∀ s : static_vector Nat 4,
      ctor_count_value Traits.element_wise 3 7 none [] = .returned () s →
      s.size = 3 ∧ s.elements = [some 7, some 7, some 7]) ∧
    (∀ s : static_vector Nat 4,
      ctor_range Traits.element_wise IteratorKind.forward [1, 2] none [] = .returned () s →
      s.size = 2 ∧ s.elements = [some 1, some 2]) :=
  ⟨((C17_constructors Traits.element_wise 3 7 IteratorKind.forward [1, 2] none []).1
      (by decide)).2,
   ((C17_constructors Traits.element_wise 3 7 IteratorKind.forward [1, 2] none []).2.1.2
      (by decide)).2⟩

/-! ### Raw and element-wise paths (C16) -/

theorem elements_congr (s1 s2 : static_vector Value Capacity) (h : s1.m_size = s2.m_size)
    (hs : ∀ i, i < s1.m_size → s1.m_storage i = s2.m_storage i) :
    s1.elements = s2.elements := by
  unfold elements
  rw [← h]
  apply List.map_congr_left
  intro i hi
  exact hs i (List.mem_range.1 hi)

/-- C16: the raw and the element-wise path agree. `T` is an element type with
trivial assignment, `T2` one without, and no element operation throws. Then
`move(first, last, dst)` with `dst <= first` is `memmove` for `T` and the
ascending `std::copy` for `T2`, both return and leave the same storage;
`move_backward(first, last, dst_end)` with `first <= last <= dst_end` is
`memmove` to `dst_end - n` for `T` and the descending `std::copy_backward` for
`T2`, both return and leave the same storage. Consequently both forms of
`erase` and the three forms of `insert` return for `T` and for `T2` with the
same size and the same sequence of elements. -/
theorem C16_raw_and_element_wise_agree (T T2 : Traits) (hT : T.has_trivial_assign = true)
    (hT2 : T2.has_trivial_assign = false) (s : static_vector Value Capacity)
    (hf : s.fuel = none) :
    (∀ first last dst, dst ≤ first →
      move T first last dst s = memmove dst first (last - first) s ∧
      move T2 first last dst s = std_copy (Range.self first) (last - first) dst s ∧
      ∃ s1 s2, move T first last dst s = .returned () s1 ∧
        move T2 first last dst s = .returned () s2 ∧ s1.m_storage = s2.m_storage) ∧
    (∀ first last dst_end, first ≤ last → last ≤ dst_end →
      move_backward T first last dst_end s
        = memmove (dst_end - (last - first)) first (last - first) s ∧
      move_backward T2 first last dst_end s = std_copy_backward first last dst_end s ∧
      ∃ s1 s2, move_backward T first last dst_end s = .returned () s1 ∧
        move_backward T2 first last dst_end s = .returned () s2 ∧
        s1.m_storage = s2.m_storage) ∧
    (∀ p, p < s.size →
      ∃ s1 s2, erase T p s = .returned () s1 ∧ erase T2 p s = .returned () s2 ∧
        s1.size = s2.size ∧ s1.elements = s2.elements) ∧
    (∀ a b, a ≤ b → b < s.size →
      ∃ s1 s2, erase_range T a b s = .returned () s1 ∧
        erase_range T2 a b s = .returned () s2 ∧
        s1.size = s2.size ∧ s1.elements = s2.elements) ∧
    (∀ p v, p ≤ s.size → s.size < Capacity →
      ∃ s1 s2, insert T p (ValueRef.value v) s = .returned () s1 ∧
        insert T2 p (ValueRef.value v) s = .returned () s2 ∧
        s1.size = s2.size ∧ s1.elements = s2.elements) ∧
    (∀ p k v, p ≤ s.size → s.size + k ≤ Capacity →
      ∃ s1 s2, insert_n T p k (ValueRef.value v) s = .returned () s1 ∧
        insert_n T2 p k (ValueRef.value v) s = .returned () s2 ∧
        s1.size = s2.size ∧ s1.elements = s2.elements) ∧
    (∀ p kind items, p ≤ s.size → s.size + items.length ≤ Capacity →
      ∃ s1 s2, insert_range T p kind items s = .returned () s1 ∧
        insert_range T2 p kind items s = .returned () s2 ∧
        s1.size = s2.size ∧ s1.elements = s2.elements) := by
  unfold size
  refine ⟨?_, ?_, ?_, ?_, ?_, ?_, ?_⟩
  · intro first last dst hd
    have h1 := move_content T first last dst s hd
    have h2 := move_content T2 first last dst s hd
    obtain ⟨s1, e1⟩ := sat_total h1 (fun _ hn => hn hf) (fun _ hn => hn)
    obtain ⟨s2, e2⟩ := sat_total h2 (fun _ hn => hn hf) (fun _ hn => hn)
    refine ⟨by simp [move, hT], by simp [move, hT2], s1, s2, e1, e2, ?_⟩
    rw [(sat_returned h1 e1).1, (sat_returned h2 e2).1]
  · intro first last dst_end hl hd
    have h1 := move_backward_content T first last dst_end s (by omega)
    have h2 := move_backward_content T2 first last dst_end s (by omega)
    obtain ⟨s1, e1⟩ := sat_total h1 (fun _ hn => hn hf) (fun _ hn => hn)
    obtain ⟨s2, e2⟩ := sat_total h2 (fun _ hn => hn hf) (fun _ hn => hn)
    refine ⟨by simp [move_backward, hT], by simp [move_backward, hT2], s1, s2, e1, e2, ?_⟩
    rw [(sat_returned h1 e1).1, (sat_returned h2 e2).1]
  · intro p hp
    have h1 := erase_sat T p s hp
    have h2 := erase_sat T2 p s hp
    obtain ⟨s1, e1⟩ := sat_total h1 (fun _ hn => hn hf) (fun _ hn => hn)
    obtain ⟨s2, e2⟩ := sat_total h2 (fun _ hn => hn hf) (fun _ hn => hn)
    obtain ⟨a1, a2, _⟩ := sat_returned h1 e1
    obtain ⟨b1, b2, _⟩ := sat_returned h2 e2
    refine ⟨s1, s2, e1, e2, by rw [a1, b1], elements_congr s1 s2 (by rw [a1, b1]) ?_⟩
    intro i hi
    rw [a2 i (by omega), b2 i (by omega)]
  · intro a b hab hb
    have h1 := erase_range_sat T a b s hab hb
    have h2 := erase_range_sat T2 a b s hab hb
    obtain ⟨s1, e1⟩ := sat_total h1 (fun _ hn => hn hf) (fun _ hn => hn)
    obtain ⟨s2, e2⟩ := sat_total h2 (fun _ hn => hn hf) (fun _ hn => hn)
    obtain ⟨a1, a2, _⟩ := sat_returned h1 e1
    obtain ⟨b1, b2, _⟩ := sat_returned h2 e2
    refine ⟨s1, s2, e1, e2, by rw [a1, b1], elements_congr s1 s2 (by rw [a1, b1]) ?_⟩
    intro i hi
    rw [a2 i (by omega), b2 i (by omega)]
  · intro p v hp hc
    have h1 := insert_storage T p v s hp (by omega)
    have h2 := insert_storage T2 p v s hp (by omega)
    obtain ⟨s1, e1⟩ := sat_total h1 (fun _ hn => hn hf) (fun _ hn => hn)
    obtain ⟨s2, e2⟩ := sat_total h2 (fun _ hn => hn hf) (fun _ hn => hn)
    obtain ⟨a1, a2, _⟩ := sat_returned h1 e1
    obtain ⟨b1, b2, _⟩ := sat_returned h2 e2
    exact ⟨s1, s2, e1, e2, by rw [a2, b2],
      elements_congr s1 s2 (by rw [a2, b2]) (fun i _ => by rw [a1, b1])⟩
  · intro p k v hp hc
    have h1 := insert_n_storage T p k v s hp hc
    have h2 := insert_n_storage T2 p k v s hp hc
    obtain ⟨s1, e1⟩ := sat_total h1 (fun _ hn => hn hf) (fun _ hn => hn)
    obtain ⟨s2, e2⟩ := sat_total h2 (fun _ hn => hn hf) (fun _ hn => hn)
    obtain ⟨a1, a2, _⟩ := sat_returned h1 e1
    obtain ⟨b1, b2, _⟩ := sat_returned h2 e2
    exact ⟨s1, s2, e1, e2, by rw [a2, b2],
      elements_congr s1 s2 (by rw [a2, b2]) (fun i _ => by rw [a1, b1])⟩
  · intro p kind items hp hc
    have h1 := insert_range_storage T p kind items s hp hc
    have h2 := insert_range_storage T2 p kind items s hp hc
    obtain ⟨s1, e1⟩ := sat_total h1 (fun _ hn => hn hf) (fun _ hn => hn)
    obtain ⟨s2, e2⟩ := sat_total h2 (fun _ hn => hn hf) (fun _ hn => hn)
    obtain ⟨a1, a2, _⟩ := sat_returned h1 e1
    obtain ⟨b1, b2, _⟩ := sat_returned h2 e2
    exact ⟨s1, s2, e1, e2, by rw [a2, b2],
      elements_congr s1 s2 (by rw [a2, b2]) (fun i _ => by rw [a1, b1])⟩

/-- C16 at a concrete input: on `{1,2,3,4,5}` the overlapping moves
`move(begin() + 2, end(), begin() + 1)` and
`move_backward(begin() + 1, begin() + 4, end())` leave the same slots on the
raw and on the element-wise path. -/
theorem C16_raw_and_element_wise_agree_witness :
    (∃ s1 s2, move Traits.raw 2 5 1 (of_list 6 [1, 2, 3, 4, 5] none) = .returned () s1 ∧
      move Traits.element_wise 2 5 1 (of_list 6 [1, 2, 3, 4, 5] none) = .returned () s2 ∧
      s1.m_storage = s2.m_storage) ∧
    (move Traits.raw 2 5 1 (of_list 6 [1, 2, 3, 4, 5] none)).state.slots
      = [some 1, some 3, some 4, some 5, some 5, none] ∧
    (move_backward Traits.raw 1 4 5 (of_list 6 [1, 2, 3, 4, 5] none)).state.slots
      = [some 1, some 2, some 2, some 3, some 4, none] ∧
    (move_backward Traits.element_wise 1 4 5 (of_list 6 [1, 2, 3, 4, 5] none)).state.slots
      = [some 1, some 2, some 2, some 3, some 4, none] :=
  ⟨((C16_raw_and_element_wise_agree Traits.raw Traits.element_wise rfl rfl
      (of_list 6 [1, 2, 3, 4, 5] none) rfl).1 2 5 1 (by decide)).2.2,
   rfl, rfl, rfl⟩

/-! ### Precondition checks before storage is touched (C11) -/

theorem sat_kind_bind {α β σ : Type} {o : Outcome α σ} {f : α → σ → Outcome β σ}
    {Qr : β → σ → Prop} {Qt : σ → Prop} {Qa : Assertion → σ → Prop}
    (h : sat_kind o (fun a s => sat_kind (f a s) Qr Qt Qa) Qt Qa) :
    sat_kind (o.bind f) Qr Qt Qa := by
  cases o <;> simpa [Outcome.bind, sat_kind] using h

theorem sat_kind_mono {α σ : Type} {o : Outcome α σ} {Qr Qr2 : α → σ → Prop}
    {Qt Qt2 : σ → Prop} {Qa Qa2 : Assertion → σ → Prop}
    (h : sat_kind o Qr Qt Qa) (hr : ∀ a s, Qr a s → Qr2 a s) (ht : ∀ s, Qt s → Qt2 s)
    (ha : ∀ a s, Qa a s → Qa2 a s) : sat_kind o Qr2 Qt2 Qa2 := by
  cases o with
  | returned a s => exact hr a s h
  | threw e s => exact ht s h
  | assertion_failed a s => exact ha a s h

theorem sat_kind_of_sat {α σ : Type} {o : Outcome α σ} {Qr : α → σ → Prop}
    {Qt : σ → Prop} {Qa : Assertion → σ → Prop}
    (h : o.sat Qr Qt (fun _ => False)) : sat_kind o Qr Qt Qa := by
  cases o with
  | returned a s => exact h
  | threw e s => exact h
  | assertion_failed a s => exact absurd h id

theorem sat_kind_assertion {α σ : Type} {o : Outcome α σ} {Qr : α → σ → Prop}
    {Qt : σ → Prop} {Qa : Assertion → σ → Prop} (h : sat_kind o Qr Qt Qa)
    {a : Assertion} {s : σ} (ho : o = .assertion_failed a s) : Qa a s := by
  subst ho; exact h

theorem sat_kind_returned {α σ : Type} {o : Outcome α σ} {Qr : α → σ → Prop}
    {Qt : σ → Prop} {Qa : Assertion → σ → Prop} (h : sat_kind o Qr Qt Qa)
    {a : α} {s : σ} (ho : o = .returned a s) : Qr a s := by
  subst ho; exact h

theorem sat_kind_threw {α σ : Type} {o : Outcome α σ} {Qr : α → σ → Prop}
    {Qt : σ → Prop} {Qa : Assertion → σ → Prop} (h : sat_kind o Qr Qt Qa)
    {e : Exception} {s : σ} (ho : o = .threw e s) : Qt s := by
  subst ho; exact h

theorem bind_never {α β σ : Type} {o : Outcome α σ} {f : α → σ → Outcome β σ}
    {Qr : α → σ → Prop} {Qt : σ → Prop} {Qa : Assertion → σ → Prop}
    (h : o.sat Qr Qt (fun _ => False))
    (hf : ∀ a s, sat_kind (f a s) (fun _ _ => True) (fun _ => True) Qa) :
    sat_kind (o.bind f) (fun _ _ => True) (fun _ => True) Qa := by
  cases o with
  | returned a s => exact hf a s
  | threw e s => trivial
  | assertion_failed a s => exact absurd h id

theorem returned_never {α σ : Type} (a : α) (s : σ) {Qa : Assertion → σ → Prop} :
    sat_kind (Outcome.returned a s) (fun _ _ => True) (fun _ => True) Qa := trivial

theorem insert_in_the_middle_never (T : Traits) (p : Nat) (kind : IteratorKind)
    (items : List Value) (count : Nat) (s : static_vector Value Capacity)
    (Qa : Assertion → static_vector Value Capacity → Prop) :
    sat_kind (insert_in_the_middle T p kind items count s) (fun _ _ => True) (fun _ => True)
      Qa := by
  unfold insert_in_the_middle
  simp only
  split_ifs
  · refine bind_never (uninitialized_copy_size T _ _ _ _) (fun _ s1 => ?_)
    refine bind_never (move_backward_size T _ _ _ _) (fun _ s3 => ?_)
    exact sat_kind_mono (sat_kind_of_sat (copy_size T _ _ _ _)) (fun _ _ _ => trivial)
      (fun _ _ => trivial) (fun _ _ h => h)
  · refine bind_never (uninitialized_copy_size T _ _ _ _) (fun _ s1 => ?_)
    refine bind_never (uninitialized_copy_size T _ _ _ _) (fun _ s3 => ?_)
    exact sat_kind_mono (sat_kind_of_sat (copy_size T _ _ _ _)) (fun _ _ _ => trivial)
      (fun _ _ => trivial) (fun _ _ h => h)

theorem push_back_checks_first (T : Traits) (x : ValueRef Value)
    (s : static_vector Value Capacity) :
    sat_kind (push_back T x s) (fun _ _ => True) (fun _ => True) (fun _ s2 => s2 = s) := by
  unfold push_back check_capacity
  split_ifs
  · simp only [Outcome.bind]
    exact bind_never (uninitialized_fill_size T _ _ _) (fun _ _ => returned_never _ _)
  · rfl

theorem pop_back_checks_first (T : Traits) (s : static_vector Value Capacity) :
    sat_kind (pop_back T s) (fun _ _ => True) (fun _ => True) (fun _ s2 => s2 = s) := by
  unfold pop_back check_empty
  split_ifs
  · trivial
  · rfl

theorem resize_checks_first [Inhabited Value] (T : Traits) (count : Nat)
    (s : static_vector Value Capacity) :
    sat_kind (resize T count s) (fun _ _ => True) (fun _ => True) (fun _ s2 => s2 = s) := by
  unfold resize check_capacity
  split_ifs
  · trivial
  · simp only [Outcome.bind]
    exact bind_never (construct_size T _ _ _) (fun _ _ => returned_never _ _)
  · rfl

theorem resize_value_checks_first (T : Traits) (count : Nat) (x : ValueRef Value)
    (s : static_vector Value Capacity) :
    sat_kind (resize_value T count x s) (fun _ _ => True) (fun _ => True)
      (fun _ s2 => s2 = s) := by
  unfold resize_value check_capacity
  split_ifs
  · trivial
  · simp only [Outcome.bind]
    exact bind_never (std_uninitialized_fill_size T _ _ _ _) (fun _ _ => returned_never _ _)
  · rfl

theorem insert_checks_first (T : Traits) (p : Nat) (x : ValueRef Value)
    (s : static_vector Value Capacity) :
    sat_kind (insert T p x s) (fun _ _ => True) (fun _ => True) (fun _ s2 => s2 = s) := by
  unfold insert
  by_cases h1 : p ≤ s.m_size
  swap
  · simp only [check_iterator_end_eq, h1, if_false, Outcome.bind]; rfl
  by_cases h2 : s.m_size + 1 ≤ Capacity
  swap
  · simp only [check_iterator_end_eq, check_capacity, h1, h2, if_true, if_false, Outcome.bind]
    rfl
  simp only [check_iterator_end_eq, check_capacity, h1, h2, if_true, Outcome.bind]
  split_ifs
  · exact bind_never (uninitialized_fill_size T _ _ _) (fun _ _ => returned_never _ _)
  · refine bind_never (uninitialized_fill_size T _ _ _) (fun _ s3 => ?_)
    refine bind_never (move_backward_size T _ _ _ _) (fun _ s5 => ?_)
    exact sat_kind_mono (sat_kind_of_sat (fill_size T _ _ _)) (fun _ _ _ => trivial)
      (fun _ _ => trivial) (fun _ _ h => h)

theorem insert_n_checks_first (T : Traits) (p k : Nat) (x : ValueRef Value)
    (s : static_vector Value Capacity) :
    sat_kind (insert_n T p k x s) (fun _ _ => True) (fun _ => True) (fun _ s2 => s2 = s) := by
  unfold insert_n
  by_cases h1 : p ≤ s.m_size
  swap
  · simp only [check_iterator_end_eq, h1, if_false, Outcome.bind]; rfl
  by_cases h2 : s.m_size + k ≤ Capacity
  swap
  · simp only [check_iterator_end_eq, check_capacity, h1, h2, if_true, if_false, Outcome.bind]
    rfl
  simp only [check_iterator_end_eq, check_capacity, h1, h2, if_true, Outcome.bind]
  split_ifs
  · exact bind_never (std_uninitialized_fill_size T _ _ _ _) (fun _ _ => returned_never _ _)
  · refine bind_never (uninitialized_copy_size T _ _ _ _) (fun _ s3 => ?_)
    refine bind_never (move_backward_size T _ _ _ _) (fun _ s5 => ?_)
    exact sat_kind_mono (sat_kind_of_sat (std_fill_n_size _ _ _ _)) (fun _ _ _ => trivial)
      (fun _ _ => trivial) (fun _ _ h => h)
  · refine bind_never (std_uninitialized_fill_size T _ _ _ _) (fun _ s3 => ?_)
    refine bind_never (uninitialized_copy_size T _ _ _ _) (fun _ s5 => ?_)
    exact sat_kind_mono (sat_kind_of_sat (std_fill_n_size _ _ _ _)) (fun _ _ _ => trivial)
      (fun _ _ => trivial) (fun _ _ h => h)

theorem erase_checks_first (T : Traits) (p : Nat) (s : static_vector Value Capacity) :
    sat_kind (erase T p s) (fun _ _ => True) (fun _ => True) (fun _ s2 => s2 = s) := by
  unfold erase check_iterator_end_neq
  split_ifs
  · simp only [Outcome.bind]
    exact bind_never (move_size T _ _ _ _) (fun _ _ => returned_never _ _)
  · rfl

theorem erase_range_checks_first (T : Traits) (a b : Nat)
    (s : static_vector Value Capacity) :
    sat_kind (erase_range T a b s) (fun _ _ => True) (fun _ => True)
      (fun _ s2 => s2 = s) := by
  unfold erase_range
  by_cases h1 : a < s.m_size
  swap
  · simp only [check_iterator_end_neq, h1, if_false, Outcome.bind]; rfl
  by_cases h2 : b < s.m_size
  swap
  · simp only [check_iterator_end_neq, h1, h2, if_true, if_false, Outcome.bind]; rfl
  simp only [check_iterator_end_neq, h1, h2, if_true, Outcome.bind]
  split_ifs
  · exact bind_never (move_size T _ _ _ _) (fun _ _ => returned_never _ _)
  · rfl

theorem insert_range_checks_first (T : Traits) (p : Nat) (kind : IteratorKind)
    (items : List Value) (s : static_vector Value Capacity)
    (h : kind.is_random_access = true ∨ p ≠ s.m_size) :
    sat_kind (insert_range T p kind items s) (fun _ _ => True) (fun _ => True)
      (fun _ s2 => s2 = s) := by
  unfold insert_range
  by_cases h1 : p ≤ s.m_size
  swap
  · split
    · simp only [insert_dispatch_random_access, check_iterator_end_eq, h1, if_false,
        Outcome.bind]
      rfl
    · simp only [insert_dispatch_not_random_access, check_iterator_end_eq, h1, if_false,
        Outcome.bind]
      rfl
  by_cases h2 : s.m_size + items.length ≤ Capacity
  · split
    · simp only [insert_dispatch_random_access, check_iterator_end_eq, check_capacity, h1, h2,
        if_true, Outcome.bind]
      split_ifs
      · exact bind_never (uninitialized_copy_size T _ _ _ _) (fun _ _ => returned_never _ _)
      · exact insert_in_the_middle_never T p kind items _ s _
    · rename_i hk
      have h3 : p ≠ s.m_size := h.resolve_left hk
      simp only [insert_dispatch_not_random_access, check_iterator_end_eq, check_capacity, h1,
        h2, h3, if_true, if_false, Outcome.bind]
      exact insert_in_the_middle_never T p kind items _ s _
  · split
    · simp only [insert_dispatch_random_access, check_iterator_end_eq, check_capacity, h1, h2,
        if_true, if_false, Outcome.bind]
      rfl
    · rename_i hk
      have h3 : p ≠ s.m_size := h.resolve_left hk
      simp only [insert_dispatch_not_random_access, check_iterator_end_eq, check_capacity, h1,
        h2, h3, if_true, if_false, Outcome.bind]
      rfl

theorem uninitialized_fill_log (P : Event → Prop) (T : Traits) (dst : Nat)
    (x : ValueRef Value) (s : static_vector Value Capacity)
    (hP : P ⟨.construct, dst, s.m_size⟩ ∧ P ⟨.raw_write, dst, s.m_size⟩) :
    (uninitialized_fill T dst x s).sat (fun _ s2 => log_ext P s s2 ∧ s2.m_size = s.m_size)
      (fun s2 => s2 = s) (fun _ => False) := by
  unfold uninitialized_fill
  split
  · exact ⟨raw_copy_log P _ _ _ s (fun j hj => by
      have : j = 0 := by omega
      subst this
      exact hP.2), rfl⟩
  · exact placement_new_log P dst _ s hP.1

theorem uninitialized_copy_checked_loop_frame (T : Traits) (dest max_count : Nat) :
    ∀ (items : List Value) (count : Nat) (s : static_vector Value Capacity),
      (uninitialized_copy_checked_loop T dest max_count items count s).sat
        (fun _ s2 => ∀ i, i < dest → s2.m_storage i = s.m_storage i)
        (fun s2 => ∀ i, i < dest → s2.m_storage i = s.m_storage i)
        (fun _ => False) := by
  intro items
  induction items with
  | nil => intro count s; exact fun _ _ => rfl
  | cons v rest ih =>
    intro count s
    unfold uninitialized_copy_checked_loop
    split_ifs
    · exact fun _ _ => rfl
    · have h1 := uninitialized_fill_sat T (dest + count) (ValueRef.value v) s
      cases ho : uninitialized_fill T (dest + count) (ValueRef.value v) s with
      | returned a s1 =>
        obtain ⟨h2, _, _⟩ := sat_returned h1 ho
        have h3 : ∀ i, i < dest → s1.m_storage i = s.m_storage i := by
          intro i hi
          rw [h2]
          simp only [write]
          rw [if_neg (by omega)]
        exact sat_mono (ih (count + 1) s1) (fun _ _ h i hi => by rw [h i hi, h3 i hi])
          (fun _ h i hi => by rw [h i hi, h3 i hi]) (fun _ h => h)
      | threw e s1 =>
        have h2 : s1 = s := (sat_threw h1 ho).1
        subst h2
        intro i hi
        rw [destroy_storage]
        split
        · rfl
        · simp only [wipe]
          rw [if_neg (by omega)]
      | assertion_failed a s1 =>
        rw [ho] at h1
        exact h1

theorem uninitialized_copy_checked_loop_flag (T : Traits) (dest max_count : Nat) :
    ∀ (items : List Value) (count : Nat) (s : static_vector Value Capacity),
      (uninitialized_copy_checked_loop T dest max_count items count s).sat
        (fun r s2 => (r.1 = true ↔ (items = [] ∨ count + items.length ≤ max_count)) ∧
          (r.1 = true → r.2 = count + items.length) ∧ (s.fuel = none → s2.fuel = none))
        (fun _ => s.fuel ≠ none) (fun _ => False) := by
  intro items
  induction items with
  | nil => intro count s; exact ⟨by simp, fun _ => rfl, fun h => h⟩
  | cons v rest ih =>
    intro count s
    unfold uninitialized_copy_checked_loop
    split_ifs with h0
    · refine ⟨?_, fun h => by simp at h, fun h => h⟩
      simp only [List.length_cons, Bool.false_eq_true, false_iff, not_or]
      exact ⟨by simp, by omega⟩
    · have h1 := uninitialized_fill_sat T (dest + count) (ValueRef.value v) s
      cases ho : uninitialized_fill T (dest + count) (ValueRef.value v) s with
      | returned a s1 =>
        obtain ⟨_, _, h4⟩ := sat_returned h1 ho
        refine sat_mono (ih (count + 1) s1) ?_ (fun _ h hn => h (h4 hn)) (fun _ h => h)
        rintro r s2 ⟨h5, h6, h7⟩
        refine ⟨?_, fun h => by rw [h6 h, List.length_cons]; omega, fun h => h7 (h4 h)⟩
        rw [h5]
        simp only [List.length_cons]
        constructor
        · rintro (h | h)
          · right; rw [h]; simp only [List.length_nil]; omega
          · right; omega
        · rintro (h | h)
          · simp at h
          · right; omega
      | threw e s1 =>
        exact (sat_threw h1 ho).2
      | assertion_failed a s1 =>
        rw [ho] at h1
        exact h1

theorem uninitialized_copy_checked_loop_log (P Pd : Event → Prop) (T : Traits)
    (dest max_count : Nat) (hPd : ∀ e, P e → Pd e) :
    ∀ (items : List Value) (count : Nat) (s : static_vector Value Capacity),
      (∀ j, count ≤ j → j < max_count →
        P ⟨.construct, dest + j, s.m_size⟩ ∧ P ⟨.raw_write, dest + j, s.m_size⟩) →
      (∀ j, j < max_count → Pd ⟨.destroy, dest + j, s.m_size⟩) →
      (uninitialized_copy_checked_loop T dest max_count items count s).sat
        (fun _ s2 => log_ext P s s2 ∧ s2.m_size = s.m_size)
        (fun s2 => log_ext Pd s s2 ∧ s2.m_size = s.m_size) (fun _ => False) := by
  intro items
  induction items with
  | nil => intro count s _ _; exact ⟨log_ext_refl P s, rfl⟩
  | cons v rest ih =>
    intro count s hP hD
    unfold uninitialized_copy_checked_loop
    split_ifs with h0
    · exact ⟨log_ext_refl P s, rfl⟩
    · have h1 := uninitialized_fill_log P T (dest + count) (ValueRef.value v) s
        (hP count (le_refl _) (by omega))
      cases ho : uninitialized_fill T (dest + count) (ValueRef.value v) s with
      | returned a s1 =>
        obtain ⟨h2, h3⟩ := sat_returned h1 ho
        have hP1 : ∀ j, count + 1 ≤ j → j < max_count →
            P ⟨.construct, dest + j, s1.m_size⟩ ∧ P ⟨.raw_write, dest + j, s1.m_size⟩ := by
          intro j hj1 hj2
          rw [h3]
          exact hP j (by omega) hj2
        have hD1 : ∀ j, j < max_count → Pd ⟨.destroy, dest + j, s1.m_size⟩ := by
          intro j hj
          rw [h3]
          exact hD j hj
        refine sat_mono (ih (count + 1) s1 hP1 hD1) ?_ ?_ (fun _ h => h)
        · rintro _ s2 ⟨h4, h5⟩
          exact ⟨log_ext_trans h2 h4, by rw [h5, h3]⟩
        · rintro s2 ⟨h4, h5⟩
          obtain ⟨e1, h6, h7⟩ := h2
          exact ⟨log_ext_trans ⟨e1, h6, fun e he => hPd e (h7 e he)⟩ h4, by rw [h5, h3]⟩
      | threw e s1 =>
        have h2 : s1 = s := sat_threw h1 ho
        subst h2
        refine ⟨⟨_, destroy_log T dest (dest + count) s1, fun e he => ?_⟩, destroy_size _ _ _ _⟩
        split at he
        · simp at he
        · obtain ⟨j, hj, rfl⟩ := List.mem_map.1 he
          exact hD j (by have := List.mem_range.1 hj; omega)
      | assertion_failed a s1 =>
        rw [ho] at h1
        exact h1

theorem sat_and_never {α σ : Type} {o : Outcome α σ} {Qr Qr2 : α → σ → Prop}
    {Qt Qt2 : σ → Prop} (h1 : o.sat Qr Qt (fun _ => False))
    (h2 : o.sat Qr2 Qt2 (fun _ => False)) :
    o.sat (fun a s => Qr a s ∧ Qr2 a s) (fun s => Qt s ∧ Qt2 s) (fun _ => False) := by
  cases o with
  | returned a s => exact ⟨h1, h2⟩
  | threw e s => exact ⟨h1, h2⟩
  | assertion_failed a s => exact h1

theorem uninitialized_copy_checked_loop_filled (T : Traits) (dest max_count : Nat) :
    ∀ (items : List Value) (count : Nat) (s : static_vector Value Capacity),
      (uninitialized_copy_checked_loop T dest max_count items count s).sat
        (fun _ s2 => s2.m_storage = blit (fun j => items[j]?) (dest + count)
          (min items.length (max_count - count)) s.m_storage)
        (fun _ => True) (fun _ => False) := by
  intro items
  induction items with
  | nil =>
    intro count s
    simp only [uninitialized_copy_checked_loop, Outcome.sat, List.length_nil, Nat.zero_min,
      blit_zero]
  | cons v rest ih =>
    intro count s
    unfold uninitialized_copy_checked_loop
    split_ifs with h0
    · have e : min (v :: rest).length (max_count - count) = 0 := by
        rw [Nat.sub_eq_zero_of_le h0]
        exact Nat.min_zero _
      simp only [Outcome.sat, e, blit_zero]
    · have h1 := uninitialized_fill_sat T (dest + count) (ValueRef.value v) s
      cases ho : uninitialized_fill T (dest + count) (ValueRef.value v) s with
      | returned a s1 =>
        obtain ⟨h2, _, _⟩ := sat_returned h1 ho
        refine sat_mono (ih (count + 1) s1) ?_ (fun _ _ => trivial) (fun _ h => h)
        intro _ s2 h3
        rw [h3, h2]
        funext i
        simp only [blit, write, ValueRef.read, List.length_cons]
        by_cases hi : i = dest + count
        · subst hi
          rw [if_neg (by omega), if_pos rfl, if_pos (by omega)]
          simp
        · by_cases hj : dest + (count + 1) ≤ i ∧
              i < dest + (count + 1) + min rest.length (max_count - (count + 1))
          · rw [if_pos hj, if_pos (by omega)]
            have e : i - (dest + count) = (i - (dest + (count + 1))) + 1 := by omega
            rw [e, List.getElem?_cons_succ]
          · rw [if_neg hj, if_neg hi, if_neg (by omega)]
      | threw e s1 => trivial
      | assertion_failed a s1 =>
        rw [ho] at h1
        exact h1

theorem uninitialized_copy_checked_loop_trace (T : Traits) (dest max_count : Nat)
    (kd : EventKind) (hk : kd = if T.has_trivial_copy then .raw_write else .construct) :
    ∀ (items : List Value) (count : Nat) (s : static_vector Value Capacity),
      (uninitialized_copy_checked_loop T dest max_count items count s).sat
        (fun _ s2 => s2.log = s.log ++
          (List.range (min items.length (max_count - count))).map
            (fun j => (⟨kd, dest + count + j, s.m_size⟩ : Event)))
        (fun _ => True) (fun _ => False) := by
  intro items
  induction items with
  | nil =>
    intro count s
    simp [uninitialized_copy_checked_loop, Outcome.sat]
  | cons v rest ih =>
    intro count s
    unfold uninitialized_copy_checked_loop
    by_cases h0 : max_count ≤ count
    · rw [if_pos h0]
      have e : min (v :: rest).length (max_count - count) = 0 := by
        rw [Nat.sub_eq_zero_of_le h0]
        exact Nat.min_zero _
      simp only [Outcome.sat, e, List.range_zero, List.map_nil, List.append_nil]
    · rw [if_neg h0]
      have e : min (v :: rest).length (max_count - count)
          = min rest.length (max_count - (count + 1)) + 1 := by
        simp only [List.length_cons]
        omega
      have h1 : (uninitialized_fill T (dest + count) (ValueRef.value v) s).sat
          (fun _ s1 => s1.log = s.log ++ [⟨kd, dest + count, s.m_size⟩] ∧
            s1.m_size = s.m_size)
          (fun _ => True) (fun _ => False) := by
        unfold uninitialized_fill
        by_cases hT : T.has_trivial_copy = true
        · rw [if_pos hT] at hk ⊢
          subst hk
          exact ⟨by simp [raw_copy, List.range_succ], rfl⟩
        · rw [if_neg hT] at hk ⊢
          subst hk
          unfold placement_new
          cases tick s.fuel with
          | none => trivial
          | some f => exact ⟨rfl, rfl⟩
      cases ho : uninitialized_fill T (dest + count) (ValueRef.value v) s with
      | returned a s1 =>
        obtain ⟨h2, h3⟩ := sat_returned h1 ho
        refine sat_mono (ih (count + 1) s1) ?_ (fun _ _ => trivial) (fun _ h => h)
        intro _ s2 h4
        rw [h4, h2, h3, e, List.range_succ_eq_map, List.map_cons, List.map_map,
          List.append_assoc]
        congr 1
        simp only [List.singleton_append, Nat.add_zero]
        congr 1
        apply List.map_congr_left
        intro j _
        simp only [Function.comp]
        congr 1
        omega
      | threw e s1 => trivial
      | assertion_failed a s1 =>
        rw [ho] at h1
        exact h1

theorem insert_range_forward_at_end (T : Traits) (kind : IteratorKind) (items : List Value)
    (s : static_vector Value Capacity) (hk : kind.is_random_access = false)
    (hs : s.m_size ≤ Capacity) :
    sat_kind (insert_range T s.m_size kind items s) (fun _ _ => True) (fun _ => True)
      (fun a s2 => a = .capacity ∧ Capacity < s.m_size + items.length ∧
        s2.m_size = s.m_size ∧ (∀ i, i < s.m_size → s2.m_storage i = s.m_storage i) ∧
        log_ext (fun e => (e.kind = .construct ∨ e.kind = .raw_write) ∧
          s.m_size ≤ e.index ∧ e.index < Capacity) s s2 ∧
        s2.m_storage = blit (fun j => items[j]?) s.m_size (Capacity - s.m_size)
          s.m_storage ∧
        s2.log = s.log ++ (List.range (Capacity - s.m_size)).map
          (fun j => (⟨if T.has_trivial_copy then .raw_write else .construct,
            s.m_size + j, s.m_size⟩ : Event))) := by
  unfold insert_range
  rw [hk]
  simp only [Bool.false_eq_true, if_false, insert_dispatch_not_random_access,
    check_iterator_end_eq, le_refl, if_true, Outcome.bind, uninitialized_copy_checked]
  apply sat_kind_bind
  refine sat_kind_mono (sat_kind_of_sat (sat_and_never (sat_and_never (sat_and_never
    (sat_and_never
    (uninitialized_copy_checked_loop_frame T s.m_size (Capacity - s.m_size) items 0 s)
    (uninitialized_copy_checked_loop_flag T s.m_size (Capacity - s.m_size) items 0 s))
    (uninitialized_copy_checked_loop_log
      (fun e => (e.kind = .construct ∨ e.kind = .raw_write) ∧
        s.m_size ≤ e.index ∧ e.index < Capacity)
      (fun _ => True) T s.m_size (Capacity - s.m_size) (fun _ _ => trivial) items 0 s
      (fun j _ hj => ⟨⟨Or.inl rfl, by simp, by simp only; omega⟩,
        ⟨Or.inr rfl, by simp, by simp only; omega⟩⟩)
      (fun _ _ => trivial)))
    (uninitialized_copy_checked_loop_filled T s.m_size (Capacity - s.m_size) items 0 s))
    (uninitialized_copy_checked_loop_trace T s.m_size (Capacity - s.m_size) _ rfl items 0
      s))) ?_ (fun _ _ => trivial) (fun _ _ h => h)
  rintro r s2 ⟨⟨⟨⟨h1, h2, h3, _⟩, h4, h5⟩, h8⟩, h9⟩
  unfold check_capacity
  by_cases h6 : r.1 = true
  · simp only [h6, if_true]
    rw [h3 h6, h5, if_pos]
    · trivial
    · rcases h2.1 h6 with h | h
      · rw [h]; simp only [List.length_nil]; omega
      · omega
  · simp only [h6, Bool.false_eq_true, if_false]
    rw [if_neg (by omega)]
    have h7 : ¬(0 + items.length ≤ Capacity - s.m_size) := fun h => h6 (h2.2 (Or.inr h))
    have e : min items.length (Capacity - s.m_size - 0) = Capacity - s.m_size := by omega
    refine ⟨rfl, by omega, h5, h1, h4, ?_, ?_⟩
    · rw [h8, e, Nat.add_zero]
    · rw [h9, e, Nat.add_zero]

/-- C11, as amended: apart from the range insert from a forward-only source at
`end()`, every listed operation (`push_back`, `pop_back`, both `resize`, the
single-value and the count `insert`, the range `insert` from a random-access
source anywhere and from a forward-only source in the middle, both `erase`)
that ends in a failed assertion leaves the state it was called on: no slot
event in the trace, storage and `m_size` unchanged. The range insert from a
forward-only source at `end()` checks the capacity while it copies: when it
ends in a failed assertion, that is the capacity assertion, the source was
longer than the free capacity, `m_size` and the slots `[0, size())` are
unchanged, the events of the call are constructions (or raw writes) at slots
in `[size(), Capacity)`, and the storage afterwards is the storage before the
call with the slots `size() + j`, for `j < Capacity - size()`, holding the
elements `j` of the source: each slot of `[size(), Capacity)` was built from
the source element of its place, and no other slot changed. The trace of the
call is exactly one construction (a raw write when copying is trivial) for
each slot of `[size(), Capacity)`, in ascending order. -/
theorem C11_checks_before_storage [Inhabited Value] (T : Traits)
    (s : static_vector Value Capacity) :
    (∀ x a s2, push_back T x s = .assertion_failed a s2 → s2 = s) ∧
    (∀ a s2, pop_back T s = .assertion_failed a s2 → s2 = s) ∧
    (∀ count a s2, resize T count s = .assertion_failed a s2 → s2 = s) ∧
    (∀ count x a s2, resize_value T count x s = .assertion_failed a s2 → s2 = s) ∧
    (∀ p x a s2, insert T p x s = .assertion_failed a s2 → s2 = s) ∧
    (∀ p k x a s2, insert_n T p k x s = .assertion_failed a s2 → s2 = s) ∧
    (∀ p kind items a s2, (kind.is_random_access = true ∨ p ≠ s.size) →
      insert_range T p kind items s = .assertion_failed a s2 → s2 = s) ∧
    (∀ p a s2, erase T p s = .assertion_failed a s2 → s2 = s) ∧
    (∀ first last a s2, erase_range T first last s = .assertion_failed a s2 → s2 = s) ∧
    (∀ kind items a s2, kind.is_random_access = false → s.size ≤ Capacity →
      insert_range T s.size kind items s = .assertion_failed a s2 →
      a = .capacity ∧ Capacity < s.size + items.length ∧ s2.size = s.size ∧
      (∀ i, i < s.size → s2.m_storage i = s.m_storage i) ∧
      log_ext (fun e => (e.kind = .construct ∨ e.kind = .raw_write) ∧
        s.size ≤ e.index ∧ e.index < Capacity) s s2 ∧
      s2.m_storage = blit (fun j => items[j]?) s.size (Capacity - s.size) s.m_storage ∧
      (∀ j, j < Capacity - s.size → s2.m_storage (s.size + j) = items[j]?) ∧
      (∀ i, Capacity ≤ i → s2.m_storage i = s.m_storage i) ∧
      s2.log = s.log ++ (List.range (Capacity - s.size)).map
        (fun j => (⟨if T.has_trivial_copy then .raw_write else .construct,
          s.size + j, s.size⟩ : Event))) :=
  ⟨fun x _ _ h => sat_kind_assertion (push_back_checks_first T x s) h,
   fun _ _ h => sat_kind_assertion (pop_back_checks_first T s) h,
   fun count _ _ h => sat_kind_assertion (resize_checks_first T count s) h,
   fun count x _ _ h => sat_kind_assertion (resize_value_checks_first T count x s) h,
   fun p x _ _ h => sat_kind_assertion (insert_checks_first T p x s) h,
   fun p k x _ _ h => sat_kind_assertion (insert_n_checks_first T p k x s) h,
   fun p kind items _ _ hk h =>
     sat_kind_assertion (insert_range_checks_first T p kind items s hk) h,
   fun p _ _ h => sat_kind_assertion (erase_checks_first T p s) h,
   fun first last _ _ h => sat_kind_assertion (erase_range_checks_first T first last s) h,
   fun kind items _ _ hk hs h => by
     unfold size at *
     obtain ⟨h1, h2, h3, h4, h5, h6, h7⟩ :=
       sat_kind_assertion (insert_range_forward_at_end T kind items s hk hs) h
     refine ⟨h1, h2, h3, h4, h5, h6, fun j hj => ?_, fun i hi => ?_, h7⟩
     · rw [h6]
       simp only [blit]
       rw [if_pos (by omega), Nat.add_sub_cancel_left]
     · rw [h6]
       simp only [blit]
       rw [if_neg (by omega)]⟩

/-- C11 fails as stated: `insert(end(), first, last)` with the forward-only source
`{7,8,9,10,11}` on `{1,2,3,4}` of capacity 8 ends in the capacity assertion
after it has constructed the slots 4 to 7; `m_size` is still 4. -/
theorem C11_counterexample :
    insert_range Traits.element_wise 4 IteratorKind.forward [7, 8, 9, 10, 11]
        (of_list 8 [1, 2, 3, 4] none)
      = .assertion_failed .capacity
        (insert_range Traits.element_wise 4 IteratorKind.forward [7, 8, 9, 10, 11]
          (of_list 8 [1, 2, 3, 4] none)).state ∧
    (of_list 8 [1, 2, 3, 4] none).slots
      = [some 1, some 2, some 3, some 4, none, none, none, none] ∧
    (insert_range Traits.element_wise 4 IteratorKind.forward [7, 8, 9, 10, 11]
        (of_list 8 [1, 2, 3, 4] none)).state.slots
      = [some 1, some 2, some 3, some 4, some 7, some 8, some 9, some 10] ∧
    (insert_range Traits.element_wise 4 IteratorKind.forward [7, 8, 9, 10, 11]
        (of_list 8 [1, 2, 3, 4] none)).state.log
      = [⟨.construct, 4, 4⟩, ⟨.construct, 5, 4⟩, ⟨.construct, 6, 4⟩, ⟨.construct, 7, 4⟩] ∧
    (insert_range Traits.element_wise 4 IteratorKind.forward [7, 8, 9, 10, 11]
        (of_list 8 [1, 2, 3, 4] none)).state.size = 4 ∧
    (insert_range Traits.element_wise 4 IteratorKind.forward [7, 8, 9, 10, 11]
        (of_list 8 [1, 2, 3, 4] none)).state.slots ≠ (of_list 8 [1, 2, 3, 4] none).slots :=
  ⟨rfl, rfl, rfl, rfl, rfl, by decide⟩

/-! ### Forward-only assign and the capacity (C12) -/

theorem assign_dispatch_loop_log (P : Event → Prop) :
    ∀ (items : List Value) (it : Nat) (s : static_vector Value Capacity), it ≤ s.m_size →
      (∀ i, it ≤ i → i < s.m_size → P ⟨.assign, i, s.m_size⟩) →
      (assign_dispatch_loop items it s).sat
        (fun _ s2 => log_ext P s s2 ∧ s2.m_size = s.m_size)
        (fun s2 => log_ext P s s2 ∧ s2.m_size = s.m_size) (fun _ => False) := by
  intro items
  induction items with
  | nil => intro it s _ _; exact ⟨log_ext_refl P s, rfl⟩
  | cons v rest ih =>
    intro it s hle hP
    unfold assign_dispatch_loop
    split_ifs with h0
    · exact ⟨log_ext_refl P s, rfl⟩
    · have hit : it < s.m_size := by omega
      · have h1 := assign_element_log P it (some v) s (hP it (le_refl _) hit)
        cases ho : assign_element it (some v) s with
        | returned a s1 =>
          obtain ⟨h2, h3⟩ := sat_returned h1 ho
          have hP1 : ∀ i, it + 1 ≤ i → i < s1.m_size → P ⟨.assign, i, s1.m_size⟩ := by
            intro i hi1 hi2
            rw [h3] at hi2 ⊢
            exact hP i (by omega) hi2
          refine sat_mono (ih (it + 1) s1 (by omega) hP1) ?_ ?_ (fun _ h => h)
          · rintro _ s2 ⟨h4, h5⟩
            exact ⟨log_ext_trans h2 h4, by rw [h5, h3]⟩
          · rintro s2 ⟨h4, h5⟩
            exact ⟨log_ext_trans h2 h4, by rw [h5, h3]⟩
        | threw e s1 =>
          have h2 : s1 = s := sat_threw h1 ho
          rw [h2]
          exact ⟨log_ext_refl P s, rfl⟩
        | assertion_failed a s1 =>
          rw [ho] at h1
          exact h1

theorem destroy_log_ext (P : Event → Prop) (T : Traits) (first last : Nat)
    (s : static_vector Value Capacity)
    (hP : ∀ j, j < last - first → P ⟨.destroy, first + j, s.m_size⟩) :
    log_ext P s (destroy T first last s) := by
  refine ⟨_, destroy_log T first last s, ?_⟩
  intro e he
  split_ifs at he with h
  · simp at he
  · obtain ⟨j, hj, rfl⟩ := List.mem_map.1 he
    exact hP j (List.mem_range.1 hj)

theorem log_ext_set_size {P : Event → Prop} {s s2 : static_vector Value Capacity} (n : Nat)
    (h : log_ext P s s2) : log_ext P s (set_size n s2) := h

theorem assign_forward_capacity (T : Traits) (items : List Value)
    (s : static_vector Value Capacity) (hs : s.m_size ≤ Capacity) :
    sat_kind (assign_dispatch_not_random_access T items s)
      (fun _ s2 => items.length ≤ Capacity ∧ log_ext (fun e => e.index < Capacity) s s2)
      (fun s2 => s.fuel ≠ none ∧ log_ext (fun e => e.index < Capacity) s s2)
      (fun a s2 => a = .capacity ∧ Capacity < items.length ∧
        log_ext (fun e => e.index < Capacity) s s2) := by
  unfold assign_dispatch_not_random_access
  apply sat_kind_bind
  refine sat_kind_mono (sat_kind_of_sat (sat_and_never
    (assign_dispatch_loop_content items 0 s (Nat.zero_le _))
    (assign_dispatch_loop_log (fun e => e.index < Capacity) items 0 s (Nat.zero_le _)
      (fun i _ hi => by simp only; omega)))) ?_ ?_ (fun _ _ h => h)
  · rintro r s1 ⟨⟨h1, _, h2, h3⟩, h4, _⟩
    subst h1
    simp only [Nat.zero_add, Nat.sub_zero, uninitialized_copy_checked]
    have hd : log_ext (fun e => e.index < Capacity) s1
        (destroy T (min items.length s.m_size) s1.m_size s1) :=
      destroy_log_ext _ T _ _ s1 (fun j hj => by simp only; omega)
    apply sat_kind_bind
    refine sat_kind_mono (sat_kind_of_sat (sat_and_never
      (uninitialized_copy_checked_loop_flag T (min items.length s.m_size)
        (Capacity - min items.length s.m_size) (items.drop (min items.length s.m_size)) 0
        (destroy T (min items.length s.m_size) s1.m_size s1))
      (uninitialized_copy_checked_loop_log (fun e => e.index < Capacity)
        (fun e => e.index < Capacity) T (min items.length s.m_size)
        (Capacity - min items.length s.m_size) (fun _ h => h)
        (items.drop (min items.length s.m_size)) 0
        (destroy T (min items.length s.m_size) s1.m_size s1)
        (fun j _ hj => ⟨by simp only; omega, by simp only; omega⟩)
        (fun j hj => by simp only; omega)))) ?_ ?_ (fun _ _ h => h)
    · rintro rr s3 ⟨⟨h5, h6, _⟩, h7, _⟩
      have h8 := log_ext_trans h4 (log_ext_trans hd h7)
      simp only [List.length_drop, Nat.zero_add] at h5 h6
      unfold check_capacity
      by_cases h9 : rr.1 = true
      · have h10 : items.length ≤ Capacity := by
          rcases h5.1 h9 with h | h
          · have := congrArg List.length h
            simp only [List.length_drop, List.length_nil] at this
            omega
          · omega
        simp only [h9, if_true]
        rw [h6 h9, if_pos (by omega)]
        exact ⟨h10, h8⟩
      · simp only [h9, Bool.false_eq_true, if_false]
        rw [if_neg (by omega)]
        refine ⟨rfl, ?_, h8⟩
        have h10 : ¬(items.length - min items.length s.m_size
            ≤ Capacity - min items.length s.m_size) := fun h => h9 (h5.2 (Or.inr h))
        omega
    · rintro s3 ⟨h5, h7, _⟩
      refine ⟨fun h => h5 ?_, log_ext_trans h4 (log_ext_trans hd h7)⟩
      rw [destroy_fuel]
      exact h3 h
  · rintro s1 ⟨⟨_, h1⟩, h2, _⟩
    exact ⟨h1, h2⟩

theorem sat_kind_state {α σ : Type} {o : Outcome α σ} {Qr : α → σ → Prop}
    {Qt : σ → Prop} {Qa : Assertion → σ → Prop} {Q : σ → Prop} (h : sat_kind o Qr Qt Qa)
    (hr : ∀ a s, Qr a s → Q s) (ht : ∀ s, Qt s → Q s) (ha : ∀ a s, Qa a s → Q s) :
    Q o.state := by
  cases o with
  | returned a s => exact hr a s h
  | threw e s => exact ht s h
  | assertion_failed a s => exact ha a s h

theorem sat_kind_cases {σ : Type} {o : Outcome Unit σ} {Qr : Unit → σ → Prop}
    {Qt : σ → Prop} {Qa : Assertion → σ → Prop} (h : sat_kind o Qr Qt Qa)
    (ht : ∀ s, ¬ Qt s) :
    (∃ s, o = .returned () s ∧ Qr () s) ∨ (∃ a s, o = .assertion_failed a s ∧ Qa a s) := by
  cases o with
  | returned a s => exact Or.inl ⟨s, rfl, h⟩
  | threw e s => exact absurd h (ht s)
  | assertion_failed a s => exact Or.inr ⟨a, s, rfl, h⟩

/-- C12: `assign(first, last)` from a forward-only source of length `L` into a
container with `size() <= Capacity`. Whenever the call returns, `L <= Capacity`,
`size() = L` and the elements are exactly the source. If no element operation
throws: with `L <= Capacity` the call returns (so a source of exactly `Capacity`
elements is accepted), and with `L > Capacity` it ends in the capacity
assertion. A failed assertion of the call is always the capacity assertion with
`L > Capacity`. In every outcome (return, assertion, exception) each slot event
the call adds to the trace, constructions included, is at an index below
`Capacity`. -/
theorem C12_forward_assign_capacity (T : Traits) (kind : IteratorKind) (items : List Value)
    (s : static_vector Value Capacity) (hk : kind.is_random_access = false)
    (hs : s.size ≤ Capacity) :
    (∀ s2, assign T kind items s = .returned () s2 →
      items.length ≤ Capacity ∧ s2.size = items.length ∧ s2.elements = items.map some) ∧
    (s.fuel = none → items.length ≤ Capacity →
      ∃ s2, assign T kind items s = .returned () s2) ∧
    (s.fuel = none → Capacity < items.length →
      ∃ s2, assign T kind items s = .assertion_failed .capacity s2) ∧
    (∀ a s2, assign T kind items s = .assertion_failed a s2 →
      a = .capacity ∧ Capacity < items.length) ∧
    log_ext (fun e => e.index < Capacity) s (assign T kind items s).state := by
  have e : assign T kind items s = assign_dispatch_not_random_access T items s := by
    unfold assign
    rw [hk]
    rfl
  have h := assign_forward_capacity T items s hs
  rw [← e] at h
  refine ⟨fun s2 ho => ?_, fun hf hc => ?_, fun hf hc => ?_, fun a s2 ho => ?_, ?_⟩
  · have h1 := (sat_kind_returned h ho).1
    obtain ⟨h3, h4, _⟩ := sat_returned (assign_storage T kind items s h1) ho
    exact ⟨h1, h4, elements_eq_of_storage s2 items h3 h4⟩
  · exact sat_total (assign_storage T kind items s hc) (fun _ hn => hn hf) (fun _ hn => hn)
  · rcases sat_kind_cases h (fun _ hn => hn.1 hf) with ⟨s2, _, h1, _⟩ | ⟨a, s2, h1, h2, _⟩
    · omega
    · exact ⟨s2, by rw [h1, h2]⟩
  · have h1 := sat_kind_assertion h ho
    exact ⟨h1.1, h1.2.1⟩
  · exact sat_kind_state h (fun _ _ h1 => h1.2) (fun _ h1 => h1.2) (fun _ _ h1 => h1.2.2)

/-- C12 at concrete inputs, capacity 5 and the container `{1,2,3,4}`: a forward-only
source of exactly five elements is accepted and gives `size() = 5`; a source of
six elements ends in the capacity assertion, after constructing slot 4 only. -/
theorem C12_forward_assign_capacity_witness :
    (∀ s2, assign Traits.element_wise IteratorKind.forward [7, 8, 9, 10, 11]
        (of_list 5 [1, 2, 3, 4] none) = .returned () s2 →
      5 ≤ 5 ∧ s2.size = 5 ∧ s2.elements = [some 7, some 8, some 9, some 10, some 11]) ∧
    (∃ s2, assign Traits.element_wise IteratorKind.forward [7, 8, 9, 10, 11]
        (of_list 5 [1, 2, 3, 4] none) = .returned () s2) ∧
    (∃ s2, assign Traits.element_wise IteratorKind.forward [7, 8, 9, 10, 11, 12]
        (of_list 5 [1, 2, 3, 4] none) = .assertion_failed .capacity s2) ∧
    (assign Traits.element_wise IteratorKind.forward [7, 8, 9, 10, 11, 12]
        (of_list 5 [1, 2, 3, 4] none)).state.log
      = [⟨.assign, 0, 4⟩, ⟨.assign, 1, 4⟩, ⟨.assign, 2, 4⟩, ⟨.assign, 3, 4⟩,
         ⟨.construct, 4, 4⟩] :=
  ⟨(C12_forward_assign_capacity Traits.element_wise IteratorKind.forward [7, 8, 9, 10, 11]
      (of_list 5 [1, 2, 3, 4] none) rfl (by decide)).1,
   (C12_forward_assign_capacity Traits.element_wise IteratorKind.forward [7, 8, 9, 10, 11]
      (of_list 5 [1, 2, 3, 4] none) rfl (by decide)).2.1 rfl (by decide),
   (C12_forward_assign_capacity Traits.element_wise IteratorKind.forward
      [7, 8, 9, 10, 11, 12] (of_list 5 [1, 2, 3, 4] none) rfl (by decide)).2.2.1 rfl
      (by decide),
   rfl⟩

/-! ### The iterator checks of range erase (C23) -/

theorem failed_assertion_none {α σ : Type} {o : Outcome α σ} {Qr : α → σ → Prop}
    {Qt : σ → Prop} (h : o.sat Qr Qt (fun _ => False)) : o.failed_assertion = none := by
  cases o with
  | returned a s => rfl
  | threw e s => rfl
  | assertion_failed a s => exact absurd h id

/-- C23: `erase(first, last)` passes its two iterator checks exactly when both
`first` and `last` index a live element, `first < size()` and `last < size()`;
otherwise it ends in the invalid-iterator assertion with the container
untouched. With both checks passed, `last < first` ends in the invalid-range
assertion, and `first <= last` ends in no assertion at all. In particular a
range that ends at `end()`, and any range on an empty container, ends in the
invalid-iterator assertion. -/
theorem C23_erase_range_checks (T : Traits) (first last : Nat)
    (s : static_vector Value Capacity) :
    ((erase_range T first last s).failed_assertion ≠ some .invalid_iterator ↔
      (first < s.size ∧ last < s.size)) ∧
    (¬(first < s.size ∧ last < s.size) →
      erase_range T first last s = .assertion_failed .invalid_iterator s) ∧
    ((erase_range T first last s).failed_assertion = some .invalid_range ↔
      (first < s.size ∧ last < s.size ∧ last < first)) ∧
    ((erase_range T first last s).failed_assertion = none ↔
      (first < s.size ∧ last < s.size ∧ first ≤ last)) ∧
    erase_range T first s.size s = .assertion_failed .invalid_iterator s ∧
    (s.size = 0 → erase_range T first last s = .assertion_failed .invalid_iterator s) := by
  unfold size
  have hbad : ∀ last, ¬(first < s.m_size ∧ last < s.m_size) →
      erase_range T first last s = .assertion_failed .invalid_iterator s := by
    intro last h
    unfold erase_range check_iterator_end_neq
    by_cases h1 : first < s.m_size
    · have h2 : ¬ last < s.m_size := fun h2 => h ⟨h1, h2⟩
      simp only [h1, h2, if_true, if_false, Outcome.bind]
    · simp only [h1, if_false, Outcome.bind]
  have hrange : first < s.m_size → last < s.m_size → last < first →
      erase_range T first last s = .assertion_failed .invalid_range s := by
    intro h1 h2 h3
    unfold erase_range check_iterator_end_neq
    simp only [h1, h2, if_true, Outcome.bind]
    rw [if_neg (by omega)]
  have hgood : first < s.m_size → last < s.m_size → first ≤ last →
      (erase_range T first last s).failed_assertion = none :=
    fun _ h2 h3 => failed_assertion_none (erase_range_sat T first last s h3 h2)
  have hcases : (first < s.m_size ∧ last < s.m_size ∧ first ≤ last) ∨
      (first < s.m_size ∧ last < s.m_size ∧ last < first) ∨
      ¬(first < s.m_size ∧ last < s.m_size) := by
    by_cases h1 : first < s.m_size
    · by_cases h2 : last < s.m_size
      · by_cases h3 : first ≤ last
        · exact Or.inl ⟨h1, h2, h3⟩
        · exact Or.inr (Or.inl ⟨h1, h2, by omega⟩)
      · exact Or.inr (Or.inr (fun h => h2 h.2))
    · exact Or.inr (Or.inr (fun h => h1 h.1))
  have hend : ¬(first < s.m_size ∧ s.m_size < s.m_size) := fun h => Nat.lt_irrefl _ h.2
  refine ⟨?_, hbad last, ?_, ?_, hbad _ hend, fun h0 => hbad last (by omega)⟩
  · rcases hcases with ⟨h1, h2, h3⟩ | ⟨h1, h2, h3⟩ | h
    · rw [hgood h1 h2 h3]
      exact ⟨fun _ => ⟨h1, h2⟩, fun _ hx => by cases hx⟩
    · rw [hrange h1 h2 h3]
      exact ⟨fun _ => ⟨h1, h2⟩, fun _ hx => by cases hx⟩
    · rw [hbad last h]
      exact ⟨fun hx => absurd rfl hx, fun hx => absurd hx h⟩
  · rcases hcases with ⟨h1, h2, h3⟩ | ⟨h1, h2, h3⟩ | h
    · rw [hgood h1 h2 h3]
      exact ⟨fun hx => (by cases hx), fun hx => by omega⟩
    · rw [hrange h1 h2 h3]
      exact ⟨fun _ => ⟨h1, h2, h3⟩, fun _ => rfl⟩
    · rw [hbad last h]
      exact ⟨fun hx => (by cases hx), fun hx => absurd ⟨hx.1, hx.2.1⟩ h⟩
  · rcases hcases with ⟨h1, h2, h3⟩ | ⟨h1, h2, h3⟩ | h
    · rw [hgood h1 h2 h3]
      exact ⟨fun _ => ⟨h1, h2, h3⟩, fun _ => rfl⟩
    · rw [hrange h1 h2 h3]
      exact ⟨fun hx => (by cases hx), fun hx => by omega⟩
    · rw [hbad last h]
      exact ⟨fun hx => (by cases hx), fun hx => absurd ⟨hx.1, hx.2.1⟩ h⟩

/-! ### The capacity check of insert under machine arithmetic (C24) -/

theorem insert_n_checks_without_wrap (w position count : Nat)
    (s s2 : static_vector Value Capacity) (hw : s.m_size + count < 2 ^ w)
    (h : insert_n_checks w position count s = .returned () s2) :
    position ≤ s.m_size ∧ s.m_size + count ≤ Capacity := by
  unfold insert_n_checks check_iterator_end_eq check_capacity size_type_add at h
  by_cases h1 : position ≤ s.m_size
  · by_cases h2 : s.m_size + count ≤ Capacity
    · exact ⟨h1, h2⟩
    · simp [h1, h2, Outcome.bind, Nat.mod_eq_of_lt hw] at h
  · simp [h1, Outcome.bind] at h

/-- C24 at the failing input: with a 64-bit `size_type`, capacity 4 and the
container `{1, 2}`, the call `insert(end(), 18446744073709551615, value)` has
`m_size + count = 1` modulo `2 ^ 64`, so both assertions pass although
`size() + count` exceeds the capacity; the same happens for a position in the
middle, and with a 32-bit `size_type` for `count = 4294967295`. -/
theorem C24_capacity_check_wraps :
    size_type_add 64 2 18446744073709551615 = 1 ∧
    insert_n_checks 64 2 18446744073709551615 (of_list 4 [1, 2] none)
      = .returned () (of_list 4 [1, 2] none) ∧
    insert_n_checks 64 1 18446744073709551615 (of_list 4 [1, 2] none)
      = .returned () (of_list 4 [1, 2] none) ∧
    insert_n_checks 32 2 4294967295 (of_list 4 [1, 2] none)
      = .returned () (of_list 4 [1, 2] none) ∧
    18446744073709551615 < 2 ^ 64 ∧
    ¬((of_list 4 [1, 2] none).size + 18446744073709551615 ≤ 4) := by
  refine ⟨by decide, ?_, ?_, ?_, by decide, by decide⟩
  · rfl
  · rfl
  · rfl

/-! ### What the member operations leave untouched -/

theorem assign_ascending_frame (rd : Nat → (Nat → Option Value) → Option Value)
    (dst n : Nat) (s : static_vector Value Capacity) :
    (assign_ascending rd dst n 0 s).sat
      (fun _ s2 => (∀ i, ¬(dst ≤ i ∧ i < dst + n) → s2.m_storage i = s.m_storage i) ∧
        s2.m_size = s.m_size ∧ (s.fuel = none → s2.fuel = none))
      (fun s2 => (∀ i, ¬(dst ≤ i ∧ i < dst + n) → s2.m_storage i = s.m_storage i) ∧
        s2.m_size = s.m_size ∧ s.fuel ≠ none)
      (fun _ => False) := by
  refine sat_mono (assign_ascending_sat rd dst
    (fun j m => ∀ i, ¬(dst ≤ i ∧ i < dst + j) → m i = s.m_storage i) n 0 s
    (fun _ _ => rfl) ?_) ?_ ?_ (fun _ h => h)
  · intro j m _ _ h i hi
    simp only [write]
    rw [if_neg (by omega)]
    exact h i (by omega)
  · rintro _ s2 ⟨h1, h2, h3⟩
    exact ⟨fun i hi => h1 i (by omega), h2, h3⟩
  · rintro s2 ⟨⟨j, _, h1, h2⟩, h3, h4⟩
    exact ⟨fun i hi => h2 i (by omega), h3, h4⟩

theorem std_fill_n_frame (dst n : Nat) (x : ValueRef Value)
    (s : static_vector Value Capacity) :
    (std_fill_n dst n x s).sat
      (fun _ s2 => (∀ i, ¬(dst ≤ i ∧ i < dst + n) → s2.m_storage i = s.m_storage i) ∧
        s2.m_size = s.m_size ∧ (s.fuel = none → s2.fuel = none))
      (fun s2 => (∀ i, ¬(dst ≤ i ∧ i < dst + n) → s2.m_storage i = s.m_storage i) ∧
        s2.m_size = s.m_size ∧ s.fuel ≠ none)
      (fun _ => False) :=
  assign_ascending_frame _ dst n s

theorem copy_frame (T : Traits) (src : Range Value) (n dst : Nat)
    (s : static_vector Value Capacity) :
    (copy T src n dst s).sat
      (fun _ s2 => (∀ i, ¬(dst ≤ i ∧ i < dst + n) → s2.m_storage i = s.m_storage i) ∧
        s2.m_size = s.m_size ∧ (s.fuel = none → s2.fuel = none))
      (fun s2 => (∀ i, ¬(dst ≤ i ∧ i < dst + n) → s2.m_storage i = s.m_storage i) ∧
        s2.m_size = s.m_size ∧ s.fuel ≠ none)
      (fun _ => False) := by
  unfold copy
  split
  · refine ⟨fun i hi => ?_, rfl, fun h => h⟩
    simp only [raw_copy, blit]
    rw [if_neg hi]
  · exact assign_ascending_frame _ dst n s

theorem uninitialized_copy_frame (T : Traits) (src : Range Value) (n dst : Nat)
    (s : static_vector Value Capacity) :
    (uninitialized_copy T src n dst s).sat
      (fun _ s2 => (∀ i, ¬(dst ≤ i ∧ i < dst + n) → s2.m_storage i = s.m_storage i) ∧
        s2.m_size = s.m_size ∧ (s.fuel = none → s2.fuel = none))
      (fun s2 => (∀ i, ¬(dst ≤ i ∧ i < dst + n) → s2.m_storage i = s.m_storage i) ∧
        s2.m_size = s.m_size ∧ s.fuel ≠ none)
      (fun _ => False) := by
  unfold uninitialized_copy
  split
  · refine ⟨fun i hi => ?_, rfl, fun h => h⟩
    simp only [raw_copy, blit]
    rw [if_neg hi]
  · refine sat_mono (construct_ascending_frame T src.read dst n s) (fun _ _ h => h) ?_
      (fun _ h => h)
    rintro s2 ⟨⟨j, h1, h2, _⟩, h3, h4⟩
    exact ⟨fun i hi => h2 i (by omega), h3, h4⟩

theorem std_uninitialized_fill_frame (T : Traits) (first last : Nat) (x : ValueRef Value)
    (s : static_vector Value Capacity) :
    (std_uninitialized_fill T first last x s).sat
      (fun _ s2 => (∀ i, ¬(first ≤ i ∧ i < last) → s2.m_storage i = s.m_storage i) ∧
        s2.m_size = s.m_size ∧ (s.fuel = none → s2.fuel = none))
      (fun s2 => (∀ i, ¬(first ≤ i ∧ i < last) → s2.m_storage i = s.m_storage i) ∧
        s2.m_size = s.m_size ∧ s.fuel ≠ none)
      (fun _ => False) := by
  refine sat_mono (construct_ascending_frame T _ first (last - first) s) ?_ ?_ (fun _ h => h)
  · rintro _ s2 ⟨h1, h2, h3⟩
    exact ⟨fun i hi => h1 i (by omega), h2, h3⟩
  · rintro s2 ⟨⟨j, h1, h2, _⟩, h3, h4⟩
    exact ⟨fun i hi => h2 i (by omega), h3, h4⟩

theorem move_backward_stopped (T : Traits) (first last dst : Nat)
    (s : static_vector Value Capacity) (h : first ≤ dst - (last - first)) :
    (move_backward T first last dst s).sat
      (fun _ s2 => updates s
        (blit (fun k => s.m_storage (first + k)) (dst - (last - first)) (last - first)
          s.m_storage) s2)
      (fun s2 => (∃ j, 0 < j ∧ j ≤ last - first ∧
          s2.m_storage = blit (fun k => s.m_storage (first + j + k))
            (dst - (last - first) + j) (last - first - j) s.m_storage) ∧
        s2.m_size = s.m_size ∧ s.fuel ≠ none)
      (fun _ => False) := by
  unfold move_backward
  split
  · exact raw_copy_updates _ _ _ _
  · unfold std_copy_backward
    refine sat_mono (assign_descending_sat (Range.self first).read (dst - (last - first))
      (fun j m => m = blit (fun k => s.m_storage (first + j + k))
        (dst - (last - first) + j) (last - first - j) s.m_storage)
      (last - first) s ?_ ?_) ?_ (fun _ h => h) (fun _ h => h)
    · funext i
      simp only [blit]
      rw [if_neg (by omega)]
    · intro j m hj hm
      subst hm
      funext i
      simp only [write, blit, Range.read]
      split_ifs <;> first | rfl | (exfalso; omega) | (congr 1; omega)
    · rintro _ s2 ⟨h1, h2, h3⟩
      exact ⟨by simpa using h1, h2, h3⟩

theorem move_backward_in_place (T : Traits) (first last : Nat)
    (s : static_vector Value Capacity) :
    (move_backward T first last last s).sat
      (fun _ s2 => s2.m_storage = s.m_storage ∧ s2.m_size = s.m_size ∧
        (s.fuel = none → s2.fuel = none))
      (fun s2 => s2.m_storage = s.m_storage ∧ s2.m_size = s.m_size ∧ s.fuel ≠ none)
      (fun _ => False) := by
  by_cases hl : first ≤ last
  · refine sat_mono (move_backward_stopped T first last last s (by omega)) ?_ ?_
      (fun _ h => h)
    · rintro _ s2 ⟨h1, h2, h3⟩
      refine ⟨?_, h2, h3⟩
      rw [h1]
      funext i
      simp only [blit]
      split_ifs <;> first | rfl | (congr 1; omega)
    · rintro s2 ⟨⟨j, _, _, h1⟩, h2, h3⟩
      refine ⟨?_, h2, h3⟩
      rw [h1]
      funext i
      simp only [blit]
      split_ifs <;> first | rfl | (congr 1; omega)
  · have e : last - first = 0 := by omega
    unfold move_backward std_copy_backward memmove
    rw [e]
    split
    · exact ⟨by simp only [raw_copy, blit_zero], rfl, fun h => h⟩
    · exact ⟨rfl, rfl, fun h => h⟩

/-! ### Inserting nothing (C26) -/

theorem insert_n_nothing (T : Traits) (p : Nat) (x : ValueRef Value)
    (s : static_vector Value Capacity) (hp : p ≤ s.m_size) (hs : s.m_size ≤ Capacity) :
    (insert_n T p 0 x s).sat
      (fun _ s2 => s2.m_storage = s.m_storage ∧ s2.m_size = s.m_size ∧
        (s.fuel = none → s2.fuel = none))
      (fun s2 => s2.m_storage = s.m_storage ∧ s2.m_size = s.m_size ∧ s.fuel ≠ none)
      (fun _ => False) := by
  unfold insert_n
  simp only [check_iterator_end_eq, check_capacity, hp, hs, Nat.add_zero, if_true,
    Outcome.bind]
  split_ifs with h1 h2
  · simp only [std_uninitialized_fill, Nat.sub_self, construct_ascending, Outcome.bind]
    exact ⟨rfl, rfl, fun h => h⟩
  · apply sat_bind
    refine sat_mono (uninitialized_copy_frame T (Range.self (s.m_size - 0)) 0 s.m_size s)
      ?_ ?_ (fun _ h => h)
    · rintro _ s3 ⟨h3, h4, h5⟩
      have e3 : s3.m_storage = s.m_storage := funext fun i => h3 i (by omega)
      have e1 : p + (s.m_size - p) - 0 = s3.m_size := by omega
      simp only [Nat.add_zero, Nat.sub_zero, set_size, e1]
      apply sat_bind
      refine sat_mono (move_backward_in_place T p s3.m_size _) ?_ ?_ (fun _ h => h)
      · rintro _ s5 ⟨h6, h7, h8⟩
        simp only [std_fill_n, assign_ascending, Outcome.sat]
        exact ⟨by rw [h6, ← e3], by rw [h7, ← h4], fun h => h8 (h5 h)⟩
      · rintro s5 ⟨h6, h7, h8⟩
        exact ⟨by rw [h6, ← e3], by rw [h7, ← h4], fun h => h8 (h5 h)⟩
    · rintro s3 ⟨h3, h4, h5⟩
      exact ⟨funext fun i => h3 i (by omega), h4, h5⟩
  · omega

theorem insert_in_the_middle_nothing (T : Traits) (p : Nat) (kind : IteratorKind)
    (s : static_vector Value Capacity) (hp : p < s.m_size) :
    (insert_in_the_middle T p kind [] 0 s).sat
      (fun _ s2 => s2.m_storage = s.m_storage ∧ s2.m_size = s.m_size ∧
        (s.fuel = none → s2.fuel = none))
      (fun s2 => s2.m_storage = s.m_storage ∧ s2.m_size = s.m_size ∧ s.fuel ≠ none)
      (fun _ => False) := by
  unfold insert_in_the_middle
  simp only
  rw [if_pos (by omega)]
  apply sat_bind
  refine sat_mono (uninitialized_copy_frame T (Range.self (s.m_size - 0)) 0 s.m_size s)
    ?_ ?_ (fun _ h => h)
  · rintro _ s3 ⟨h3, h4, h5⟩
    have e3 : s3.m_storage = s.m_storage := funext fun i => h3 i (by omega)
    have e1 : p + (s.m_size - p) - 0 = s3.m_size := by omega
    simp only [Nat.add_zero, Nat.sub_zero, set_size, e1]
    apply sat_bind
    refine sat_mono (move_backward_in_place T p s3.m_size _) ?_ ?_ (fun _ h => h)
    · rintro _ s5 ⟨h6, h7, h8⟩
      refine sat_mono (copy_frame T (Range.input kind []) 0 p s5) ?_ ?_ (fun _ h => h)
      · rintro _ s6 ⟨h9, h10, h11⟩
        exact ⟨by rw [← e3, ← h6]; exact funext fun i => h9 i (by omega),
          by rw [h10, h7, ← h4], fun h => h11 (h8 (h5 h))⟩
      · rintro s6 ⟨h9, h10, h11⟩
        exact ⟨by rw [← e3, ← h6]; exact funext fun i => h9 i (by omega),
          by rw [h10, h7, ← h4], fun h => h11 (h8 (h5 h))⟩
    · rintro s5 ⟨h6, h7, h8⟩
      exact ⟨by rw [h6, ← e3], by rw [h7, ← h4], fun h => h8 (h5 h)⟩
  · rintro s3 ⟨h3, h4, h5⟩
    exact ⟨funext fun i => h3 i (by omega), h4, h5⟩

theorem insert_range_nothing (T : Traits) (p : Nat) (kind : IteratorKind)
    (s : static_vector Value Capacity) (hp : p ≤ s.m_size) (hs : s.m_size ≤ Capacity) :
    (insert_range T p kind [] s).sat
      (fun _ s2 => s2.m_storage = s.m_storage ∧ s2.m_size = s.m_size ∧
        (s.fuel = none → s2.fuel = none))
      (fun s2 => s2.m_storage = s.m_storage ∧ s2.m_size = s.m_size ∧ s.fuel ≠ none)
      (fun _ => False) := by
  unfold insert_range
  split
  · unfold insert_dispatch_random_access
    simp only [check_iterator_end_eq, check_capacity, hp, hs, List.length_nil, Nat.add_zero,
      if_true, Outcome.bind]
    split_ifs with h1
    · apply sat_bind
      refine sat_mono (uninitialized_copy_frame T (Range.input kind []) 0 p s) ?_ ?_
        (fun _ h => h)
      · rintro _ s3 ⟨h3, h4, h5⟩
        exact ⟨funext fun i => h3 i (by omega), h4, h5⟩
      · rintro s3 ⟨h3, h4, h5⟩
        exact ⟨funext fun i => h3 i (by omega), h4, h5⟩
    · exact insert_in_the_middle_nothing T p kind s (by omega)
  · unfold insert_dispatch_not_random_access
    simp only [check_iterator_end_eq, hp, if_true, Outcome.bind]
    split_ifs with h1
    · simp only [uninitialized_copy_checked, uninitialized_copy_checked_loop, Outcome.bind,
        check_capacity, if_true, Nat.add_zero, hs]
      exact ⟨rfl, rfl, fun h => h⟩
    · simp only [check_capacity, List.length_nil, Nat.add_zero, hs, if_true, Outcome.bind]
      exact insert_in_the_middle_nothing T p kind s (by omega)

/-- C26: `insert(position, 0, value)` and `insert(position, first, first)` with an
empty source range, for every valid position `p <= size()` of a container with
`size() <= Capacity`, at the end as well as in the middle, whatever the element
type and the value argument: the call returns when no element operation throws
(in the middle the code assigns each element from `p` on to itself, and such an
assignment may throw), and whenever it returns, or is left by an exception, the
sequence of elements, `size()` and the whole storage are unchanged. -/
theorem C26_insert_nothing (T : Traits) (p : Nat) (x : ValueRef Value) (kind : IteratorKind)
    (s : static_vector Value Capacity) (hp : p ≤ s.size) (hs : s.size ≤ Capacity) :
    ((s.fuel = none → ∃ s2, insert_n T p 0 x s = .returned () s2) ∧
     (∀ s2, (insert_n T p 0 x s = .returned () s2 ∨
          ∃ e, insert_n T p 0 x s = .threw e s2) →
        s2.elements = s.elements ∧ s2.size = s.size ∧ s2.m_storage = s.m_storage)) ∧
    ((s.fuel = none → ∃ s2, insert_range T p kind [] s = .returned () s2) ∧
     (∀ s2, (insert_range T p kind [] s = .returned () s2 ∨
          ∃ e, insert_range T p kind [] s = .threw e s2) →
        s2.elements = s.elements ∧ s2.size = s.size ∧ s2.m_storage = s.m_storage)) := by
  have key : ∀ s2 : static_vector Value Capacity,
      s2.m_storage = s.m_storage → s2.m_size = s.m_size →
      s2.elements = s.elements ∧ s2.size = s.size ∧ s2.m_storage = s.m_storage := by
    intro s2 h1 h2
    exact ⟨by unfold elements; rw [h1, h2], h2, h1⟩
  have h1 := insert_n_nothing T p x s hp hs
  have h2 := insert_range_nothing T p kind s hp hs
  refine ⟨⟨fun hf => sat_total h1 (fun _ hn => hn.2.2 hf) (fun _ hn => hn), ?_⟩,
    ⟨fun hf => sat_total h2 (fun _ hn => hn.2.2 hf) (fun _ hn => hn), ?_⟩⟩
  · rintro s2 (ho | ⟨e, ho⟩)
    · obtain ⟨h3, h4, _⟩ := sat_returned h1 ho
      exact key s2 h3 h4
    · obtain ⟨h3, h4, _⟩ := sat_threw h1 ho
      exact key s2 h3 h4
  · rintro s2 (ho | ⟨e, ho⟩)
    · obtain ⟨h3, h4, _⟩ := sat_returned h2 ho
      exact key s2 h3 h4
    · obtain ⟨h3, h4, _⟩ := sat_threw h2 ho
      exact key s2 h3 h4

/-- C26 at concrete inputs: nothing inserted in the middle and at the end of
`{1, 2, 3}`, by count and from an empty forward-only range. -/
theorem C26_insert_nothing_witness :
    (∃ s2, insert_n Traits.element_wise 1 0 (ValueRef.value 9) (of_list 4 [1, 2, 3] none)
        = .returned () s2) ∧
    (∀ s2, (insert_range Traits.element_wise 3 IteratorKind.forward []
          (of_list 4 [1, 2, 3] none) = .returned () s2 ∨
        ∃ e, insert_range Traits.element_wise 3 IteratorKind.forward []
          (of_list 4 [1, 2, 3] none) = .threw e s2) →
      s2.elements = [some 1, some 2, some 3] ∧ s2.size = 3 ∧
        s2.m_storage = (of_list 4 [1, 2, 3] none).m_storage) ∧
    (insert_n Traits.element_wise 1 0 (ValueRef.value 9)
        (of_list 4 [1, 2, 3] none)).state.log = [⟨.assign, 2, 3⟩, ⟨.assign, 1, 3⟩] :=
  ⟨(C26_insert_nothing Traits.element_wise 1 (ValueRef.value 9) IteratorKind.forward
      (of_list 4 [1, 2, 3] none) (by decide) (by decide)).1.1 rfl,
   (C26_insert_nothing Traits.element_wise 3 (ValueRef.value 9) IteratorKind.forward
      (of_list 4 [1, 2, 3] none) (by decide) (by decide)).2.2,
   rfl⟩

/-! ### Growing by resize (C21) -/

theorem resize_value_ref_content (T : Traits) (count : Nat) (x : ValueRef Value)
    (s : static_vector Value Capacity) (hx : ref_valid x s) (hs : s.m_size ≤ count)
    (hc : count ≤ Capacity) :
    (resize_value T count x s).sat
      (fun _ s2 => s2.m_storage = blit (fun _ => x.read s.m_storage) s.m_size
          (count - s.m_size) s.m_storage ∧
        s2.m_size = count ∧ (s.fuel = none → s2.fuel = none))
      (fun _ => s.fuel ≠ none) (fun _ => False) := by
  unfold resize_value
  rw [if_neg (by omega)]
  simp only [check_capacity, hc, if_true, Outcome.bind]
  apply sat_bind
  refine sat_mono (construct_ascending_content T (fun _ m => x.read m) s.m_size
    (count - s.m_size) s (fun _ => x.read s.m_storage) ?_) ?_ (fun _ h => h.2.2)
    (fun _ h => h)
  · intro j m _ hm
    cases x with
    | value v => rfl
    | element k =>
      simp only [ValueRef.read]
      apply hm
      simp only [ref_valid] at hx
      omega
  · rintro _ s2 ⟨h1, h2, h3⟩
    exact ⟨h1, rfl, h3⟩

theorem resize_content [Inhabited Value] (T : Traits) (count : Nat)
    (s : static_vector Value Capacity) (hs : s.m_size ≤ count) (hc : count ≤ Capacity) :
    (resize T count s).sat
      (fun _ s2 => s2.m_storage =
          (if T.has_trivial_constructor then s.m_storage
           else blit (fun _ => some default) s.m_size (count - s.m_size) s.m_storage) ∧
        s2.m_size = count ∧ (s.fuel = none → s2.fuel = none))
      (fun _ => s.fuel ≠ none) (fun _ => False) := by
  unfold resize
  rw [if_neg (by omega)]
  simp only [check_capacity, hc, if_true, Outcome.bind]
  apply sat_bind
  refine sat_mono (construct_content T s.m_size count s) ?_ (fun _ h => h) (fun _ h => h)
  rintro _ s2 ⟨h1, h2, h3⟩
  exact ⟨h1, rfl, h3⟩

/-- C21, as amended: growing a container of size `n` to `count`, with
`n < count <= Capacity`. After `resize(count, value)` every element at an index
in `[n, count)` equals `value` (read through the reference when `value` refers
to a live element), for every element type. After `resize(count)` every such
element equals a default-constructed value when the element type has no trivial
constructor. When the element type has a trivial constructor, `construct` does
nothing: `resize(count)` returns the same state with `m_size = count`, so each
slot in `[n, count)` keeps the content it had before the call (a value stored
there earlier, or uninitialized storage). -/
theorem C21_resize_growth [Inhabited Value] (T : Traits) (count : Nat)
    (s : static_vector Value Capacity) (hn : s.size < count) (hc : count ≤ Capacity) :
    (∀ x : ValueRef Value, ref_valid x s →
      (s.fuel = none → ∃ s2, resize_value T count x s = .returned () s2) ∧
      (∀ s2, resize_value T count x s = .returned () s2 →
        s2.size = count ∧
        ∀ i, s.size ≤ i → i < count → s2.m_storage i = x.read s.m_storage)) ∧
    (T.has_trivial_constructor = false →
      (s.fuel = none → ∃ s2, resize T count s = .returned () s2) ∧
      (∀ s2, resize T count s = .returned () s2 →
        s2.size = count ∧ ∀ i, s.size ≤ i → i < count → s2.m_storage i = some default)) ∧
    (T.has_trivial_constructor = true →
      resize T count s = .returned () (set_size count s) ∧
      (set_size count s).m_storage = s.m_storage) := by
  unfold size at *
  refine ⟨fun x hx => ?_, fun hT => ?_, fun hT => ?_⟩
  · have h := resize_value_ref_content T count x s hx (by omega) hc
    refine ⟨fun hf => sat_total h (fun _ hn => hn hf) (fun _ hn => hn), fun s2 ho => ?_⟩
    obtain ⟨h1, h2, _⟩ := sat_returned h ho
    refine ⟨h2, fun i hi1 hi2 => ?_⟩
    rw [h1]
    simp only [blit]
    rw [if_pos (by omega)]
  · have h := resize_content T count s (by omega) hc
    refine ⟨fun hf => sat_total h (fun _ hn => hn hf) (fun _ hn => hn), fun s2 ho => ?_⟩
    obtain ⟨h1, h2, _⟩ := sat_returned h ho
    refine ⟨h2, fun i hi1 hi2 => ?_⟩
    rw [h1, hT]
    simp only [Bool.false_eq_true, if_false, blit]
    rw [if_pos (by omega)]
  · refine ⟨?_, rfl⟩
    unfold resize
    rw [if_neg (by omega)]
    simp only [check_capacity, hc, if_true, Outcome.bind, construct, hT]

/-- C21 at concrete inputs, capacity 4 and the container `{1, 2}` grown to size 4:
`resize(4, 7)` fills slots 2 and 3 with 7, `resize(4)` with a non-trivial
constructor fills them with the default value 0, and `resize(4)` with a trivial
constructor leaves them as they were. -/
theorem C21_resize_growth_witness :
    (∀ s2, resize_value Traits.raw 4 (ValueRef.value 7) (of_list 4 [1, 2] none)
        = .returned () s2 →
      s2.size = 4 ∧ ∀ i, 2 ≤ i → i < 4 → s2.m_storage i = some 7) ∧
    (∀ s2, resize Traits.element_wise 4 (of_list 4 [1, 2] none) = .returned () s2 →
      s2.size = 4 ∧ ∀ i, 2 ≤ i → i < 4 → s2.m_storage i = some 0) ∧
    resize Traits.raw 4 (of_list 4 [1, 2] none)
      = .returned () (set_size 4 (of_list 4 [1, 2] none)) :=
  ⟨((C21_resize_growth Traits.raw 4 (of_list 4 [1, 2] none) (by decide) (by decide)).1
      (ValueRef.value 7) trivial).2,
   ((C21_resize_growth Traits.element_wise 4 (of_list 4 [1, 2] none) (by decide)
      (by decide)).2.1 rfl).2,
   ((C21_resize_growth Traits.raw 4 (of_list 4 [1, 2] none) (by decide) (by decide)).2.2
      rfl).1⟩

/-- C21 fails as stated on the trivial-constructor path. An element type with
trivial operations, capacity 4: `push_back(5)`, `pop_back()`, `resize(1)` gives
a container of size 1 whose element 0 is the 5 stored earlier, not the
default-constructed value 0; and `resize(2)` on a new container gives two
elements of uninitialized storage. -/
theorem C21_counterexample :
    (∃ s1 s2 s3 : static_vector Nat 4,
      push_back Traits.raw (ValueRef.value 5) (default_ctor none []) = .returned () s1 ∧
      pop_back Traits.raw s1 = .returned () s2 ∧ s2.size = 0 ∧
      resize Traits.raw 1 s2 = .returned () s3 ∧ s3.size = 1 ∧
      s3.elements = [some 5] ∧ s3.elements ≠ [some default]) ∧
    (∃ s3 : static_vector Nat 4,
      resize Traits.raw 2 (default_ctor none []) = .returned () s3 ∧ s3.size = 2 ∧
      s3.elements = [none, none] ∧ s3.elements ≠ [some default, some default]) :=
  ⟨⟨_, _, _, rfl, rfl, rfl, rfl, rfl, rfl, by decide⟩, ⟨_, rfl, rfl, rfl, by decide⟩⟩

/-! ### A value argument that refers to an element of the container (C25) -/

theorem insert_element_storage (T : Traits) (p j : Nat) (s : static_vector Value Capacity)
    (hp : p < s.m_size) (hc : s.m_size + 1 ≤ Capacity) :
    (insert T p (ValueRef.element j) s).sat
      (fun _ s2 => s2.m_storage = inserted
          (fun _ => if j ≤ p then s.m_storage j
            else if j < s.m_size then s.m_storage (j - 1)
            else if j = s.m_size then s.m_storage (s.m_size - 1) else s.m_storage j)
          p 1 s.m_size s.m_storage ∧
        s2.m_size = s.m_size + 1 ∧ (s.fuel = none → s2.fuel = none))
      (fun _ => s.fuel ≠ none) (fun _ => False) := by
  unfold insert
  simp only [check_iterator_end_eq, check_capacity, Nat.le_of_lt hp, hc, if_true,
    Outcome.bind]
  rw [if_neg (by omega)]
  apply sat_bind
  refine sat_mono (uninitialized_fill_sat T s.m_size (ValueRef.element (s.m_size - 1)) s) ?_
    (fun _ h => h.2) (fun _ h => h)
  rintro _ s3 ⟨h3, h4, h5⟩
  apply sat_bind
  refine sat_mono (move_backward_content T p (s3.m_size + 1 - 2) (s3.m_size + 1 - 1)
    (set_size (s3.m_size + 1) s3) ?_) ?_ ?_ (fun _ h => h)
  · omega
  · rintro _ s5 ⟨h6, h7, h8⟩
    refine sat_mono (fill_sat T p (ValueRef.element j) s5) ?_ ?_ (fun _ h => h)
    · rintro _ s6 ⟨h9, h10, h11⟩
      refine ⟨?_, ?_, fun h => h11 (h8 (h5 h))⟩
      · rw [h9, h6]
        simp only [set_size, h3, h4]
        funext i
        simp only [blit, inserted, write, ValueRef.read]
        split_ifs <;> first | rfl | (exfalso; omega) | (congr 1; omega)
      · rw [h10, h7]; simp [set_size, h4]
    · intro _ h hn
      exact h.2 (h8 (h5 hn))
  · intro _ h hn
    exact h (h5 hn)

/-- C25 at the failing input: capacity 6 and the container `{10, 20, 30, 40, 50}`;
`insert(begin() + 1, (*this)[3])` returns with `{10, 30, 20, 30, 40, 50}`, on the
element-wise and on the raw path: the value inserted is the 30 that slot 3
holds after the elements were shifted, not the 40 it held when the call was
made. A reference to an element at or below the position (`(*this)[1]`,
`(*this)[0]`) inserts the value that element had. -/
theorem C25_insert_aliased_value :
    (insert Traits.element_wise 1 (ValueRef.element 3)
        (of_list 6 [10, 20, 30, 40, 50] none)).is_returned = true ∧
    (insert Traits.element_wise 1 (ValueRef.element 3)
        (of_list 6 [10, 20, 30, 40, 50] none)).state.elements
      = [some 10, some 30, some 20, some 30, some 40, some 50] ∧
    (insert Traits.raw 1 (ValueRef.element 3)
        (of_list 6 [10, 20, 30, 40, 50] none)).state.elements
      = [some 10, some 30, some 20, some 30, some 40, some 50] ∧
    (insert Traits.element_wise 1 (ValueRef.element 3)
        (of_list 6 [10, 20, 30, 40, 50] none)).state.elements
      ≠ (of_list 6 [10, 20, 30, 40, 50] none).elements.take 1
          ++ [(of_list 6 [10, 20, 30, 40, 50] none).m_storage 3]
          ++ (of_list 6 [10, 20, 30, 40, 50] none).elements.drop 1 ∧
    (insert Traits.element_wise 1 (ValueRef.element 1)
        (of_list 6 [10, 20, 30, 40, 50] none)).state.elements
      = [some 10, some 20, some 20, some 30, some 40, some 50] ∧
    (insert Traits.element_wise 1 (ValueRef.element 0)
        (of_list 6 [10, 20, 30, 40, 50] none)).state.elements
      = [some 10, some 10, some 20, some 30, some 40, some 50] := by
  refine ⟨rfl, rfl, rfl, ?_, rfl, rfl⟩
  decide

/-! ### The steps of an insertion (C22) -/

theorem steps_refl (P : Event → Prop) (s : static_vector Value Capacity) : steps P s s :=
  ⟨[], by simp, fun _ h => by simp at h, List.Pairwise.nil, le_refl _⟩

theorem steps_set_size {P : Event → Prop} {s s1 : static_vector Value Capacity} (c : Nat)
    (h : steps P s s1) (hc : s1.m_size ≤ c) : steps P s (set_size c s1) := by
  obtain ⟨evs, h1, h2, h3, h4⟩ := h
  refine ⟨evs, h1, fun e he => ?_, h3, ?_⟩
  · obtain ⟨h5, h6, h7⟩ := h2 e he
    exact ⟨h5, h6, by simp only [set_size]; omega⟩
  · simp only [set_size]; omega

theorem steps_trans {P1 P2 P : Event → Prop} {s s1 s2 : static_vector Value Capacity}
    (h1 : steps P1 s s1) (h2 : steps P2 s1 s2)
    (hc : ∀ a b, P1 a → P2 b → a.kind = .construct → b.kind = .construct → a.index < b.index)
    (i1 : ∀ e, P1 e → s.m_size ≤ e.size → e.size ≤ s1.m_size → P e)
    (i2 : ∀ e, P2 e → s1.m_size ≤ e.size → e.size ≤ s2.m_size → P e) : steps P s s2 := by
  obtain ⟨e1, h3, h4, h5, h6⟩ := h1
  obtain ⟨e2, h7, h8, h9, h10⟩ := h2
  refine ⟨e1 ++ e2, by rw [h7, h3, List.append_assoc], fun e he => ?_, ?_, by omega⟩
  · rcases List.mem_append.1 he with h | h
    · obtain ⟨a, b, c⟩ := h4 e h
      exact ⟨i1 e a b c, b, by omega⟩
    · obtain ⟨a, b, c⟩ := h8 e h
      exact ⟨i2 e a b c, by omega, c⟩
  · rw [List.pairwise_append]
    refine ⟨h5, h9, fun a ha b hb => ?_⟩
    obtain ⟨a1, a2, a3⟩ := h4 a ha
    obtain ⟨b1, b2, b3⟩ := h8 b hb
    exact ⟨by omega, hc a b a1 b1⟩

theorem steps_mono {P1 P : Event → Prop} {s s1 : static_vector Value Capacity}
    (h1 : steps P1 s s1) (i1 : ∀ e, P1 e → s.m_size ≤ e.size → e.size ≤ s1.m_size → P e) :
    steps P s s1 := by
  obtain ⟨e1, h3, h4, h5, h6⟩ := h1
  exact ⟨e1, h3, fun e he => ⟨i1 e (h4 e he).1 (h4 e he).2.1 (h4 e he).2.2, (h4 e he).2⟩,
    h5, h6⟩

theorem steps_of_log_ext {P : Event → Prop} {s s2 : static_vector Value Capacity}
    (h : log_ext (fun e => P e ∧ e.size = s.m_size ∧ e.kind ≠ .construct) s s2)
    (hs : s2.m_size = s.m_size) : steps P s s2 := by
  obtain ⟨evs, h1, h2⟩ := h
  refine ⟨evs, h1, fun e he => ?_, ?_, by omega⟩
  · obtain ⟨a, b, _⟩ := h2 e he
    exact ⟨a, by omega, by omega⟩
  · apply List.pairwise_of_forall_mem_list
    intro a ha b hb
    obtain ⟨_, a2, a3⟩ := h2 a ha
    obtain ⟨_, b2, _⟩ := h2 b hb
    exact ⟨by omega, fun hk => absurd hk a3⟩

theorem construct_ascending_steps (T : Traits)
    (rd : Nat → (Nat → Option Value) → Option Value) (dst : Nat) :
    ∀ (n k : Nat) (s : static_vector Value Capacity),
      (construct_ascending T rd dst n k s).sat
        (fun _ s2 => steps (fun e => builds dst (dst + k + n) e ∧
            (e.kind = .construct → dst + k ≤ e.index)) s s2 ∧ s2.m_size = s.m_size)
        (fun s2 => steps (fun e => builds dst (dst + k + n) e ∧
            (e.kind = .construct → dst + k ≤ e.index)) s s2 ∧ s2.m_size = s.m_size)
        (fun _ => False) := by
  intro n
  induction n with
  | zero => intro k s; exact ⟨steps_refl _ s, rfl⟩
  | succ n ih =>
    intro k s
    unfold construct_ascending placement_new
    cases tick s.fuel with
    | none =>
      simp only [Outcome.sat]
      refine ⟨steps_of_log_ext ⟨_, destroy_log T dst (dst + k) s, ?_⟩ (destroy_size _ _ _ _),
        destroy_size _ _ _ _⟩
      intro e he
      split_ifs at he with h
      · simp at he
      · obtain ⟨j, hj, rfl⟩ := List.mem_map.1 he
        have := List.mem_range.1 hj
        refine ⟨⟨⟨by simp, by simp only; omega, by simp⟩, by simp⟩, rfl, by simp⟩
    | some f =>
      simp only
      refine sat_mono (ih (k + 1) _) ?_ ?_ (fun _ h => h)
      · rintro _ s2 ⟨⟨evs, h1, h2, h3, h4⟩, h5⟩
        have h5 : s2.m_size = s.m_size := h5
        refine ⟨⟨⟨.construct, dst + k, s.m_size⟩ :: evs, ?_, ?_, ?_, ?_⟩, h5⟩
        · rw [h1]; simp [record]
        · intro e he
          rcases List.mem_cons.1 he with h | h
          · subst h
            exact ⟨⟨⟨by simp, by simp only; omega, by simp⟩, fun _ => le_refl _⟩,
              le_refl _, by simp only; omega⟩
          · obtain ⟨⟨⟨a, b, c⟩, d⟩, e1, e2⟩ := h2 e h
            exact ⟨⟨⟨a, by omega, c⟩, fun hk => by have := d hk; omega⟩, e1, e2⟩
        · rw [List.pairwise_cons]
          refine ⟨fun b hb => ?_, h3⟩
          obtain ⟨⟨_, d⟩, e1, _⟩ := h2 b hb
          exact ⟨e1, fun _ hk => by have := d hk; simp only; omega⟩
        · exact h4
      · rintro s2 ⟨⟨evs, h1, h2, h3, h4⟩, h5⟩
        have h5 : s2.m_size = s.m_size := h5
        refine ⟨⟨⟨.construct, dst + k, s.m_size⟩ :: evs, ?_, ?_, ?_, ?_⟩, h5⟩
        · rw [h1]; simp [record]
        · intro e he
          rcases List.mem_cons.1 he with h | h
          · subst h
            exact ⟨⟨⟨by simp, by simp only; omega, by simp⟩, fun _ => le_refl _⟩,
              le_refl _, by simp only; omega⟩
          · obtain ⟨⟨⟨a, b, c⟩, d⟩, e1, e2⟩ := h2 e h
            exact ⟨⟨⟨a, by omega, c⟩, fun hk => by have := d hk; omega⟩, e1, e2⟩
        · rw [List.pairwise_cons]
          refine ⟨fun b hb => ?_, h3⟩
          obtain ⟨⟨_, d⟩, e1, _⟩ := h2 b hb
          exact ⟨e1, fun _ hk => by have := d hk; simp only; omega⟩
        · exact h4

theorem assign_descending_log (P : Event → Prop)
    (rd : Nat → (Nat → Option Value) → Option Value) (dst : Nat) :
    ∀ (n : Nat) (s : static_vector Value Capacity),
      (∀ j, j < n → P ⟨.assign, dst + j, s.m_size⟩) →
      (assign_descending rd dst n s).sat
        (fun _ s2 => log_ext P s s2 ∧ s2.m_size = s.m_size)
        (fun s2 => log_ext P s s2 ∧ s2.m_size = s.m_size) (fun _ => False) := by
  intro n
  induction n with
  | zero => intro s _; exact ⟨log_ext_refl P s, rfl⟩
  | succ n ih =>
    intro s hP
    unfold assign_descending
    have h1 := assign_element_log P (dst + n) (rd n s.m_storage) s (hP n (by omega))
    cases ho : assign_element (dst + n) (rd n s.m_storage) s with
    | returned a s1 =>
      obtain ⟨h2, h3⟩ := sat_returned h1 ho
      have hP1 : ∀ j, j < n → P ⟨.assign, dst + j, s1.m_size⟩ := by
        intro j hj
        rw [h3]
        exact hP j (by omega)
      refine sat_mono (ih s1 hP1) ?_ ?_ (fun _ h => h)
      · rintro _ s2 ⟨h4, h5⟩
        exact ⟨log_ext_trans h2 h4, by rw [h5, h3]⟩
      · rintro s2 ⟨h4, h5⟩
        exact ⟨log_ext_trans h2 h4, by rw [h5, h3]⟩
    | threw e s1 =>
      have h2 : s1 = s := sat_threw h1 ho
      rw [h2]
      exact ⟨log_ext_refl P s, rfl⟩
    | assertion_failed a s1 =>
      rw [ho] at h1
      exact h1

theorem steps_raw_copy (src : Nat → Option Value) (dst n : Nat)
    (s : static_vector Value Capacity) :
    steps (fun e => dst ≤ e.index ∧ e.index < dst + n ∧ e.kind = .raw_write) s
      (raw_copy src dst n s) :=
  steps_of_log_ext (raw_copy_log _ src dst n s
    (fun j hj => ⟨⟨by simp, by simp only; omega, rfl⟩, rfl, by simp⟩)) rfl

theorem uninitialized_fill_steps (T : Traits) (dst : Nat) (x : ValueRef Value)
    (s : static_vector Value Capacity) :
    (uninitialized_fill T dst x s).sat
      (fun _ s2 => steps (builds dst (dst + 1)) s s2 ∧ s2.m_size = s.m_size)
      (fun s2 => steps (builds dst (dst + 1)) s s2 ∧ s2.m_size = s.m_size)
      (fun _ => False) := by
  unfold uninitialized_fill
  split
  · exact ⟨steps_mono (steps_raw_copy _ dst 1 s)
      (fun e h _ _ => ⟨h.1, h.2.1, by rw [h.2.2]; simp⟩), rfl⟩
  · unfold placement_new
    cases tick s.fuel with
    | none => exact ⟨steps_refl _ s, rfl⟩
    | some f =>
      refine ⟨⟨[⟨.construct, dst, s.m_size⟩], rfl, fun e he => ?_, List.pairwise_singleton _ _,
        le_refl _⟩, rfl⟩
      rw [List.mem_singleton.1 he]
      exact ⟨⟨le_refl _, by simp, by simp⟩, le_refl _, le_refl _⟩

theorem std_uninitialized_fill_steps (T : Traits) (first last : Nat) (x : ValueRef Value)
    (s : static_vector Value Capacity) :
    (std_uninitialized_fill T first last x s).sat
      (fun _ s2 => steps (builds first last) s s2 ∧ s2.m_size = s.m_size)
      (fun s2 => steps (builds first last) s s2 ∧ s2.m_size = s.m_size)
      (fun _ => False) := by
  refine sat_mono (construct_ascending_steps T _ first (last - first) 0 s) ?_ ?_
    (fun _ h => h)
  · rintro _ s2 ⟨h1, h2⟩
    exact ⟨steps_mono h1 (fun e h _ _ => ⟨h.1.1, by have := h.1.2.1; have := h.1.1; omega, h.1.2.2⟩), h2⟩
  · rintro s2 ⟨h1, h2⟩
    exact ⟨steps_mono h1 (fun e h _ _ => ⟨h.1.1, by have := h.1.2.1; have := h.1.1; omega, h.1.2.2⟩), h2⟩

theorem uninitialized_copy_steps (T : Traits) (src : Range Value) (n dst : Nat)
    (s : static_vector Value Capacity) :
    (uninitialized_copy T src n dst s).sat
      (fun _ s2 => steps (builds dst (dst + n)) s s2 ∧ s2.m_size = s.m_size)
      (fun s2 => steps (builds dst (dst + n)) s s2 ∧ s2.m_size = s.m_size)
      (fun _ => False) := by
  unfold uninitialized_copy
  split
  · exact ⟨steps_mono (steps_raw_copy _ dst n s)
      (fun e h _ _ => ⟨h.1, h.2.1, by rw [h.2.2]; simp⟩), rfl⟩
  · refine sat_mono (construct_ascending_steps T _ dst n 0 s) ?_ ?_ (fun _ h => h)
    · rintro _ s2 ⟨h1, h2⟩
      exact ⟨steps_mono h1 (fun e h _ _ => ⟨h.1.1, by have := h.1.2.1; have := h.1.1; omega, h.1.2.2⟩), h2⟩
    · rintro s2 ⟨h1, h2⟩
      exact ⟨steps_mono h1 (fun e h _ _ => ⟨h.1.1, by have := h.1.2.1; have := h.1.1; omega, h.1.2.2⟩), h2⟩

theorem assign_ascending_steps (rd : Nat → (Nat → Option Value) → Option Value)
    (dst n : Nat) (s : static_vector Value Capacity) :
    (assign_ascending rd dst n 0 s).sat
      (fun _ s2 => steps (overwrites dst (dst + n)) s s2 ∧ s2.m_size = s.m_size)
      (fun s2 => steps (overwrites dst (dst + n)) s s2 ∧ s2.m_size = s.m_size)
      (fun _ => False) := by
  refine sat_mono (assign_ascending_log
    (fun e => overwrites dst (dst + n) e ∧ e.size = s.m_size ∧ e.kind ≠ .construct)
    rd dst n 0 s
    (fun j _ hj => ⟨⟨by simp, by simp only; omega, Or.inl rfl⟩, rfl, by simp⟩)) ?_ ?_
    (fun _ h => h)
  · rintro _ s2 ⟨h1, h2⟩
    exact ⟨steps_of_log_ext h1 h2, h2⟩
  · rintro s2 ⟨h1, h2⟩
    exact ⟨steps_of_log_ext h1 h2, h2⟩

theorem copy_steps (T : Traits) (src : Range Value) (n dst : Nat)
    (s : static_vector Value Capacity) :
    (copy T src n dst s).sat
      (fun _ s2 => steps (overwrites dst (dst + n)) s s2 ∧ s2.m_size = s.m_size)
      (fun s2 => steps (overwrites dst (dst + n)) s s2 ∧ s2.m_size = s.m_size)
      (fun _ => False) := by
  unfold copy
  split
  · exact ⟨steps_mono (steps_raw_copy _ dst n s)
      (fun e h _ _ => ⟨h.1, h.2.1, Or.inr h.2.2⟩), rfl⟩
  · exact assign_ascending_steps _ dst n s

theorem fill_steps (T : Traits) (dst : Nat) (x : ValueRef Value)
    (s : static_vector Value Capacity) :
    (fill T dst x s).sat
      (fun _ s2 => steps (overwrites dst (dst + 1)) s s2 ∧ s2.m_size = s.m_size)
      (fun s2 => steps (overwrites dst (dst + 1)) s s2 ∧ s2.m_size = s.m_size)
      (fun _ => False) := by
  unfold fill
  split
  · exact ⟨steps_mono (steps_raw_copy _ dst 1 s)
      (fun e h _ _ => ⟨h.1, h.2.1, Or.inr h.2.2⟩), rfl⟩
  · refine sat_mono (assign_element_log
      (fun e => overwrites dst (dst + 1) e ∧ e.size = s.m_size ∧ e.kind ≠ .construct)
      dst _ s ⟨⟨le_refl _, by simp, Or.inl rfl⟩, rfl, by simp⟩) ?_ ?_ (fun _ h => h)
    · rintro _ s2 ⟨h1, h2⟩
      exact ⟨steps_of_log_ext h1 h2, h2⟩
    · rintro s2 h
      rw [h]
      exact ⟨steps_refl _ s, rfl⟩

theorem move_backward_steps (T : Traits) (first last dst : Nat)
    (s : static_vector Value Capacity) :
    (move_backward T first last dst s).sat
      (fun _ s2 => steps (overwrites (dst - (last - first))
          (dst - (last - first) + (last - first))) s s2 ∧ s2.m_size = s.m_size)
      (fun s2 => steps (overwrites (dst - (last - first))
          (dst - (last - first) + (last - first))) s s2 ∧ s2.m_size = s.m_size)
      (fun _ => False) := by
  unfold move_backward
  split
  · exact ⟨steps_mono (steps_raw_copy _ _ _ s)
      (fun e h _ _ => ⟨h.1, h.2.1, Or.inr h.2.2⟩), rfl⟩
  · unfold std_copy_backward
    refine sat_mono (assign_descending_log
      (fun e => overwrites (dst - (last - first)) (dst - (last - first) + (last - first)) e ∧
        e.size = s.m_size ∧ e.kind ≠ .construct)
      _ (dst - (last - first)) (last - first) s
      (fun j hj => ⟨⟨by simp, by simp only; omega, Or.inl rfl⟩, rfl, by simp⟩)) ?_ ?_
      (fun _ h => h)
    · rintro _ s2 ⟨h1, h2⟩
      exact ⟨steps_of_log_ext h1 h2, h2⟩
    · rintro s2 ⟨h1, h2⟩
      exact ⟨steps_of_log_ext h1 h2, h2⟩

theorem assign_descending_stopped (rd : Nat → (Nat → Option Value) → Option Value)
    (dst : Nat) (I : Nat → (Nat → Option Value) → Prop) :
    ∀ (n : Nat) (s : static_vector Value Capacity), I n s.m_storage →
      (∀ j m, j < n → I (j + 1) m → I j (write m (dst + j) (rd j m))) →
      (assign_descending rd dst n s).sat (fun _ _ => True)
        (fun s2 => ∃ j, 0 < j ∧ j ≤ n ∧ I j s2.m_storage ∧
          log_ext (fun e => dst + j ≤ e.index) s s2)
        (fun _ => False) := by
  intro n
  induction n with
  | zero => intro s _ _; trivial
  | succ n ih =>
    intro s h0 hstep
    unfold assign_descending assign_element
    cases tick s.fuel with
    | none => exact ⟨n + 1, by omega, le_refl _, h0, log_ext_refl _ s⟩
    | some f =>
      simp only
      refine sat_mono (ih _ (hstep n _ (by omega) h0) ?_) (fun _ _ h => h) ?_ (fun _ h => h)
      · intro j m h1 h3
        exact hstep j m (by omega) h3
      · rintro s2 ⟨j, h1, h2, h3, h4⟩
        refine ⟨j, h1, by omega, h3, ?_⟩
        refine log_ext_trans (log_ext_one ⟨.assign, dst + n, s.m_size⟩ rfl ?_) h4
        simp only
        omega

theorem move_backward_stopped_steps (T : Traits) (first last dst : Nat)
    (s : static_vector Value Capacity) (h : first ≤ dst - (last - first)) :
    (move_backward T first last dst s).sat (fun _ _ => True)
      (fun s2 => ∃ j, 0 < j ∧ j ≤ last - first ∧
          s2.m_storage = blit (fun k => s.m_storage (first + j + k))
            (dst - (last - first) + j) (last - first - j) s.m_storage ∧
          log_ext (fun e => dst - (last - first) + j ≤ e.index) s s2)
      (fun _ => False) := by
  unfold move_backward
  split
  · trivial
  · unfold std_copy_backward
    refine assign_descending_stopped (Range.self first).read (dst - (last - first))
      (fun j m => m = blit (fun k => s.m_storage (first + j + k))
        (dst - (last - first) + j) (last - first - j) s.m_storage)
      (last - first) s ?_ ?_
    · funext i
      simp only [blit]
      rw [if_neg (by omega)]
    · intro j m hj hm
      subst hm
      funext i
      simp only [write, blit, Range.read]
      split_ifs <;> first | rfl | (exfalso; omega) | (congr 1; omega)

theorem log_ext_of_steps {P Q : Event → Prop} {s s2 : static_vector Value Capacity}
    (h : steps Q s s2) (hq : ∀ e, Q e → s.m_size ≤ e.size → e.size ≤ s2.m_size → P e) :
    log_ext P s s2 := by
  obtain ⟨evs, h1, h2, _⟩ := h
  exact ⟨evs, h1, fun e he => hq e (h2 e he).1 (h2 e he).2.1 (h2 e he).2.2⟩

theorem log_ext_mono {P Q : Event → Prop} {s s2 : static_vector Value Capacity}
    (h : log_ext Q s s2) (hq : ∀ e, Q e → P e) : log_ext P s s2 := by
  obtain ⟨evs, h1, h2⟩ := h
  exact ⟨evs, h1, fun e he => hq e (h2 e he)⟩

theorem shifted_of_steps {p k : Nat} {s s2 : static_vector Value Capacity}
    (h : steps (disciplined p k s.m_size) s s2)
    (hv : ∀ i, p ≤ i → i < s.m_size → s2.m_storage (i + k) = s.m_storage i) :
    shifted k s s2 :=
  log_ext_of_steps h (fun e he _ _ hi => hv e.index he.1 hi)

theorem shifted_of_builds {lo hi k : Nat} {s s2 : static_vector Value Capacity}
    (h : steps (builds lo hi) s s2) (hlo : s.m_size ≤ lo) : shifted k s s2 :=
  log_ext_of_steps h (fun e he _ _ hi => by have := he.1; omega)

theorem disciplined_of_builds {p k n lo hi c : Nat} {e : Event} (h : builds lo hi e)
    (h1 : p ≤ lo) (h2 : hi ≤ n + k) (h3 : n ≤ lo) (h4 : c ≤ lo) (h5 : e.size ≤ c) :
    disciplined p k n e := by
  obtain ⟨a, b, d⟩ := h
  exact ⟨by omega, by omega, fun _ => by omega, fun hk => absurd hk d, fun _ => by omega⟩

theorem disciplined_of_overwrites {p k n lo hi : Nat} {e : Event} (h : overwrites lo hi e)
    (h1 : p ≤ lo) (h2 : hi ≤ n) (h3 : hi ≤ e.size) :
    disciplined p k n e := by
  obtain ⟨a, b, d⟩ := h
  refine ⟨by omega, by omega, fun hk => ?_, fun _ => ⟨by omega, by omega⟩, fun hk => ?_⟩
  · rcases d with d | d <;> rw [hk] at d <;> cases d
  · rcases d with d | d <;> rw [hk] at d <;> cases d

theorem overwrites_not_construct {lo hi : Nat} {e : Event} (h : overwrites lo hi e) :
    e.kind ≠ .construct := by
  obtain ⟨_, _, d⟩ := h
  intro hk
  rcases d with d | d <;> rw [hk] at d <;> cases d

theorem shift_fewer (T : Traits) (p k : Nat) (s : static_vector Value Capacity)
    (ini : Outcome Unit (static_vector Value Capacity))
    (mid fin : static_vector Value Capacity → Outcome Unit (static_vector Value Capacity))
    (hp : p ≤ s.m_size) (hk : k ≤ s.m_size - p)
    (hini : ini.sat
      (fun _ s3 => (steps (builds s.m_size (s.m_size + k)) s s3 ∧ s3.m_size = s.m_size) ∧
        s3.m_storage = blit (fun j => s.m_storage (s.m_size - k + j)) s.m_size k s.m_storage)
      (fun s3 => (steps (builds s.m_size (s.m_size + k)) s s3 ∧ s3.m_size = s.m_size) ∧
        ∀ i, i < s.m_size → s3.m_storage i = s.m_storage i)
      (fun _ => False))
    (hmid : ∀ s3 : static_vector Value Capacity, s3.m_size = s.m_size →
      mid s3 = move_backward T p (s.m_size - k) s.m_size (set_size (s.m_size + k) s3))
    (hfin : ∀ s5, (fin s5).sat
      (fun _ s6 => (steps (overwrites p (p + k)) s5 s6 ∧ s6.m_size = s5.m_size) ∧
        (∀ i, ¬(p ≤ i ∧ i < p + k) → s6.m_storage i = s5.m_storage i) ∧
        s6.m_size = s5.m_size ∧ (s5.fuel = none → s6.fuel = none))
      (fun s6 => (steps (overwrites p (p + k)) s5 s6 ∧ s6.m_size = s5.m_size) ∧
        (∀ i, ¬(p ≤ i ∧ i < p + k) → s6.m_storage i = s5.m_storage i) ∧
        s6.m_size = s5.m_size ∧ s5.fuel ≠ none)
      (fun _ => False)) :
    (ini.bind fun _ s3 => (mid s3).bind fun _ s5 => fin s5).sat
      (fun _ s2 => steps (disciplined p k s.m_size) s s2 ∧ relocated p k s s2 ∧
        shifted k s s2)
      (fun s2 => steps (disciplined p k s.m_size) s s2 ∧ relocated p k s s2 ∧
        shifted k s s2)
      (fun _ => False) := by
  have hb : ∀ s3 : static_vector Value Capacity,
      steps (builds s.m_size (s.m_size + k)) s s3 → s3.m_size = s.m_size →
      steps (disciplined p k s.m_size) s s3 := by
    intro s3 hs3 h4
    exact steps_mono hs3 (fun e h _ h2 =>
      disciplined_of_builds h (by omega) (le_refl _) (le_refl _) (le_refl s.m_size)
        (by omega))
  apply sat_bind
  refine sat_mono hini ?_ ?_ (fun _ h => h)
  · rintro _ s3 ⟨⟨hs3, h4⟩, h3⟩
    have hd3 : steps (disciplined p k s.m_size) s (set_size (s.m_size + k) s3) :=
      steps_set_size _ (hb s3 hs3 h4) (by omega)
    rw [hmid s3 h4]
    apply sat_bind
    refine sat_mono (sat_and_never (sat_and_never
      (move_backward_stopped T p (s.m_size - k) s.m_size (set_size (s.m_size + k) s3) ?_)
      (move_backward_steps T p (s.m_size - k) s.m_size (set_size (s.m_size + k) s3)))
      (move_backward_stopped_steps T p (s.m_size - k) s.m_size
        (set_size (s.m_size + k) s3) ?_)) ?_ ?_ (fun _ h => h)
    · omega
    · omega
    · rintro _ s5 ⟨⟨⟨h6, h7, _⟩, hs5, _⟩, _⟩
      have h7 : s5.m_size = s.m_size + k := h7
      have hd5 : steps (disciplined p k s.m_size) s s5 :=
        steps_trans hd3 hs5 (fun a b _ hb _ hk => absurd hk (overwrites_not_construct hb))
          (fun e h _ _ => h)
          (fun e h h1 _ => disciplined_of_overwrites h (by omega) (by omega)
            (by simp only [set_size] at h1; omega))
      have hv : ∀ i, p ≤ i → i < s.m_size → s5.m_storage (i + k) = s.m_storage i := by
        intro i hi1 hi2
        rw [h6]
        simp only [set_size, h3, blit]
        split_ifs <;> first | rfl | (exfalso; omega) | (congr 1; omega)
      refine sat_mono (hfin s5) ?_ ?_ (fun _ h => h)
      · rintro _ s6 ⟨⟨hs6, _⟩, h9, h10, _⟩
        have hv6 : ∀ i, p ≤ i → i < s.m_size → s6.m_storage (i + k) = s.m_storage i := by
          intro i hi1 hi2
          rw [h9 (i + k) (by omega)]
          exact hv i hi1 hi2
        have hd6 : steps (disciplined p k s.m_size) s s6 := steps_trans hd5 hs6
          (fun a b _ hb _ hk => absurd hk (overwrites_not_construct hb)) (fun e h _ _ => h)
          (fun e h h1 _ => disciplined_of_overwrites h (le_refl _) (by omega) (by omega))
        exact ⟨hd6, fun i hi1 hi2 => Or.inr (hv6 i hi1 hi2), shifted_of_steps hd6 hv6⟩
      · rintro s6 ⟨⟨hs6, _⟩, h9, h10, _⟩
        have hv6 : ∀ i, p ≤ i → i < s.m_size → s6.m_storage (i + k) = s.m_storage i := by
          intro i hi1 hi2
          rw [h9 (i + k) (by omega)]
          exact hv i hi1 hi2
        have hd6 : steps (disciplined p k s.m_size) s s6 := steps_trans hd5 hs6
          (fun a b _ hb _ hk => absurd hk (overwrites_not_construct hb)) (fun e h _ _ => h)
          (fun e h h1 _ => disciplined_of_overwrites h (le_refl _) (by omega) (by omega))
        exact ⟨hd6, fun i hi1 hi2 => Or.inr (hv6 i hi1 hi2), shifted_of_steps hd6 hv6⟩
    · rintro s5 ⟨⟨_, hs5, _⟩, j, hj1, hj2, h6, hl5⟩
      have hl : ∀ i, i < p + k + j → i < s.m_size → s5.m_storage i = s.m_storage i := by
        intro i hi1 hi2
        rw [h6]
        simp only [set_size, h3, blit]
        split_ifs <;> first | rfl | (exfalso; omega)
      have hr : ∀ i, p + k + j ≤ i → i < s.m_size →
          s5.m_storage (i + k) = s.m_storage i := by
        intro i hi1 hi2
        rw [h6]
        simp only [set_size, h3, blit]
        split_ifs <;> first | rfl | (exfalso; omega) | (congr 1; omega)
      refine ⟨steps_trans hd3 hs5
        (fun a b _ hb _ hk => absurd hk (overwrites_not_construct hb)) (fun e h _ _ => h)
        (fun e h h1 _ => disciplined_of_overwrites h (by omega) (by omega)
          (by simp only [set_size] at h1; omega)), fun i hi1 hi2 => ?_, ?_⟩
      · by_cases hi : i < p + k + j
        · exact Or.inl (hl i hi hi2)
        · exact Or.inr (hr i (by omega) hi2)
      · exact log_ext_trans
          (log_ext_set_size _ (log_ext_of_steps hs3
            (fun e he _ _ hi => by have := he.1; omega)))
          (log_ext_mono hl5 (fun e he hi => hr e.index (by omega) hi))
  · rintro s3 ⟨⟨hs3, h4⟩, h3⟩
    exact ⟨hb s3 hs3 h4, fun i _ hi2 => Or.inl (h3 i hi2), shifted_of_builds hs3 (le_refl _)⟩

theorem shift_more (T : Traits) (p k : Nat) (s : static_vector Value Capacity)
    (ini : Outcome Unit (static_vector Value Capacity))
    (fin : static_vector Value Capacity → Outcome Unit (static_vector Value Capacity))
    (hp : p ≤ s.m_size) (hk : s.m_size - p ≤ k)
    (hini : ini.sat
      (fun _ s3 => (steps (builds s.m_size (p + k)) s s3 ∧ s3.m_size = s.m_size) ∧
        (∀ i, ¬(s.m_size ≤ i ∧ i < p + k) → s3.m_storage i = s.m_storage i) ∧
        s3.m_size = s.m_size ∧ (s.fuel = none → s3.fuel = none))
      (fun s3 => (steps (builds s.m_size (p + k)) s s3 ∧ s3.m_size = s.m_size) ∧
        (∀ i, ¬(s.m_size ≤ i ∧ i < p + k) → s3.m_storage i = s.m_storage i) ∧
        s3.m_size = s.m_size ∧ s.fuel ≠ none)
      (fun _ => False))
    (hfin : ∀ s6, (fin s6).sat
      (fun _ s7 => (steps (overwrites p (p + (s.m_size - p))) s6 s7 ∧ s7.m_size = s6.m_size) ∧
        (∀ i, ¬(p ≤ i ∧ i < p + (s.m_size - p)) → s7.m_storage i = s6.m_storage i) ∧
        s7.m_size = s6.m_size ∧ (s6.fuel = none → s7.fuel = none))
      (fun s7 => (steps (overwrites p (p + (s.m_size - p))) s6 s7 ∧ s7.m_size = s6.m_size) ∧
        (∀ i, ¬(p ≤ i ∧ i < p + (s.m_size - p)) → s7.m_storage i = s6.m_storage i) ∧
        s7.m_size = s6.m_size ∧ s6.fuel ≠ none)
      (fun _ => False)) :
    (ini.bind fun _ s3 =>
      (uninitialized_copy T (Range.self p) (s.m_size - p) (p + k)
        (set_size (s3.m_size + (k - (s.m_size - p))) s3)).bind fun _ s5 =>
      fin (set_size (s5.m_size + (s.m_size - p)) s5)).sat
      (fun _ s2 => steps (disciplined p k s.m_size) s s2 ∧ relocated p k s s2 ∧
        shifted k s s2)
      (fun s2 => steps (disciplined p k s.m_size) s s2 ∧ relocated p k s s2 ∧
        shifted k s s2)
      (fun _ => False) := by
  have hb : ∀ s3 : static_vector Value Capacity, steps (builds s.m_size (p + k)) s s3 →
      s3.m_size = s.m_size →
      steps (fun e => disciplined p k s.m_size e ∧ e.index < p + k ∧ s.m_size ≤ e.index)
        s s3 := by
    intro s3 hs3 h4
    exact steps_mono hs3 (fun e h _ h2 =>
      ⟨disciplined_of_builds h hp (by omega) (le_refl _) (le_refl s.m_size) (by omega),
        h.2.1, h.1⟩)
  apply sat_bind
  refine sat_mono hini ?_ ?_ (fun _ h => h)
  · rintro _ s3 ⟨⟨hs3, _⟩, h3, h4, _⟩
    have hd3 : steps (fun e => disciplined p k s.m_size e ∧ e.index < p + k ∧
        s.m_size ≤ e.index) s (set_size (s3.m_size + (k - (s.m_size - p))) s3) :=
      steps_set_size _ (hb s3 hs3 h4) (by omega)
    apply sat_bind
    refine sat_mono (sat_and_never (sat_and_never
      (uninitialized_copy_content T (Range.self p) (s.m_size - p) (p + k)
        (set_size (s3.m_size + (k - (s.m_size - p))) s3)
        (fun j => s.m_storage (p + j)) ?_)
      (uninitialized_copy_frame T (Range.self p) (s.m_size - p) (p + k)
        (set_size (s3.m_size + (k - (s.m_size - p))) s3)))
      (uninitialized_copy_steps T (Range.self p) (s.m_size - p) (p + k)
        (set_size (s3.m_size + (k - (s.m_size - p))) s3))) ?_ ?_ (fun _ h => h)
    · intro j m hj hm
      simp only [Range.read]
      rw [hm _ (by omega)]
      simp only [set_size]
      exact h3 _ (by omega)
    · rintro _ s5 ⟨⟨⟨h6, h7, _⟩, _⟩, hs5, _⟩
      have h7 : s5.m_size = p + k := by rw [h7]; simp only [set_size]; omega
      have hd5 : steps (disciplined p k s.m_size) s s5 :=
        steps_trans hd3 hs5 (fun a b ha hb _ _ => by have := ha.2.1; have := hb.1; omega)
          (fun e h _ _ => h.1)
          (fun e h _ h2 => disciplined_of_builds h (by omega) (by omega) (by omega)
            (le_refl (p + k)) (by omega))
      have hd6 : steps (disciplined p k s.m_size) s
          (set_size (s5.m_size + (s.m_size - p)) s5) :=
        steps_set_size _ hd5 (by omega)
      have hv : ∀ i, p ≤ i → i < s.m_size → s5.m_storage (i + k) = s.m_storage i := by
        intro i hi1 hi2
        rw [h6]
        simp only [set_size, blit]
        rw [if_pos (by omega)]
        congr 1
        omega
      refine sat_mono (hfin _) ?_ ?_ (fun _ h => h)
      · rintro _ s7 ⟨⟨hs7, _⟩, h9, h10, _⟩
        have hv7 : ∀ i, p ≤ i → i < s.m_size → s7.m_storage (i + k) = s.m_storage i := by
          intro i hi1 hi2
          rw [h9 (i + k) (by omega)]
          exact hv i hi1 hi2
        have hd7 : steps (disciplined p k s.m_size) s s7 := steps_trans hd6 hs7
          (fun a b _ hb _ hk => absurd hk (overwrites_not_construct hb)) (fun e h _ _ => h)
          (fun e h h1 _ => disciplined_of_overwrites h (le_refl _) (by omega)
            (by simp only [set_size] at h1; omega))
        exact ⟨hd7, fun i hi1 hi2 => Or.inr (hv7 i hi1 hi2), shifted_of_steps hd7 hv7⟩
      · rintro s7 ⟨⟨hs7, _⟩, h9, h10, _⟩
        have hv7 : ∀ i, p ≤ i → i < s.m_size → s7.m_storage (i + k) = s.m_storage i := by
          intro i hi1 hi2
          rw [h9 (i + k) (by omega)]
          exact hv i hi1 hi2
        have hd7 : steps (disciplined p k s.m_size) s s7 := steps_trans hd6 hs7
          (fun a b _ hb _ hk => absurd hk (overwrites_not_construct hb)) (fun e h _ _ => h)
          (fun e h h1 _ => disciplined_of_overwrites h (le_refl _) (by omega)
            (by simp only [set_size] at h1; omega))
        exact ⟨hd7, fun i hi1 hi2 => Or.inr (hv7 i hi1 hi2), shifted_of_steps hd7 hv7⟩
    · rintro s5 ⟨⟨_, h6, h7, _⟩, hs5, _⟩
      have h7 : s5.m_size = p + k := by rw [h7]; simp only [set_size]; omega
      have hd5 : steps (fun e => disciplined p k s.m_size e ∧ s.m_size ≤ e.index) s s5 :=
        steps_trans hd3 hs5 (fun a b ha hb _ _ => by have := ha.2.1; have := hb.1; omega)
          (fun e h _ _ => ⟨h.1, h.2.2⟩)
          (fun e h _ h2 => ⟨disciplined_of_builds h (by omega) (by omega) (by omega)
            (le_refl (p + k)) (by omega), by have := h.1; omega⟩)
      refine ⟨steps_mono hd5 (fun e h _ _ => h.1), fun i _ hi2 => Or.inl ?_,
        log_ext_of_steps hd5 (fun e he _ _ hi => by have := he.2; omega)⟩
      rw [h6 i (by omega)]
      simp only [set_size]
      exact h3 i (by omega)
  · rintro s3 ⟨⟨hs3, _⟩, h3, h4, _⟩
    exact ⟨steps_mono (hb s3 hs3 h4) (fun e h _ _ => h.1),
      fun i _ hi2 => Or.inl (h3 i (by omega)), shifted_of_builds hs3 (le_refl _)⟩

theorem relocated_refl (p k : Nat) (s : static_vector Value Capacity) : relocated p k s s :=
  fun _ _ _ => Or.inl rfl

theorem insert_n_orderly (T : Traits) (p k : Nat) (x : ValueRef Value)
    (s : static_vector Value Capacity) :
    (insert_n T p k x s).sat
      (fun _ s2 => steps (disciplined p k s.m_size) s s2 ∧ relocated p k s s2 ∧
        shifted k s s2)
      (fun s2 => steps (disciplined p k s.m_size) s s2 ∧ relocated p k s s2 ∧
        shifted k s s2)
      (fun s2 => steps (disciplined p k s.m_size) s s2 ∧ relocated p k s s2 ∧
        shifted k s s2) := by
  unfold insert_n
  by_cases hp : p ≤ s.m_size
  · by_cases hc : s.m_size + k ≤ Capacity
    · simp only [check_iterator_end_eq, check_capacity, hp, hc, if_true, Outcome.bind]
      split_ifs with h1 h2
      · apply sat_bind
        refine sat_mono (std_uninitialized_fill_steps T p (p + k) x s) ?_ ?_
          (fun _ h => absurd h id)
        · rintro _ s3 ⟨hs3, h4⟩
          exact ⟨steps_set_size _ (steps_mono hs3 (fun e h _ h2 =>
              disciplined_of_builds h (le_refl _) (by omega) (by omega) (by omega : s.m_size ≤ p)
                (by omega))) (by omega),
            fun i _ _ => by omega,
            log_ext_set_size _ (shifted_of_builds hs3 (by omega))⟩
        · rintro s3 ⟨hs3, h4⟩
          exact ⟨steps_mono hs3 (fun e h _ h2 =>
              disciplined_of_builds h (le_refl _) (by omega) (by omega) (by omega : s.m_size ≤ p)
                (by omega)),
            fun i _ _ => by omega, shifted_of_builds hs3 (by omega)⟩
      · refine sat_mono (shift_fewer T p k s
          (uninitialized_copy T (Range.self (s.m_size - k)) k s.m_size s)
          (fun s3 => move_backward T p (p + (s.m_size - p) - k)
            ((set_size (s3.m_size + k) s3).m_size - k) (set_size (s3.m_size + k) s3))
          (fun s5 => std_fill_n p k x s5) hp (by omega) ?_ ?_
          (fun s5 => sat_and_never (assign_ascending_steps _ p k s5)
            (std_fill_n_frame p k x s5)))
          (fun _ _ h => h) (fun _ h => h) (fun _ h => absurd h id)
        · refine sat_mono (sat_and_never (sat_and_never
            (uninitialized_copy_steps T (Range.self (s.m_size - k)) k s.m_size s)
            (uninitialized_copy_content T (Range.self (s.m_size - k)) k s.m_size s
              (fun j => s.m_storage (s.m_size - k + j)) ?_))
            (uninitialized_copy_frame T (Range.self (s.m_size - k)) k s.m_size s)) ?_ ?_
            (fun _ h => h)
          · intro j m _ hm
            simp only [Range.read]
            apply hm; omega
          · rintro _ s3 ⟨⟨h1, h2, _⟩, _⟩
            exact ⟨h1, h2⟩
          · rintro s3 ⟨⟨h1, _⟩, h2, _⟩
            exact ⟨h1, fun i hi => h2 i (by omega)⟩
        · intro s3 h3
          simp only [set_size, h3]
          congr 1 <;> omega
      · refine sat_mono (shift_more T p k s
          (std_uninitialized_fill T s.m_size (p + k) x s)
          (fun s6 => std_fill_n p (s.m_size - p) x s6) hp (by omega)
          (sat_and_never (std_uninitialized_fill_steps T s.m_size (p + k) x s)
            (std_uninitialized_fill_frame T s.m_size (p + k) x s))
          (fun s6 => sat_and_never (assign_ascending_steps _ p (s.m_size - p) s6)
            (std_fill_n_frame p (s.m_size - p) x s6)))
          (fun _ _ h => h) (fun _ h => h) (fun _ h => absurd h id)
    · simp only [check_iterator_end_eq, check_capacity, hp, hc, if_true, if_false,
        Outcome.bind]
      exact ⟨steps_refl _ s, relocated_refl p k s, log_ext_refl _ s⟩
  · simp only [check_iterator_end_eq, hp, if_false, Outcome.bind]
    exact ⟨steps_refl _ s, relocated_refl p k s, log_ext_refl _ s⟩

theorem insert_in_the_middle_orderly (T : Traits) (p : Nat) (kind : IteratorKind)
    (items : List Value) (count : Nat) (s : static_vector Value Capacity)
    (hp : p ≤ s.m_size) :
    (insert_in_the_middle T p kind items count s).sat
      (fun _ s2 => steps (disciplined p count s.m_size) s s2 ∧ relocated p count s s2 ∧
        shifted count s s2)
      (fun s2 => steps (disciplined p count s.m_size) s s2 ∧ relocated p count s s2 ∧
        shifted count s s2)
      (fun _ => False) := by
  unfold insert_in_the_middle
  simp only
  split_ifs with h2
  · refine shift_fewer T p count s
      (uninitialized_copy T (Range.self (s.m_size - count)) count s.m_size s)
      (fun s3 => move_backward T p (p + (s.m_size - p) - count)
        ((set_size (s3.m_size + count) s3).m_size - count) (set_size (s3.m_size + count) s3))
      (fun s5 => copy T (Range.input kind items) count p s5) hp (by omega) ?_ ?_
      (fun s5 => sat_and_never (copy_steps T _ count p s5) (copy_frame T _ count p s5))
    · refine sat_mono (sat_and_never (sat_and_never
        (uninitialized_copy_steps T (Range.self (s.m_size - count)) count s.m_size s)
        (uninitialized_copy_content T (Range.self (s.m_size - count)) count s.m_size s
          (fun j => s.m_storage (s.m_size - count + j)) ?_))
        (uninitialized_copy_frame T (Range.self (s.m_size - count)) count s.m_size s)) ?_ ?_
        (fun _ h => h)
      · intro j m _ hm
        simp only [Range.read]
        apply hm; omega
      · rintro _ s3 ⟨⟨h1, h2, _⟩, _⟩
        exact ⟨h1, h2⟩
      · rintro s3 ⟨⟨h1, _⟩, h2, _⟩
        exact ⟨h1, fun i hi => h2 i (by omega)⟩
    · intro s3 h3
      simp only [set_size, h3]
      congr 1 <;> omega
  · have e : s.m_size + (count - (s.m_size - p)) = p + count := by omega
    refine shift_more T p count s
      (uninitialized_copy T (Range.input kind (items.drop (s.m_size - p)))
        (count - (s.m_size - p)) s.m_size s)
      (fun s6 => copy T (Range.input kind items) (s.m_size - p) p s6) hp (by omega) ?_
      (fun s6 => sat_and_never (copy_steps T _ (s.m_size - p) p s6)
        (copy_frame T _ (s.m_size - p) p s6))
    have h := sat_and_never
      (uninitialized_copy_steps T (Range.input kind (items.drop (s.m_size - p)))
        (count - (s.m_size - p)) s.m_size s)
      (uninitialized_copy_frame T (Range.input kind (items.drop (s.m_size - p)))
        (count - (s.m_size - p)) s.m_size s)
    rw [e] at h
    exact h

theorem insert_orderly (T : Traits) (p : Nat) (x : ValueRef Value)
    (s : static_vector Value Capacity) :
    (insert T p x s).sat
      (fun _ s2 => steps (disciplined p 1 s.m_size) s s2 ∧ relocated p 1 s s2 ∧
        shifted 1 s s2)
      (fun s2 => steps (disciplined p 1 s.m_size) s s2 ∧ relocated p 1 s s2 ∧
        shifted 1 s s2)
      (fun s2 => steps (disciplined p 1 s.m_size) s s2 ∧ relocated p 1 s s2 ∧
        shifted 1 s s2) := by
  unfold insert
  by_cases hp : p ≤ s.m_size
  · by_cases hc : s.m_size + 1 ≤ Capacity
    · simp only [check_iterator_end_eq, check_capacity, hp, hc, if_true, Outcome.bind]
      split_ifs with h1
      · apply sat_bind
        refine sat_mono (uninitialized_fill_steps T p x s) ?_ ?_ (fun _ h => absurd h id)
        · rintro _ s3 ⟨hs3, h4⟩
          exact ⟨steps_set_size _ (steps_mono hs3 (fun e h _ h2 =>
              disciplined_of_builds h (le_refl _) (by omega) (by omega) (by omega : s.m_size ≤ p)
                (by omega))) (by omega),
            fun i _ _ => by omega,
            log_ext_set_size _ (shifted_of_builds hs3 (by omega))⟩
        · rintro s3 ⟨hs3, h4⟩
          exact ⟨steps_mono hs3 (fun e h _ h2 =>
              disciplined_of_builds h (le_refl _) (by omega) (by omega) (by omega : s.m_size ≤ p)
                (by omega)),
            fun i _ _ => by omega, shifted_of_builds hs3 (by omega)⟩
      · refine sat_mono (shift_fewer T p 1 s
          (uninitialized_fill T s.m_size (ValueRef.element (s.m_size - 1)) s)
          (fun s3 => move_backward T p ((set_size (s3.m_size + 1) s3).m_size - 2)
            ((set_size (s3.m_size + 1) s3).m_size - 1) (set_size (s3.m_size + 1) s3))
          (fun s5 => fill T p x s5) hp (by omega) ?_ ?_ ?_)
          (fun _ _ h => h) (fun _ h => h) (fun _ h => absurd h id)
        · refine sat_mono (sat_and_never
            (uninitialized_fill_steps T s.m_size (ValueRef.element (s.m_size - 1)) s)
            (uninitialized_fill_sat T s.m_size (ValueRef.element (s.m_size - 1)) s)) ?_ ?_
            (fun _ h => h)
          · rintro _ s3 ⟨h1, h2, _⟩
            refine ⟨h1, ?_⟩
            rw [h2, blit_one]
            simp only [ValueRef.read, Nat.add_zero]
          · rintro s3 ⟨h1, h2, _⟩
            exact ⟨h1, fun i _ => by rw [h2]⟩
        · intro s3 h3
          simp only [set_size, h3]
          congr 1
        · intro s5
          refine sat_mono (sat_and_never (fill_steps T p x s5) (fill_sat T p x s5)) ?_ ?_
            (fun _ h => h)
          · rintro _ s6 ⟨h1, h2, h3, h4⟩
            refine ⟨h1, fun i hi => ?_, h3, h4⟩
            rw [h2]
            simp only [write]
            rw [if_neg (by omega)]
          · rintro s6 ⟨h1, h2, h3⟩
            exact ⟨h1, fun i _ => by rw [h2], by rw [h2], h3⟩
    · simp only [check_iterator_end_eq, check_capacity, hp, hc, if_true, if_false,
        Outcome.bind]
      exact ⟨steps_refl _ s, relocated_refl p 1 s, log_ext_refl _ s⟩
  · simp only [check_iterator_end_eq, hp, if_false, Outcome.bind]
    exact ⟨steps_refl _ s, relocated_refl p 1 s, log_ext_refl _ s⟩

theorem sat_state {α σ : Type} {o : Outcome α σ} {Q : σ → Prop}
    (h : o.sat (fun _ s => Q s) Q Q) : Q o.state := by
  cases o with
  | returned a s => exact h
  | threw e s => exact h
  | assertion_failed a s => exact h

theorem disciplined_valid {p k : Nat} {s : static_vector Value Capacity} {e : Event}
    (hv : valid s) (hc : s.m_size + k ≤ Capacity) (h : disciplined p k s.m_size e)
    (hs : s.m_size ≤ e.size) :
    (e.kind = .construct → s.m_storage e.index = none) ∧
    (e.kind = .assign → (s.m_storage e.index).isSome = true) ∧
    (e.kind = .destroy → s.m_storage e.index = none) := by
  obtain ⟨_, h2, h3, h4, h5⟩ := h
  obtain ⟨_, h6, h7⟩ := hv
  exact ⟨fun hk => h7 _ (by have := h3 hk; omega) (by omega), fun hk => h6 _ (h4 hk).2,
    fun hk => h7 _ (h5 hk) (by omega)⟩

/-- C22: the slot discipline of `insert(position, value)`, of
`insert(position, count, value)` and of `insert_in_the_middle`, for a position
`p <= size()`, any count (fewer, as many, or more values than elements to
move), any value argument, any element type, and for the whole execution
whether it returns, is left by an exception, or stops at an assertion. With `n`
the size before the call and `k` the number of values to insert, in the trace
of the call: every step targets a slot in `[p, n + k)`; every construction
targets a slot at or above the `m_size` of that moment, and a later
construction a higher slot than an earlier one (so no slot is constructed
twice); every assignment targets a slot below the `m_size` of that moment that
held an element before the call; a destructor call (of a rollback) targets a
slot at or above `n`; `m_size` never decreases from one step to the next and
stays between `n` and the final `m_size`. In the state the call ends in,
wherever it stops: every step that has overwritten an element targeted a slot
whose previous value is in the slot `k` places up, and no element from slot `p`
on has been lost (its value is still in its slot or in the slot `k` places
up). For a valid container with `n + k <= Capacity`, the slots that
constructions target were uninitialized and the slots that assignments target
were live when the call was made. -/
theorem C22_slot_discipline (T : Traits) (p k : Nat) (x : ValueRef Value)
    (kind : IteratorKind) (items : List Value) (s : static_vector Value Capacity)
    (hp : p ≤ s.size) :
    (steps (disciplined p 1 s.size) s (insert T p x s).state ∧
      relocated p 1 s (insert T p x s).state ∧ shifted 1 s (insert T p x s).state) ∧
    (steps (disciplined p k s.size) s (insert_n T p k x s).state ∧
      relocated p k s (insert_n T p k x s).state ∧
      shifted k s (insert_n T p k x s).state) ∧
    (steps (disciplined p k s.size) s (insert_in_the_middle T p kind items k s).state ∧
      relocated p k s (insert_in_the_middle T p kind items k s).state ∧
      shifted k s (insert_in_the_middle T p kind items k s).state) ∧
    (valid s → s.size + k ≤ Capacity → ∀ e, disciplined p k s.size e → s.size ≤ e.size →
      (e.kind = .construct → s.m_storage e.index = none) ∧
      (e.kind = .assign → (s.m_storage e.index).isSome = true) ∧
      (e.kind = .destroy → s.m_storage e.index = none)) :=
  ⟨sat_state (insert_orderly T p x s), sat_state (insert_n_orderly T p k x s),
   sat_state (sat_mono (insert_in_the_middle_orderly T p kind items k s hp)
     (fun _ _ h => h) (fun _ h => h) (fun _ h => absurd h id)),
   fun hv hc _ h hs => disciplined_valid hv hc h hs⟩

/-- C22 at concrete inputs, capacity 8 and the container `{1, 2, 3, 4, 5}`: two
values inserted before slot 1 (fewer than the four elements to move) and three
values inserted before slot 4 (more than the one element to move), with the
traces of the two calls on the element-wise path, and the storage in which
the first call stops when its fourth element operation throws. -/
theorem C22_slot_discipline_witness :
    (steps (disciplined 1 2 5) (of_list 8 [1, 2, 3, 4, 5] none)
        (insert_n Traits.element_wise 1 2 (ValueRef.value 9)
          (of_list 8 [1, 2, 3, 4, 5] none)).state ∧
      relocated 1 2 (of_list 8 [1, 2, 3, 4, 5] none)
        (insert_n Traits.element_wise 1 2 (ValueRef.value 9)
          (of_list 8 [1, 2, 3, 4, 5] none)).state ∧
      shifted 2 (of_list 8 [1, 2, 3, 4, 5] none)
        (insert_n Traits.element_wise 1 2 (ValueRef.value 9)
          (of_list 8 [1, 2, 3, 4, 5] none)).state) ∧
    (insert_n Traits.element_wise 1 2 (ValueRef.value 9)
        (of_list 8 [1, 2, 3, 4, 5] none)).state.log
      = [⟨.construct, 5, 5⟩, ⟨.construct, 6, 5⟩, ⟨.assign, 4, 7⟩, ⟨.assign, 3, 7⟩,
         ⟨.assign, 1, 7⟩, ⟨.assign, 2, 7⟩] ∧
    (insert_n Traits.element_wise 4 3 (ValueRef.value 9)
        (of_list 8 [1, 2, 3, 4, 5] none)).state.log
      = [⟨.construct, 5, 5⟩, ⟨.construct, 6, 5⟩, ⟨.construct, 7, 7⟩, ⟨.assign, 4, 8⟩] ∧
    (insert_n Traits.element_wise 1 2 (ValueRef.value 9)
        (of_list 8 [1, 2, 3, 4, 5] (some 3))).state.slots
      = [some 1, some 2, some 3, some 4, some 3, some 4, some 5, none] :=
  ⟨(C22_slot_discipline Traits.element_wise 1 2 (ValueRef.value 9) IteratorKind.forward []
      (of_list 8 [1, 2, 3, 4, 5] none) (by decide)).2.1, rfl, rfl, rfl⟩

/-! ### `insert(position, count, value)` with the arithmetic of `size_type` (C10) -/

theorem bind_congr {α β σ : Type} {o : Outcome α σ} {f g : α → σ → Outcome β σ}
    (h : o.sat (fun a s => f a s = g a s) (fun _ => True) (fun _ => True)) :
    o.bind f = o.bind g := by
  cases o with
  | returned a s => exact h
  | threw e s => rfl
  | assertion_failed a s => rfl

theorem insert_n_wrapping_eq (w : Nat) (T : Traits) (p k : Nat) (x : ValueRef Value)
    (s : static_vector Value Capacity) (hw : s.m_size + k < 2 ^ w) :
    insert_n_wrapping w T p k x s = insert_n T p k x s := by
  unfold insert_n_wrapping insert_n insert_n_checks check_iterator_end_eq check_capacity
  by_cases hp : p ≤ s.m_size
  · by_cases hc : s.m_size + k ≤ Capacity
    · simp only [hp, hc, size_type_add, Nat.mod_eq_of_lt hw, if_true, Outcome.bind]
      split_ifs with h1 h2
      · apply bind_congr
        refine sat_mono (std_uninitialized_fill_size T p (p + k) x s) ?_ (fun _ _ => trivial)
          (fun _ h => absurd h id)
        intro _ s3 h3
        rw [h3, Nat.mod_eq_of_lt hw]
      · apply bind_congr
        refine sat_mono (uninitialized_copy_size T (Range.self (s.m_size - k)) k s.m_size s)
          ?_ (fun _ _ => trivial) (fun _ h => absurd h id)
        intro _ s3 h3
        rw [h3, Nat.mod_eq_of_lt hw]
      · apply bind_congr
        refine sat_mono (std_uninitialized_fill_size T s.m_size (p + k) x s) ?_
          (fun _ _ => trivial) (fun _ h => absurd h id)
        intro _ s3 h3
        have e1 : (s3.m_size + (k - (s.m_size - p))) % 2 ^ w
            = s3.m_size + (k - (s.m_size - p)) := Nat.mod_eq_of_lt (by omega)
        rw [e1]
        apply bind_congr
        refine sat_mono (uninitialized_copy_size T (Range.self p) (s.m_size - p) (p + k)
          (set_size (s3.m_size + (k - (s.m_size - p))) s3)) ?_ (fun _ _ => trivial)
          (fun _ h => absurd h id)
        intro _ s5 h5
        have h5 : s5.m_size = s3.m_size + (k - (s.m_size - p)) := h5
        have e2 : (s5.m_size + (s.m_size - p)) % 2 ^ w = s5.m_size + (s.m_size - p) :=
          Nat.mod_eq_of_lt (by omega)
        rw [e2]
    · simp only [hp, hc, size_type_add, Nat.mod_eq_of_lt hw, if_true, if_false,
        Outcome.bind]
  · simp only [hp, if_false, Outcome.bind]

theorem insert_n_wrapping_rejects (w : Nat) (T : Traits) (p k : Nat) (x : ValueRef Value)
    (s : static_vector Value Capacity) (hp : p ≤ s.m_size) (hc : Capacity < s.m_size + k)
    (hw : s.m_size + k < 2 ^ w) :
    insert_n_wrapping w T p k x s = .assertion_failed .capacity s := by
  rw [insert_n_wrapping_eq w T p k x s hw]
  unfold insert_n
  simp only [check_iterator_end_eq, check_capacity, hp, if_true, Outcome.bind]
  rw [if_neg (by omega)]

theorem insert_n_wrapping_at_end (w : Nat) (T : Traits) (k : Nat) (v : Value)
    (s : static_vector Value Capacity) (hf : s.fuel = none)
    (hc : (s.m_size + k) % 2 ^ w ≤ Capacity) :
    ∃ s2, insert_n_wrapping w T s.m_size k (ValueRef.value v) s = .returned () s2 ∧
      s2.m_size = (s.m_size + k) % 2 ^ w ∧
      ∀ i, s.m_size ≤ i → i < s.m_size + k → s2.m_storage i = some v := by
  unfold insert_n_wrapping insert_n_checks check_iterator_end_eq check_capacity
  simp only [le_refl, hc, size_type_add, if_true, Outcome.bind]
  have h := std_uninitialized_fill_content T s.m_size (s.m_size + k) v s
  cases ho : std_uninitialized_fill T s.m_size (s.m_size + k) (ValueRef.value v) s with
  | returned a s3 =>
    obtain ⟨h1, h2, _⟩ := sat_returned h ho
    refine ⟨_, rfl, by simp only [set_size, h2], fun i hi1 hi2 => ?_⟩
    simp only [set_size, h1, blit]
    rw [if_pos (by omega)]
  | threw e s3 => exact absurd hf (sat_threw h ho)
  | assertion_failed a s3 =>
    rw [ho] at h
    exact absurd h id

/-- C10 at the failing input: with a 64-bit `size_type`, capacity 4 and the
container `{1, 2}`, `insert(end(), 18446744073709551615, 9)` has
`size() + count > Capacity`, but `m_size + count` wraps to 1 and no assertion
fires. If no element operation throws, the call returns with `m_size = 1`
after constructing the slots from 2 on, slot 4 and slot 5 beyond the capacity
among them; if the fourth construction throws, the trace shows slots 2, 3 and
4 constructed and destroyed again. A count that does not wrap is rejected with
the container untouched, as for capacity 4, `{1, 2, 3}` and
`insert(begin() + 1, 2, 9)`. -/
theorem C10_overflow_not_rejected :
    ¬((of_list 4 [1, 2] none).size + 18446744073709551615 ≤ 4) ∧
    (∃ s2, insert_n_wrapping 64 Traits.element_wise 2 18446744073709551615 (ValueRef.value 9)
        (of_list 4 [1, 2] none) = .returned () s2 ∧ s2.m_size = 1 ∧
      s2.m_storage 4 = some 9 ∧ s2.m_storage 5 = some 9) ∧
    (insert_n_wrapping 64 Traits.element_wise 2 18446744073709551615 (ValueRef.value 9)
        (of_list 4 [1, 2] (some 3))).failed_assertion = none ∧
    (insert_n_wrapping 64 Traits.element_wise 2 18446744073709551615 (ValueRef.value 9)
        (of_list 4 [1, 2] (some 3))).state.log
      = [⟨.construct, 2, 2⟩, ⟨.construct, 3, 2⟩, ⟨.construct, 4, 2⟩,
         ⟨.destroy, 2, 2⟩, ⟨.destroy, 3, 2⟩, ⟨.destroy, 4, 2⟩] ∧
    insert_n_wrapping 64 Traits.element_wise 1 2 (ValueRef.value 9) (of_list 4 [1, 2, 3] none)
      = .assertion_failed .capacity (of_list 4 [1, 2, 3] none) := by
  refine ⟨by decide, ?_, rfl, rfl, rfl⟩
  obtain ⟨s2, h1, h2, h3⟩ := insert_n_wrapping_at_end 64 Traits.element_wise
    18446744073709551615 9 (of_list 4 [1, 2] none) rfl (by decide)
  exact ⟨s2, h1, h2, h3 4 (by decide) (by decide), h3 5 (by decide) (by decide)⟩

/-! ### A count insert whose value argument refers to an element (C2) -/

/-- C2 at the failing input: capacity 8 and the container `{10, 20, 30, 40, 50}`;
`insert(begin() + 1, 2, (*this)[3])` returns with `{10, 20, 20, 20, 30, 40, 50}`,
on the element-wise and on the raw path: `std::fill_n` reads the argument after
`move_backward` has put the 20 into slot 3, so two copies of 20 are inserted
and not two copies of the 40 that the element held when the call was made. -/
theorem C2_insert_n_aliased_value :
    (insert_n Traits.element_wise 1 2 (ValueRef.element 3)
        (of_list 8 [10, 20, 30, 40, 50] none)).is_returned = true ∧
    (insert_n Traits.element_wise 1 2 (ValueRef.element 3)
        (of_list 8 [10, 20, 30, 40, 50] none)).state.elements
      = [some 10, some 20, some 20, some 20, some 30, some 40, some 50] ∧
    (insert_n Traits.raw 1 2 (ValueRef.element 3)
        (of_list 8 [10, 20, 30, 40, 50] none)).state.elements
      = [some 10, some 20, some 20, some 20, some 30, some 40, some 50] ∧
    (of_list 8 [10, 20, 30, 40, 50] none).elements.take 1
        ++ List.replicate 2 ((of_list 8 [10, 20, 30, 40, 50] none).m_storage 3)
        ++ (of_list 8 [10, 20, 30, 40, 50] none).elements.drop 1
      = [some 10, some 40, some 40, some 20, some 30, some 40, some 50] ∧
    (insert_n Traits.element_wise 1 2 (ValueRef.element 3)
        (of_list 8 [10, 20, 30, 40, 50] none)).state.elements
      ≠ (of_list 8 [10, 20, 30, 40, 50] none).elements.take 1
        ++ List.replicate 2 ((of_list 8 [10, 20, 30, 40, 50] none).m_storage 3)
        ++ (of_list 8 [10, 20, 30, 40, 50] none).elements.drop 1 ∧
    (insert_n Traits.element_wise 1 2 (ValueRef.element 0)
        (of_list 8 [10, 20, 30, 40, 50] none)).state.elements
      = [some 10, some 10, some 10, some 20, some 30, some 40, some 50] ∧
    (insert_n Traits.element_wise 5 2 (ValueRef.element 3)
        (of_list 8 [10, 20, 30, 40, 50] none)).state.elements
      = [some 10, some 20, some 30, some 40, some 50, some 40, some 40] := by
  refine ⟨rfl, rfl, rfl, rfl, ?_, rfl, rfl⟩
  decide

end static_vector
